import Mathlib

/-!
# Depthmap (`src/common/data/depthmap.cc`)

A shallow embedding of `oc::Depthmap`: the grid construction, the surface
validator `IsSurface`, the mesh builder `MakeSurface`, the quad merger `Join`
and the smoother `SmoothSurface`.

Conventions of the embedding.

* C++ `int` values are `Int`; `std::vector` is `List`.
* `float` values are kept as the rationals (`ℚ`) they stand for.  The validator
  exists twice.  `IsSurface` computes with exact numbers: it carries the
  statements that take the depths as exact numbers, and `MakeSurface`, `Join`
  and `SmoothSurface` are built on it.  `IsSurface32` computes as the source
  does, in binary32 (`F32`: every operation rounded to nearest, ties to even,
  subnormal numbers, overflow to an infinity, NaN); `MakeSurface32` and `Join32`
  are the mesh builder and the quad merger built on it.
* A read or a write outside a vector is undefined in C++.  `readAt`/`depthAt`
  return a fixed value there and `writeAt` leaves the vector alone; a statement
  about what the program does carries the hypotheses that keep every access
  inside the vectors, and every concrete evaluation below stays inside them.
* `int` is 32 bits, `unsigned int` 32 bits and `size_t` 64 bits wide; the one
  place where the width matters, the return expression of `Join`, carries the
  wrap-around explicitly (`joinCheck`).
* The pixel projection, the sensor-to-world transform and the colour sampling of
  the constructor are parameters (`Camera`).
-/

namespace Depthmap

/-- A `glm::vec3`. -/
structure Vec3 where
  x : ℚ
  y : ℚ
  z : ℚ
  deriving DecidableEq

/-- The `Rect` descriptor pushed by `Join`: four corner vertex ids. -/
structure Rect where
  a : Int
  b : Int
  c : Int
  d : Int
  deriving DecidableEq

/-- The members of `oc::Depthmap`; `matrix` is kept as its 16 entries. -/
structure State where
  stride : Int
  height : Int
  map : List Int
  vecmap : List Vec3
  vertices : List Vec3
  depth : List ℚ
  colors : List Int
  indices : List Int
  rects : List Rect
  lastMargin : Int
  matrix : List ℚ
  deriving DecidableEq

/-- Reading `v[i]` of a `std::vector<int>`; `-1` outside the vector. -/
def readAt (v : List Int) (i : Int) : Int :=
  if 0 ≤ i then v.getD i.toNat (-1) else -1

/-- The assignment `v[i] = val`; nothing is written outside the vector. -/
def writeAt {α : Type} (v : List α) (i : Int) (val : α) : List α :=
  if 0 ≤ i then v.set i.toNat val else v

/-- Reading `depth[i]`; `0` outside the vector. -/
def depthAt (depth : List ℚ) (i : Int) : ℚ :=
  if 0 ≤ i then depth.getD i.toNat 0 else 0

/-- The values taken by `v` in `for (int v = lo; v < hi; v++)`. -/
def loopRange (lo hi : Int) : List Int :=
  (List.range (hi - lo).toNat).map (fun (k : Nat) => lo + (k : Int))

/-- `Depthmap::IsSurface` (lines 174-186) with the depths taken as exact numbers,
`aspect = 0.075`; `IsSurface32` is the same function computed in binary32. -/
def IsSurface (depth : List ℚ) (a b c : Int) : Bool :=
  let aspect : ℚ := 75 / 1000
  if 0 ≤ a ∧ 0 ≤ b ∧ 0 ≤ c ∧ a ≠ b ∧ b ≠ c ∧ c ≠ a then
    let avrg := aspect * (depthAt depth c + depthAt depth b + depthAt depth a) / 3
    let len1 := |depthAt depth a - depthAt depth b|
    let len2 := |depthAt depth a - depthAt depth c|
    let len3 := |depthAt depth b - depthAt depth c|
    if len1 < avrg ∧ len2 < avrg ∧ len3 < avrg then true else false
  else false

/-- The body of the two nested loops of `MakeSurface` (lines 89-102) at `(x, y)`. -/
def scanCell (stride : Int) (map : List Int) (depth : List ℚ) (x y : Int)
    (indices : List Int) : List Int :=
  let a := readAt map ((y - 1) * stride + x - 1)
  let b := readAt map ((y - 1) * stride + x)
  let c := readAt map (y * stride + x - 1)
  let d := readAt map (y * stride + x)
  let i1 := if IsSurface depth a b c then indices ++ [c, b, a] else indices
  if IsSurface depth b c d then i1 ++ [b, c, d] else i1

/-- The inner loop `for y` of `MakeSurface` for one column `x`. -/
def scanColumn (stride : Int) (map : List Int) (depth : List ℚ) (ys : List Int) (x : Int)
    (indices : List Int) : List Int :=
  ys.foldl (fun acc y => scanCell stride map depth x y acc) indices

/-- The grid scan of `MakeSurface` (lines 87-104), appending to `indices`. -/
def scanGrid (stride : Int) (map : List Int) (depth : List ℚ) (xs ys : List Int)
    (indices : List Int) : List Int :=
  xs.foldl (fun acc x => scanColumn stride map depth ys x acc) indices

/-- The six entries pushed for one merged quad (lines 106-111). -/
def rectEntries (r : Rect) : List Int := [r.c, r.b, r.a, r.b, r.c, r.d]

/-- The loop over `rects` of `MakeSurface` (lines 105-112). -/
def emitRects (rects : List Rect) (indices : List Int) : List Int :=
  rects.foldl (fun acc r => acc ++ rectEntries r) indices

/-- `Depthmap::MakeSurface` (lines 85-113).  The function pushes onto the
`indices` it finds; it does not clear them. -/
def MakeSurface (dm : State) (margin : Int) : State :=
  let xs := loopRange (1 + margin) (dm.stride - margin)
  let ys := loopRange (1 + margin) (dm.height - margin)
  let scanned := scanGrid dm.stride dm.map dm.depth xs ys dm.indices
  { dm with lastMargin := margin, indices := emitRects dm.rects scanned }

/-- The inner loop of lines 59-65 for one column `x`: `false` is the early
`return false`, and the map comes back as far as it was cleared. -/
def joinClearColumn (stride x : Int) : List Int → List Int → Bool × List Int
  | [], map => (true, map)
  | y :: ys, map =>
    if readAt map (y * stride + x) < 0 then (false, map)
    else joinClearColumn stride x ys (writeAt map (y * stride + x) (-1))

/-- The outer loop of lines 59-65. -/
def joinClear (stride : Int) (ys : List Int) : List Int → List Int → Bool × List Int
  | [], map => (true, map)
  | x :: xs, map =>
    match joinClearColumn stride x ys map with
    | (false, map1) => (false, map1)
    | (true, map1) => joinClear stride ys xs map1

/-- The loop of lines 68-71: the top and bottom row of the rectangle. -/
def joinRows (stride y1 y2 xm a b c d : Int) (xs : List Int) (map : List Int) : List Int :=
  xs.foldl (fun m x =>
    writeAt (writeAt m (y1 * stride + x) (if x < xm then a else b))
      (y2 * stride + x) (if x < xm then c else d)) map

/-- The loop of lines 73-76: the left and right column of the rectangle. -/
def joinColumns (stride x1 x2 ym a b c d : Int) (ys : List Int) (map : List Int) : List Int :=
  ys.foldl (fun m y =>
    writeAt (writeAt m (y * stride + x1) (if y < ym then a else c))
      (y * stride + x2) (if y < ym then b else d)) map

/-- The value of an `int` expression whose value over the integers is `v`: the
32-bit two's complement number congruent to `v`.  (A signed overflow is
undefined in C++; this is what the machine multiplication leaves.) -/
def wrapInt32 (v : Int) : Int := (v + 2 ^ 31) % 2 ^ 32 - 2 ^ 31

/-- The `return` expression of line 82.  `size` is an `unsigned int` (32 bits);
the product `(x2 - x1 + 1) * (y2 - y1 + 1) * 6` is an `int` (32 bits); the sum
with `indices.size()` is computed in `size_t` (64 bits, wrapping). -/
def joinCheck (sizeBefore sizeAfter : Nat) (x1 y1 x2 y2 : Int) : Bool :=
  decide (((sizeBefore : Int) % 2 ^ 32)
    = ((sizeAfter : Int) + wrapInt32 ((x2 - x1 + 1) * (y2 - y1 + 1) * 6) - 24) % 2 ^ 64)

/-- Lines 67-80 of `Join`: the border rows and columns are overwritten with the
corner ids, `indices` is cleared and the quad `{a, b, c, d}` is pushed. -/
def joinOverwrite (dm : State) (x1 y1 x2 y2 a b c d : Int) (map1 : List Int) : State :=
  let xm := (x1 + x2).tdiv 2
  let map2 := joinRows dm.stride y1 y2 xm a b c d (loopRange x1 (x2 + 1)) map1
  let ym := (y1 + y2).tdiv 2
  let map3 := joinColumns dm.stride x1 x2 ym a b c d (loopRange y1 (y2 + 1)) map2
  { dm with map := map3, indices := [], rects := dm.rects ++ [⟨a, b, c, d⟩] }

/-- `Depthmap::Join` (lines 46-83): the returned flag and the state left behind. -/
def Join (dm : State) (x1 y1 x2 y2 : Int) : Bool × State :=
  if x2 ≥ dm.stride then (false, dm)
  else if y2 ≥ dm.height then (false, dm)
  else
    let a := readAt dm.map (y1 * dm.stride + x1)
    let b := readAt dm.map (y1 * dm.stride + x2)
    let c := readAt dm.map (y2 * dm.stride + x1)
    let d := readAt dm.map (y2 * dm.stride + x2)
    if a < 0 ∨ b < 0 ∨ c < 0 ∨ d < 0 then (false, dm)
    else
      match joinClear dm.stride (loopRange y1 (y2 + 1)) (loopRange x1 (x2 + 1)) dm.map with
      | (false, map1) => (false, { dm with map := map1 })
      | (true, map1) =>
        let size := dm.indices.length
        let dm1 := joinOverwrite dm x1 y1 x2 y2 a b c d map1
        let dm2 := MakeSurface dm1 dm1.lastMargin
        (joinCheck size dm2.indices.length x1 y1 x2 y2, dm2)

/-- A binary32 number (`float`): a finite value, an infinity or a NaN.  The two
zeros are one number here: the sign of a zero shows only in a division by zero,
and the validator divides by `3.0f` alone. -/
inductive F32 where
  | fin (q : ℚ)
  | inf (negative : Bool)
  | nan
  deriving DecidableEq

/-- The binary32 exponent of `m ≥ 0`, searched downwards from `k - 126`: the
largest `e` with `-125 ≤ e ≤ k - 126` and `2^e ≤ m`, and `-126`, the exponent of
the subnormal numbers, where there is none.  With `k = 253` the search starts at
`127`, the largest exponent. -/
def expFrom (m : ℚ) : Nat → Int
  | 0 => -126
  | k + 1 => if (2 : ℚ) ^ ((k : Int) - 125) ≤ m then (k : Int) - 125 else expFrom m k

/-- The integer nearest to `r`, the even one of the two when `r` is halfway. -/
def roundEven (r : ℚ) : Int :=
  if r - (⌊r⌋ : ℚ) < 1 / 2 then ⌊r⌋
  else if 1 / 2 < r - (⌊r⌋ : ℚ) then ⌊r⌋ + 1
  else if ⌊r⌋ % 2 = 0 then ⌊r⌋ else ⌊r⌋ + 1

/-- The multiple of `2^(e - 23)` nearest to `m ≥ 0`, ties to even, for `e` the
binary32 exponent of `m`: the nearest number with a 24-bit significand. -/
def roundMag (m : ℚ) : ℚ :=
  (roundEven (m / (2 : ℚ) ^ (expFrom m 253 - 23)) : ℚ) * (2 : ℚ) ^ (expFrom m 253 - 23)

/-- The binary32 result of an operation whose exact result is `q`: round to
nearest, ties to even; a magnitude that rounds to `2^128` or more overflows to
the infinity of the sign of `q`. -/
def round32 (q : ℚ) : F32 :=
  if roundMag |q| < (2 : ℚ) ^ (128 : Int) then
    F32.fin (if q < 0 then - roundMag |q| else roundMag |q|)
  else F32.inf (decide (q < 0))

/-- The binary32 `-x`. -/
def F32.neg : F32 → F32
  | F32.fin q => F32.fin (-q)
  | F32.inf s => F32.inf (!s)
  | F32.nan => F32.nan

/-- The binary32 `x + y`. -/
def F32.add : F32 → F32 → F32
  | F32.fin x, F32.fin y => round32 (x + y)
  | F32.fin _, F32.inf t => F32.inf t
  | F32.inf s, F32.fin _ => F32.inf s
  | F32.inf s, F32.inf t => if s = t then F32.inf s else F32.nan
  | F32.nan, _ => F32.nan
  | _, F32.nan => F32.nan

/-- The binary32 `x - y`. -/
def F32.sub (x y : F32) : F32 := F32.add x (F32.neg y)

/-- The binary32 `x * y`. -/
def F32.mul : F32 → F32 → F32
  | F32.fin x, F32.fin y => round32 (x * y)
  | F32.fin x, F32.inf t => if x = 0 then F32.nan else F32.inf (xor (decide (x < 0)) t)
  | F32.inf s, F32.fin y => if y = 0 then F32.nan else F32.inf (xor s (decide (y < 0)))
  | F32.inf s, F32.inf t => F32.inf (xor s t)
  | F32.nan, _ => F32.nan
  | _, F32.nan => F32.nan

/-- The binary32 `x / y`; a zero divisor is taken as `+0`. -/
def F32.div : F32 → F32 → F32
  | F32.fin x, F32.fin y =>
    if y = 0 then (if x = 0 then F32.nan else F32.inf (decide (x < 0))) else round32 (x / y)
  | F32.fin _, F32.inf _ => F32.fin 0
  | F32.inf s, F32.fin y => F32.inf (xor s (decide (y < 0)))
  | F32.inf _, F32.inf _ => F32.nan
  | F32.nan, _ => F32.nan
  | _, F32.nan => F32.nan

/-- The function `fabs`. -/
def F32.abs : F32 → F32
  | F32.fin q => F32.fin |q|
  | F32.inf _ => F32.inf false
  | F32.nan => F32.nan

/-- The comparison `x < y` of two binary32 numbers; false when one is a NaN. -/
def F32.lt : F32 → F32 → Bool
  | F32.fin x, F32.fin y => decide (x < y)
  | F32.fin _, F32.inf t => !t
  | F32.inf s, F32.fin _ => s
  | F32.inf s, F32.inf t => s && !t
  | F32.nan, _ => false
  | _, F32.nan => false

/-- Reading `depth[i]` of a vector of binary32 numbers; `0` outside the vector. -/
def f32At (depth : List F32) (i : Int) : F32 :=
  if 0 ≤ i then depth.getD i.toNat (F32.fin 0) else F32.fin 0

/-- `Depthmap::IsSurface` (lines 174-186) as the source computes it, in binary32:
`aspect` is the binary32 number nearest to `0.075`, the sum is
`(depth[c] + depth[b]) + depth[a]`, and the sum, the product, the quotient and
the three differences are each rounded. -/
def IsSurface32 (depth : List F32) (a b c : Int) : Bool :=
  let aspect : F32 := round32 (75 / 1000)
  if 0 ≤ a ∧ 0 ≤ b ∧ 0 ≤ c ∧ a ≠ b ∧ b ≠ c ∧ c ≠ a then
    let avrg := F32.div
      (F32.mul aspect (F32.add (F32.add (f32At depth c) (f32At depth b)) (f32At depth a)))
      (F32.fin 3)
    let len1 := F32.abs (F32.sub (f32At depth a) (f32At depth b))
    let len2 := F32.abs (F32.sub (f32At depth a) (f32At depth c))
    let len3 := F32.abs (F32.sub (f32At depth b) (f32At depth c))
    if F32.lt len1 avrg ∧ F32.lt len2 avrg ∧ F32.lt len3 avrg then true else false
  else false

/-- The depth vector of a state as binary32 numbers: each entry is the finite
number it stands for. -/
def depth32 (depth : List ℚ) : List F32 := depth.map F32.fin

/-- The body of the two nested loops of `MakeSurface` (lines 89-102) at `(x, y)`,
with the binary32 validator. -/
def scanCell32 (stride : Int) (map : List Int) (depth : List ℚ) (x y : Int)
    (indices : List Int) : List Int :=
  let a := readAt map ((y - 1) * stride + x - 1)
  let b := readAt map ((y - 1) * stride + x)
  let c := readAt map (y * stride + x - 1)
  let d := readAt map (y * stride + x)
  let i1 := if IsSurface32 (depth32 depth) a b c then indices ++ [c, b, a] else indices
  if IsSurface32 (depth32 depth) b c d then i1 ++ [b, c, d] else i1

/-- The inner loop `for y` of `MakeSurface` for one column `x`, with the binary32
validator. -/
def scanColumn32 (stride : Int) (map : List Int) (depth : List ℚ) (ys : List Int) (x : Int)
    (indices : List Int) : List Int :=
  ys.foldl (fun acc y => scanCell32 stride map depth x y acc) indices

/-- The grid scan of `MakeSurface` (lines 87-104) with the binary32 validator. -/
def scanGrid32 (stride : Int) (map : List Int) (depth : List ℚ) (xs ys : List Int)
    (indices : List Int) : List Int :=
  xs.foldl (fun acc x => scanColumn32 stride map depth ys x acc) indices

/-- `Depthmap::MakeSurface` (lines 85-113) with the binary32 validator. -/
def MakeSurface32 (dm : State) (margin : Int) : State :=
  let xs := loopRange (1 + margin) (dm.stride - margin)
  let ys := loopRange (1 + margin) (dm.height - margin)
  let scanned := scanGrid32 dm.stride dm.map dm.depth xs ys dm.indices
  { dm with lastMargin := margin, indices := emitRects dm.rects scanned }

/-- `Depthmap::Join` (lines 46-83) with the binary32 validator: the returned
flag and the state left behind. -/
def Join32 (dm : State) (x1 y1 x2 y2 : Int) : Bool × State :=
  if x2 ≥ dm.stride then (false, dm)
  else if y2 ≥ dm.height then (false, dm)
  else
    let a := readAt dm.map (y1 * dm.stride + x1)
    let b := readAt dm.map (y1 * dm.stride + x2)
    let c := readAt dm.map (y2 * dm.stride + x1)
    let d := readAt dm.map (y2 * dm.stride + x2)
    if a < 0 ∨ b < 0 ∨ c < 0 ∨ d < 0 then (false, dm)
    else
      match joinClear dm.stride (loopRange y1 (y2 + 1)) (loopRange x1 (x2 + 1)) dm.map with
      | (false, map1) => (false, { dm with map := map1 })
      | (true, map1) =>
        let size := dm.indices.length
        let dm1 := joinOverwrite dm x1 y1 x2 y2 a b c d map1
        let dm2 := MakeSurface32 dm1 dm1.lastMargin
        (joinCheck size dm2.indices.length x1 y1 x2 y2, dm2)

/-- A synthetic fully populated grid: cell `i` holds vertex id `i`, every depth
is `z`, nothing else is set. -/
def flatGrid (stride height : Nat) (z : ℚ) : State :=
  { stride := stride, height := height,
    map := (List.range (stride * height)).map (fun (i : Nat) => (i : Int)),
    vecmap := List.replicate (stride * height) ⟨0, 0, z⟩,
    vertices := List.replicate (stride * height) ⟨0, 0, z⟩,
    depth := List.replicate (stride * height) z,
    colors := List.replicate (stride * height) 0,
    indices := [], rects := [], lastMargin := 0, matrix := [] }

/-- What the constructor takes as given for one point of the cloud: the pixel
`(x, y)` of lines 18-28, the world position of lines 18-19 and 41, and the
encoded colour read at a pixel (lines 29-35). -/
structure Camera where
  pixel : Vec3 → Int × Int
  world : Vec3 → Vec3
  color : Int → Int → Int

/-- The grid width of line 11, `jpg.GetWidth() / mapScale`. -/
def gridStride (W mapScale : Int) : Int := W.tdiv mapScale

/-- The grid height of line 12, `jpg.GetHeight() / mapScale`. -/
def gridHeight (H mapScale : Int) : Int := H.tdiv mapScale

/-- The flat index of line 36 for the pixel `(x, y)`. -/
def cellIndex (stride mapScale x y : Int) : Int :=
  y.tdiv mapScale * stride + x.tdiv mapScale

/-- The test of line 30. -/
def accepted (W H x y : Int) : Bool :=
  decide (x ≥ 0 ∧ x < W ∧ y ≥ 0 ∧ y < H)

/-- The body of the loop over the point cloud (lines 17-43).  The writes of lines
37-38 go through `writeAt`: a write outside the vectors, undefined in the
source, is dropped here, and `writesInside` says that none occurs. -/
def addPoint (W H mapScale : Int) (cam : Camera) (dm : State) (v : Vec3) : State :=
  let x := (cam.pixel v).1
  let y := (cam.pixel v).2
  if accepted W H x y then
    let index := cellIndex dm.stride mapScale x y
    { dm with
      colors := dm.colors ++ [cam.color x y],
      map := writeAt dm.map index (dm.vertices.length : Int),
      vecmap := writeAt dm.vecmap index v,
      depth := dm.depth ++ [v.z],
      vertices := dm.vertices ++ [cam.world v] }
  else dm

/-- The state after lines 9-16: an empty grid of `stride * height` cells. -/
def emptyGrid (W H mapScale : Int) (matrix : List ℚ) : State :=
  let stride := gridStride W mapScale
  let height := gridHeight H mapScale
  { stride := stride, height := height,
    map := List.replicate (stride * height).toNat (-1),
    vecmap := List.replicate (stride * height).toNat ⟨-1, -1, -1⟩,
    vertices := [], depth := [], colors := [], indices := [], rects := [],
    lastMargin := 0, matrix := matrix }

/-- `Depthmap::Depthmap` (lines 6-44) for an image of `W x H` pixels. -/
def construct (W H mapScale : Int) (cam : Camera) (matrix : List ℚ)
    (pointcloud : List Vec3) : State :=
  pointcloud.foldl (addPoint W H mapScale cam) (emptyGrid W H mapScale matrix)

/-- The points of the cloud that pass the test of line 30, in iteration order. -/
def acceptedPoints (W H : Int) (cam : Camera) (pointcloud : List Vec3) : List Vec3 :=
  pointcloud.filter (fun v => accepted W H (cam.pixel v).1 (cam.pixel v).2)

/-- The flat index that line 36 computes for the point `v`. -/
def writeIndex (stride mapScale : Int) (cam : Camera) (v : Vec3) : Int :=
  cellIndex stride mapScale (cam.pixel v).1 (cam.pixel v).2

/-- A 3x3 grid, fully populated except for its centre cell, triangulated with
margin 0. -/
def holeGrid : State :=
  MakeSurface { flatGrid 3 3 1 with map := [0, 1, 2, 3, -1, 5, 6, 7, 8] } 0

/-- A camera whose projection reads the pixel off the point: `(floor x, floor y)`. -/
def floorCamera : Camera :=
  { pixel := fun v => (v.x.floor, v.y.floor), world := fun v => v, color := fun _ _ => 0 }

/-- Reading `vecmap[i]` or `vertices[i]`; the point `(-1,-1,-1)` outside the
vector. -/
def vecAt (v : List Vec3) (i : Int) : Vec3 :=
  if 0 ≤ i then v.getD i.toNat ⟨-1, -1, -1⟩ else ⟨-1, -1, -1⟩

/-- Reading `dstmap[i]`; `-1` outside the array. -/
def dstAt (v : List ℚ) (i : Int) : ℚ :=
  if 0 ≤ i then v.getD i.toNat (-1) else -1

/-- The test of line 136 on the window `(i, j)`: both triangles pass. -/
def windowValid (stride : Int) (map : List Int) (depth : List ℚ) (i j : Int) : Bool :=
  let a := readAt map ((j - 1) * stride + i - 1)
  let b := readAt map ((j - 1) * stride + i)
  let c := readAt map (j * stride + i - 1)
  let d := readAt map (j * stride + i)
  IsSurface depth a b c && IsSurface depth b c d

/-- Lines 139-142 for the cell `(k, l)`: a non-empty cell adds its Z to
`distance` and one to `count`. -/
def accumCell (stride : Int) (map : List Int) (vecmap : List Vec3) (k l : Int)
    (acc : ℚ × Int) : ℚ × Int :=
  if readAt map (l * stride + k) ≥ 0 then
    (acc.1 + (vecAt vecmap (l * stride + k)).z, acc.2 + 1)
  else acc

/-- Lines 137-144: the four cells of the window `(i, j)`. -/
def accumWindow (stride : Int) (map : List Int) (vecmap : List Vec3) (i j : Int)
    (acc : ℚ × Int) : ℚ × Int :=
  (loopRange (i - 1) (i + 1)).foldl (fun acc1 k =>
    (loopRange (j - 1) (j + 1)).foldl (fun acc2 l =>
      accumCell stride map vecmap k l acc2) acc1) acc

/-- Lines 128-147: `(distance, count)` for the cell `(x, y)`, over its four
windows. -/
def cellSum (dm : State) (x y : Int) : ℚ × Int :=
  (loopRange x (x + 2)).foldl (fun acc1 i =>
    (loopRange y (y + 2)).foldl (fun acc2 j =>
      if windowValid dm.stride dm.map dm.depth i j then
        accumWindow dm.stride dm.map dm.vecmap i j acc2
      else acc2) acc1) (0, 0)

/-- The body of the loops of lines 122-151 at the cell `(x, y)`. -/
def smoothCell (dm : State) (x y : Int) (dstmap : List ℚ) : List ℚ :=
  if readAt dm.map (y * dm.stride + x) < 0 then dstmap
  else if (cellSum dm x y).2 > 0 then
    writeAt dstmap (y * dm.stride + x) ((cellSum dm x y).1 / ((cellSum dm x y).2 : ℚ))
  else dstmap

/-- Lines 119-152: the distance map of one iteration. -/
def distanceMap (dm : State) : List ℚ :=
  (loopRange 1 (dm.stride - 1)).foldl (fun dst1 x =>
    (loopRange 1 (dm.height - 1)).foldl (fun dst2 y => smoothCell dm x y dst2) dst1)
    (List.replicate (dm.stride * dm.height).toNat (-1))

/-- The assignment `vecmap[i].z = z`. -/
def setZ (vecmap : List Vec3) (i : Int) (z : ℚ) : List Vec3 :=
  writeAt vecmap i { vecAt vecmap i with z := z }

/-- Lines 155-157: the distance map is applied to the vector map. -/
def applyDistance (dstmap : List ℚ) (n : Int) (vecmap : List Vec3) : List Vec3 :=
  (loopRange 0 n).foldl (fun vm i =>
    if dstAt dstmap i ≥ 0 then setZ vm i (dstAt dstmap i) else vm) vecmap

/-- One pass of the loop of lines 117-158. -/
def smoothStep (dm : State) : State :=
  { dm with vecmap := applyDistance (distanceMap dm) (dm.stride * dm.height) dm.vecmap }

/-- The entry `m[c][r]` of a `glm::mat4` kept column by column. -/
def matAt (m : List ℚ) (c r : Nat) : ℚ := m.getD (c * 4 + r) 0

/-- Lines 166-168: `w = matrix * vec4(v, 1)`, `w /= abs(w.w)`, and the first
three components of `w`. -/
def transform (m : List ℚ) (v : Vec3) : Vec3 :=
  let wx := matAt m 0 0 * v.x + matAt m 1 0 * v.y + matAt m 2 0 * v.z + matAt m 3 0 * 1
  let wy := matAt m 0 1 * v.x + matAt m 1 1 * v.y + matAt m 2 1 * v.z + matAt m 3 1 * 1
  let wz := matAt m 0 2 * v.x + matAt m 1 2 * v.y + matAt m 2 2 * v.z + matAt m 3 2 * 1
  let ww := matAt m 0 3 * v.x + matAt m 1 3 * v.y + matAt m 2 3 * v.z + matAt m 3 3 * 1
  ⟨wx / |ww|, wy / |ww|, wz / |ww|⟩

/-- The body of the loops of lines 161-170 at the cell `(x, y)`. -/
def geometryCell (dm : State) (x y : Int) (vertices : List Vec3) : List Vec3 :=
  if readAt dm.map (y * dm.stride + x) ≥ 0 then
    writeAt vertices (readAt dm.map (y * dm.stride + x))
      (transform dm.matrix (vecAt dm.vecmap (y * dm.stride + x)))
  else vertices

/-- Lines 160-171: the vector map is applied to the geometry. -/
def applyGeometry (dm : State) : State :=
  { dm with vertices :=
      (loopRange 0 dm.stride).foldl (fun v1 x =>
        (loopRange 0 dm.height).foldl (fun v2 y => geometryCell dm x y v2) v1) dm.vertices }

/-- The state after `it` passes of the loop of lines 117-158. -/
def smoothIterations (dm : State) (iterations : Int) : State :=
  (loopRange 0 iterations).foldl (fun s _ => smoothStep s) dm

/-- `Depthmap::SmoothSurface` (lines 115-172). -/
def SmoothSurface (dm : State) (iterations : Int) : State :=
  applyGeometry (smoothIterations dm iterations)

/-- The identity `glm::mat4`. -/
def identityMatrix : List ℚ := [1, 0, 0, 0, 0, 1, 0, 0, 0, 0, 1, 0, 0, 0, 0, 1]

/-- The point cloud with one point `(x, y, z x y)` per pixel of a `W x H` image,
column by column. -/
def gridCloud (W H : Nat) (z : Nat → Nat → ℚ) : List Vec3 :=
  (List.range W).flatMap (fun (x : Nat) =>
    (List.range H).map (fun (y : Nat) => (⟨(x : ℚ), (y : ℚ), z x y⟩ : Vec3)))

/-- The state constructed from `gridCloud` with `mapScale = 1`, the identity
matrix and the camera `floorCamera`. -/
def gridState (W H : Nat) (z : Nat → Nat → ℚ) : State :=
  construct W H 1 floorCamera identityMatrix (gridCloud W H z)

/-- A fully populated 3x3 grid with small depth noise: Z is 1 at the corners,
1.01 at the middle of the sides and 1.005 at the centre. -/
def noisyGrid : State :=
  gridState 3 3 (fun x y =>
    if x = 1 ∧ y = 1 then 201 / 200 else if (x + y) % 2 = 1 then 101 / 100 else 1)

/-- The 3x3 grid of depth 1 after `MakeSurface(0)` and `Join(0,0,2,2)`: the
cells of its border share the four corner ids. -/
def mergedGrid : State :=
  (Join (MakeSurface (gridState 3 3 (fun _ _ => 1)) 0) 0 0 2 2).2

/-- The state invariant: the three per-vertex vectors have one length, every
non-empty entry of `map`, every corner of every quad and every entry of
`indices` is a valid vertex id, and `indices` holds whole triangles. -/
structure Invariant (dm : State) : Prop where
  depth_length : dm.depth.length = dm.vertices.length
  colors_length : dm.colors.length = dm.vertices.length
  map_valid : ∀ v ∈ dm.map, 0 ≤ v → v < dm.vertices.length
  rects_valid : ∀ r ∈ dm.rects,
    (0 ≤ r.a ∧ r.a < dm.vertices.length) ∧ (0 ≤ r.b ∧ r.b < dm.vertices.length) ∧
    (0 ≤ r.c ∧ r.c < dm.vertices.length) ∧ (0 ≤ r.d ∧ r.d < dm.vertices.length)
  indices_triples : 3 ∣ dm.indices.length
  indices_valid : ∀ v ∈ dm.indices, 0 ≤ v ∧ v < dm.vertices.length

/-- The writes of lines 37-38 stay inside the grid: the flat index computed for
every accepted point of the cloud is one of the `stride * height` cells.  (A
write outside `map` and `vecmap` is undefined.) -/
def writesInside (W H mapScale : Int) (cam : Camera) (pointcloud : List Vec3) : Bool :=
  (acceptedPoints W H cam pointcloud).all (fun v =>
    decide (0 ≤ writeIndex (gridStride W mapScale) mapScale cam v
      ∧ writeIndex (gridStride W mapScale) mapScale cam v
          < gridStride W mapScale * gridHeight H mapScale))

/-- The states reached from a construction by calls of `MakeSurface` with a
margin `m ≥ 0`, of `Join` with its four coordinates inside the grid (each of
the two with the binary32 validator or with the exact one), and of
`SmoothSurface`.  A construction is one the program carries out: `mapScale` is
not zero (lines 11-12 divide by it) and the writes of lines 37-38 stay inside
the grid. -/
inductive Reachable : State → Prop where
  | construct (W H mapScale : Int) (cam : Camera) (matrix : List ℚ) (pointcloud : List Vec3) :
      mapScale ≠ 0 → writesInside W H mapScale cam pointcloud = true →
      Reachable (construct W H mapScale cam matrix pointcloud)
  | makeSurface (dm : State) (m : Int) : Reachable dm → 0 ≤ m → Reachable (MakeSurface dm m)
  | makeSurface32 (dm : State) (m : Int) :
      Reachable dm → 0 ≤ m → Reachable (MakeSurface32 dm m)
  | join (dm : State) (x1 y1 x2 y2 : Int) : Reachable dm →
      0 ≤ x1 → x1 < dm.stride → 0 ≤ x2 → x2 < dm.stride →
      0 ≤ y1 → y1 < dm.height → 0 ≤ y2 → y2 < dm.height →
      Reachable (Join dm x1 y1 x2 y2).2
  | join32 (dm : State) (x1 y1 x2 y2 : Int) : Reachable dm →
      0 ≤ x1 → x1 < dm.stride → 0 ≤ x2 → x2 < dm.stride →
      0 ≤ y1 → y1 < dm.height → 0 ≤ y2 → y2 < dm.height →
      Reachable (Join32 dm x1 y1 x2 y2).2
  | smooth (dm : State) (n : Int) : Reachable dm → Reachable (SmoothSurface dm n)

/-- The id that lines 59-76 leave in the cell `(cx, cy)` which held `old`, for a
merge of the rectangle `(x1,y1)-(x2,y2)` with corner ids `a b c d`: outside the
rectangle the old id; inside, the columns `x2` and `x1` (written last), then the
rows `y2` and `y1`, and `-1` elsewhere. -/
def mergedId (x1 y1 x2 y2 a b c d cx cy old : Int) : Int :=
  if x1 ≤ cx ∧ cx ≤ x2 ∧ y1 ≤ cy ∧ cy ≤ y2 then
    if cx = x2 then (if cy < (y1 + y2).tdiv 2 then b else d)
    else if cx = x1 then (if cy < (y1 + y2).tdiv 2 then a else c)
    else if cy = y2 then (if cx < (x1 + x2).tdiv 2 then c else d)
    else if cy = y1 then (if cx < (x1 + x2).tdiv 2 then a else b)
    else -1
  else old

/-- A cell strictly inside the border of the rectangle `(x1,y1)-(x2,y2)`: the
merge leaves it empty. -/
@[reducible] def cellInner (x1 y1 x2 y2 cx cy : Int) : Prop :=
  x1 < cx ∧ cx < x2 ∧ y1 < cy ∧ cy < y2

/-- The column of the cell whose id the cell `(cx, cy)` holds after the merge
(see `mergedId`): its own outside the rectangle, that of a corner on the
border. -/
def repX (x1 y1 x2 y2 cx cy : Int) : Int :=
  if x1 ≤ cx ∧ cx ≤ x2 ∧ y1 ≤ cy ∧ cy ≤ y2 then
    if cx = x2 then x2 else if cx = x1 then x1
    else if cx < (x1 + x2) / 2 then x1 else x2
  else cx

/-- The row of the cell whose id the cell `(cx, cy)` holds after the merge. -/
def repY (x1 y1 x2 y2 cx cy : Int) : Int :=
  if x1 ≤ cx ∧ cx ≤ x2 ∧ y1 ≤ cy ∧ cy ≤ y2 then
    if cx = x2 then (if cy < (y1 + y2) / 2 then y1 else y2)
    else if cx = x1 then (if cy < (y1 + y2) / 2 then y1 else y2)
    else if cy = y2 then y2 else y1
  else cy

/-- The indicator of the box `[p,q] x [r,s]`. -/
def boxInd (p q r s x y : Int) : Int :=
  if p ≤ x ∧ x ≤ q ∧ r ≤ y ∧ y ≤ s then 1 else 0

/-- The variance of a list of numbers: the mean of the squared deviations from
the mean. -/
def variance (zs : List ℚ) : ℚ :=
  let mean := zs.sum / (zs.length : ℚ)
  (zs.map (fun z => (z - mean) ^ 2)).sum / (zs.length : ℚ)

/-- The triangles of one 2x2 window as the specification words them: `(c,b,a)`
when it passes the validator, then `(b,c,d)` when it passes. -/
def specWindow (stride : Int) (map : List Int) (depth : List ℚ) (x y : Int) : List Int :=
  (if IsSurface depth (readAt map ((y - 1) * stride + x - 1)) (readAt map ((y - 1) * stride + x))
      (readAt map (y * stride + x - 1)) then
    [readAt map (y * stride + x - 1), readAt map ((y - 1) * stride + x),
      readAt map ((y - 1) * stride + x - 1)]
  else []) ++
  (if IsSurface depth (readAt map ((y - 1) * stride + x)) (readAt map (y * stride + x - 1))
      (readAt map (y * stride + x)) then
    [readAt map ((y - 1) * stride + x), readAt map (y * stride + x - 1),
      readAt map (y * stride + x)]
  else [])

/-- The index list as the specification words it: the passing triangles of each
scanned window in scan order (columns outside, rows inside), then for each
quad of `rects`, in order, the six entries `c,b,a,b,c,d`. -/
def specSurface (stride height : Int) (map : List Int) (depth : List ℚ) (rects : List Rect)
    (m : Int) : List Int :=
  (loopRange (1 + m) (stride - m)).flatMap (fun x =>
    (loopRange (1 + m) (height - m)).flatMap (fun y => specWindow stride map depth x y))
  ++ rects.flatMap (fun r => [r.c, r.b, r.a, r.b, r.c, r.d])

/-- A fully populated grid whose cells hold pairwise distinct vertex ids, all
of them with the same depth `z > 0`. -/
structure FlatGrid (dm : State) (z : ℚ) : Prop where
  length_map : (dm.map.length : Int) = dm.stride * dm.height
  populated : ∀ v ∈ dm.map, 0 ≤ v
  distinct : dm.map.Nodup
  depth_eq : ∀ v ∈ dm.map, depthAt dm.depth v = z
  depth_pos : 0 < z

/-! ## Vectors, loops and flat indices -/

theorem mem_loopRange (lo hi v : Int) : v ∈ loopRange lo hi ↔ lo ≤ v ∧ v < hi := by
  unfold loopRange
  simp only [List.mem_map, List.mem_range]
  constructor
  · rintro ⟨k, hk, rfl⟩
    omega
  · rintro ⟨h1, h2⟩
    exact ⟨(v - lo).toNat, by omega, by omega⟩

theorem length_loopRange (lo hi : Int) : (loopRange lo hi).length = (hi - lo).toNat := by
  simp [loopRange]

theorem nodup_loopRange (lo hi : Int) : (loopRange lo hi).Nodup := by
  unfold loopRange
  refine List.Nodup.map ?_ (List.nodup_range _)
  intro i j hij
  simp only at hij
  omega

theorem readAt_mem (v : List Int) (i : Int) (h0 : 0 ≤ i) (h1 : i < v.length) :
    readAt v i ∈ v := by
  unfold readAt
  rw [if_pos h0]
  have h : i.toNat < v.length := by omega
  rw [List.getD_eq_getElem _ _ h]
  exact List.getElem_mem h

theorem readAt_inj (v : List Int) (hv : v.Nodup) (i j : Int) (hi0 : 0 ≤ i)
    (hi1 : i < v.length) (hj0 : 0 ≤ j) (hj1 : j < v.length)
    (h : readAt v i = readAt v j) : i = j := by
  unfold readAt at h
  rw [if_pos hi0, if_pos hj0] at h
  have h1 : i.toNat < v.length := by omega
  have h2 : j.toNat < v.length := by omega
  rw [List.getD_eq_getElem _ _ h1, List.getD_eq_getElem _ _ h2] at h
  have := (List.Nodup.getElem_inj_iff hv).mp h
  omega

theorem readAt_writeAt_ne (v : List Int) (i j val : Int) (h : i ≠ j) :
    readAt (writeAt v i val) j = readAt v j := by
  unfold readAt writeAt
  by_cases hi : 0 ≤ i
  · by_cases hj : 0 ≤ j
    · have hne : i.toNat ≠ j.toNat := by omega
      simp only [if_pos hi, if_pos hj, List.getD_eq_getElem?_getD]
      rw [List.getElem?_set_ne hne]
    · simp only [if_neg hj]
  · simp only [if_neg hi]

theorem readAt_writeAt_self (v : List Int) (i val : Int) (h0 : 0 ≤ i) (h1 : i < v.length) :
    readAt (writeAt v i val) i = val := by
  unfold readAt writeAt
  have h : i.toNat < v.length := by omega
  simp [if_pos h0, List.getD_eq_getElem?_getD, h]

theorem length_writeAt {α : Type} (v : List α) (i : Int) (val : α) :
    (writeAt v i val).length = v.length := by
  unfold writeAt
  split_ifs <;> simp

/-- The flat index of a cell inside the grid lies inside the vector. -/
theorem flat_bounds (stride height x y : Int) (hx0 : 0 ≤ x) (hx1 : x < stride)
    (hy0 : 0 ≤ y) (hy1 : y < height) :
    0 ≤ y * stride + x ∧ y * stride + x < stride * height := by
  have h1 : 0 ≤ y * stride := mul_nonneg hy0 (by omega)
  have h2 : 0 ≤ (height - 1 - y) * stride := mul_nonneg (by omega) (by omega)
  constructor
  · omega
  · nlinarith

/-- Two cells with columns inside the grid and the same flat index are equal. -/
theorem flat_inj (stride x y x1 y1 : Int) (hx0 : 0 ≤ x) (hx1 : x < stride)
    (hx10 : 0 ≤ x1) (hx11 : x1 < stride) (h : y * stride + x = y1 * stride + x1) :
    x = x1 ∧ y = y1 := by
  have hs : 0 < stride := by omega
  have e1 : (y * stride + x) % stride = x := by
    rw [add_comm, Int.add_mul_emod_self, Int.emod_eq_of_lt hx0 hx1]
  have e2 : (y1 * stride + x1) % stride = x1 := by
    rw [add_comm, Int.add_mul_emod_self, Int.emod_eq_of_lt hx10 hx11]
  have hx : x = x1 := by rw [← e1, ← e2, h]
  subst hx
  have h3 : y * stride = y1 * stride := by omega
  exact ⟨rfl, Int.eq_of_mul_eq_mul_right (by omega) h3⟩

theorem length_flatMap_const {α β : Type} (l : List α) (f : α → List β) (k : Nat)
    (h : ∀ a ∈ l, (f a).length = k) : (l.flatMap f).length = k * l.length := by
  induction l with
  | nil => simp
  | cons a l ih =>
    simp only [List.flatMap_cons, List.length_append, List.length_cons]
    rw [h a (List.mem_cons_self a l), ih (fun b hb => h b (List.mem_cons_of_mem a hb))]
    ring

theorem length_flatMap_le {α β : Type} (l : List α) (f : α → List β) (k : Nat)
    (h : ∀ a ∈ l, (f a).length ≤ k) : (l.flatMap f).length ≤ k * l.length := by
  induction l with
  | nil => simp
  | cons a l ih =>
    simp only [List.flatMap_cons, List.length_append, List.length_cons]
    have h1 := h a (List.mem_cons_self a l)
    have h2 := ih (fun b hb => h b (List.mem_cons_of_mem a hb))
    nlinarith

/-! ## The validator -/

/-- C3: with exact depths, `IsSurface a b c` is true exactly when the three ids
are non-empty, pairwise distinct, and the three pairwise depth differences are
each strictly below `0.075 * (depth[a] + depth[b] + depth[c]) / 3`; hence an
empty or a repeated id gives `false`. -/
theorem isSurface_iff_spec (depth : List ℚ) (a b c : Int) :
    (IsSurface depth a b c = true ↔
      (0 ≤ a ∧ 0 ≤ b ∧ 0 ≤ c) ∧ (a ≠ b ∧ a ≠ c ∧ b ≠ c) ∧
      |depthAt depth a - depthAt depth b|
          < (75 / 1000 : ℚ) * (depthAt depth a + depthAt depth b + depthAt depth c) / 3 ∧
      |depthAt depth a - depthAt depth c|
          < (75 / 1000 : ℚ) * (depthAt depth a + depthAt depth b + depthAt depth c) / 3 ∧
      |depthAt depth b - depthAt depth c|
          < (75 / 1000 : ℚ) * (depthAt depth a + depthAt depth b + depthAt depth c) / 3) ∧
    ((a < 0 ∨ b < 0 ∨ c < 0 ∨ a = b ∨ a = c ∨ b = c) → IsSurface depth a b c = false) := by
  have hsum : depthAt depth c + depthAt depth b + depthAt depth a
      = depthAt depth a + depthAt depth b + depthAt depth c := by ring
  constructor
  · unfold IsSurface
    simp only [hsum]
    by_cases hg : 0 ≤ a ∧ 0 ≤ b ∧ 0 ≤ c ∧ a ≠ b ∧ b ≠ c ∧ c ≠ a
    · obtain ⟨ha, hb, hc, hab, hbc, hca⟩ := hg
      have hac : a ≠ c := fun h => hca h.symm
      simp [ha, hb, hc, hab, hbc, hca, hac]
    · rw [if_neg hg]
      constructor
      · intro h
        cases h
      · rintro ⟨⟨ha, hb, hc⟩, ⟨hab, hac, hbc⟩, _⟩
        exact absurd ⟨ha, hb, hc, hab, hbc, fun h => hac h.symm⟩ hg
  · intro h
    unfold IsSurface
    have hg : ¬ (0 ≤ a ∧ 0 ≤ b ∧ 0 ≤ c ∧ a ≠ b ∧ b ≠ c ∧ c ≠ a) := by
      rintro ⟨ha, hb, hc, hab, hbc, hca⟩
      rcases h with h | h | h | h | h | h
      · omega
      · omega
      · omega
      · exact hab h
      · exact hca h.symm
      · exact hbc h
    rw [if_neg hg]

/-- The validator does not depend on the order of its first two arguments. -/
theorem isSurface_swap12 (depth : List ℚ) (a b c : Int) :
    IsSurface depth a b c = IsSurface depth b a c := by
  unfold IsSurface
  have hsum : depthAt depth c + depthAt depth b + depthAt depth a
      = depthAt depth c + depthAt depth a + depthAt depth b := by ring
  have hg : (0 ≤ a ∧ 0 ≤ b ∧ 0 ≤ c ∧ a ≠ b ∧ b ≠ c ∧ c ≠ a)
      ↔ (0 ≤ b ∧ 0 ≤ a ∧ 0 ≤ c ∧ b ≠ a ∧ a ≠ c ∧ c ≠ b) := by
    constructor
    · rintro ⟨h1, h2, h3, h4, h5, h6⟩
      exact ⟨h2, h1, h3, fun h => h4 h.symm, fun h => h6 h.symm, fun h => h5 h.symm⟩
    · rintro ⟨h1, h2, h3, h4, h5, h6⟩
      exact ⟨h2, h1, h3, fun h => h4 h.symm, fun h => h6 h.symm, fun h => h5 h.symm⟩
  have hl : ∀ t : ℚ,
      (|depthAt depth a - depthAt depth b| < t ∧ |depthAt depth a - depthAt depth c| < t
        ∧ |depthAt depth b - depthAt depth c| < t)
      ↔ (|depthAt depth b - depthAt depth a| < t ∧ |depthAt depth b - depthAt depth c| < t
        ∧ |depthAt depth a - depthAt depth c| < t) := by
    intro t
    rw [abs_sub_comm (depthAt depth a) (depthAt depth b)]
    tauto
  simp only [hsum, hg, hl]

/-- The validator does not depend on the order of its last two arguments. -/
theorem isSurface_swap23 (depth : List ℚ) (a b c : Int) :
    IsSurface depth a b c = IsSurface depth a c b := by
  unfold IsSurface
  have hsum : depthAt depth c + depthAt depth b + depthAt depth a
      = depthAt depth b + depthAt depth c + depthAt depth a := by ring
  have hg : (0 ≤ a ∧ 0 ≤ b ∧ 0 ≤ c ∧ a ≠ b ∧ b ≠ c ∧ c ≠ a)
      ↔ (0 ≤ a ∧ 0 ≤ c ∧ 0 ≤ b ∧ a ≠ c ∧ c ≠ b ∧ b ≠ a) := by
    constructor
    · rintro ⟨h1, h2, h3, h4, h5, h6⟩
      exact ⟨h1, h3, h2, fun h => h6 h.symm, fun h => h5 h.symm, fun h => h4 h.symm⟩
    · rintro ⟨h1, h2, h3, h4, h5, h6⟩
      exact ⟨h1, h3, h2, fun h => h6 h.symm, fun h => h5 h.symm, fun h => h4 h.symm⟩
  have hl : ∀ t : ℚ,
      (|depthAt depth a - depthAt depth b| < t ∧ |depthAt depth a - depthAt depth c| < t
        ∧ |depthAt depth b - depthAt depth c| < t)
      ↔ (|depthAt depth a - depthAt depth c| < t ∧ |depthAt depth a - depthAt depth b| < t
        ∧ |depthAt depth c - depthAt depth b| < t) := by
    intro t
    rw [abs_sub_comm (depthAt depth b) (depthAt depth c)]
    tauto
  simp only [hsum, hg, hl]

/-- With exact depth arithmetic `IsSurface` gives the same answer on all six
orders of its arguments. -/
theorem isSurface_perm_exact (depth : List ℚ) (a b c : Int) :
    IsSurface depth a b c = IsSurface depth a c b ∧
    IsSurface depth a b c = IsSurface depth b a c ∧
    IsSurface depth a b c = IsSurface depth b c a ∧
    IsSurface depth a b c = IsSurface depth c a b ∧
    IsSurface depth a b c = IsSurface depth c b a := by
  refine ⟨isSurface_swap23 depth a b c, isSurface_swap12 depth a b c, ?_, ?_, ?_⟩
  · rw [isSurface_swap12 depth a b c, isSurface_swap23 depth b a c]
  · rw [isSurface_swap23 depth a b c, isSurface_swap12 depth a c b]
  · rw [isSurface_swap12 depth a b c, isSurface_swap23 depth b a c, isSurface_swap12 depth b c a]

/-! ## The mesh builder appends -/

theorem scanCell_append (stride : Int) (map : List Int) (depth : List ℚ) (x y : Int)
    (acc : List Int) :
    scanCell stride map depth x y acc = acc ++ scanCell stride map depth x y [] := by
  unfold scanCell
  simp only []
  split_ifs <;> simp

theorem scanColumn_append (stride : Int) (map : List Int) (depth : List ℚ) (ys : List Int)
    (x : Int) (acc : List Int) :
    scanColumn stride map depth ys x acc
      = acc ++ ys.flatMap (fun y => scanCell stride map depth x y []) := by
  unfold scanColumn
  induction ys generalizing acc with
  | nil => simp
  | cons y ys ih =>
    rw [List.foldl_cons, ih, scanCell_append]
    simp [List.append_assoc]

theorem scanGrid_append (stride : Int) (map : List Int) (depth : List ℚ) (xs ys : List Int)
    (acc : List Int) :
    scanGrid stride map depth xs ys acc
      = acc ++ xs.flatMap (fun x => ys.flatMap (fun y => scanCell stride map depth x y [])) := by
  unfold scanGrid
  induction xs generalizing acc with
  | nil => simp
  | cons x xs ih =>
    rw [List.foldl_cons, ih, scanColumn_append]
    simp [List.append_assoc]

theorem emitRects_append (rects : List Rect) (acc : List Int) :
    emitRects rects acc = acc ++ rects.flatMap rectEntries := by
  unfold emitRects
  induction rects generalizing acc with
  | nil => simp
  | cons r rs ih =>
    rw [List.foldl_cons, ih]
    simp [List.append_assoc]

/-- The index list left by `MakeSurface`: the old entries, the scan, the quads. -/
theorem makeSurface_indices (dm : State) (m : Int) :
    (MakeSurface dm m).indices
      = dm.indices
        ++ (loopRange (1 + m) (dm.stride - m)).flatMap (fun x =>
            (loopRange (1 + m) (dm.height - m)).flatMap (fun y =>
              scanCell dm.stride dm.map dm.depth x y []))
        ++ dm.rects.flatMap rectEntries := by
  simp only [MakeSurface, emitRects_append, scanGrid_append]

/-- C8, as stated, fails: on the 2x2 grid a second `MakeSurface(0)` leaves twelve
entries where the first left six. -/
theorem makeSurface_twice_differs :
    (MakeSurface (MakeSurface (flatGrid 2 2 1) 0) 0).indices
      ≠ (MakeSurface (flatGrid 2 2 1) 0).indices := by
  decide!

/-- C8 (amended): `MakeSurface(m)` appends to `indices`.  The entries it appends
are those it produces from an empty index list, and these depend only on the
grid (`stride`, `height`, `map`), `depth`, `rects` and `m`; a second call
appends the same entries once more. -/
theorem makeSurface_appends (dm : State) (m : Int) :
    (MakeSurface dm m).indices
        = dm.indices ++ (MakeSurface { dm with indices := [] } m).indices ∧
    (∀ dm1 : State, dm1.stride = dm.stride → dm1.height = dm.height → dm1.map = dm.map →
        dm1.depth = dm.depth → dm1.rects = dm.rects →
        (MakeSurface { dm1 with indices := [] } m).indices
          = (MakeSurface { dm with indices := [] } m).indices) ∧
    (MakeSurface (MakeSurface dm m) m).indices
        = (MakeSurface dm m).indices ++ (MakeSurface { dm with indices := [] } m).indices := by
  refine ⟨?_, ?_, ?_⟩
  · simp only [makeSurface_indices, List.nil_append, List.append_assoc]
  · intro dm1 h1 h2 h3 h4 h5
    simp only [makeSurface_indices, h1, h2, h3, h4, h5]
  · rw [makeSurface_indices (MakeSurface dm m) m,
      makeSurface_indices { dm with indices := [] } m]
    simp only [List.nil_append, List.append_assoc, MakeSurface]

/-- The amended C8 on the 2x2 grid. -/
theorem makeSurface_appends_witness :
    (MakeSurface (MakeSurface (flatGrid 2 2 1) 0) 0).indices
      = (MakeSurface (flatGrid 2 2 1) 0).indices
        ++ (MakeSurface { flatGrid 2 2 1 with indices := [] } 0).indices :=
  (makeSurface_appends (flatGrid 2 2 1) 0).2.2

/-! ## The mesh builder on a flat grid -/

/-- Every entry pushed at the window `(x, y)` is read from one of its four cells. -/
theorem mem_scanCell (stride : Int) (map : List Int) (depth : List ℚ) (x y v : Int)
    (h : v ∈ scanCell stride map depth x y []) :
    ∃ cx cy : Int, (cx = x - 1 ∨ cx = x) ∧ (cy = y - 1 ∨ cy = y) ∧
      v = readAt map (cy * stride + cx) := by
  have e1 : (y - 1) * stride + x - 1 = (y - 1) * stride + (x - 1) := by ring
  have e2 : y * stride + x - 1 = y * stride + (x - 1) := by ring
  unfold scanCell at h
  simp only [e1, e2] at h
  have hA : ∃ cx cy : Int, (cx = x - 1 ∨ cx = x) ∧ (cy = y - 1 ∨ cy = y) ∧
      readAt map ((y - 1) * stride + (x - 1)) = readAt map (cy * stride + cx) :=
    ⟨x - 1, y - 1, Or.inl rfl, Or.inl rfl, rfl⟩
  have hB : ∃ cx cy : Int, (cx = x - 1 ∨ cx = x) ∧ (cy = y - 1 ∨ cy = y) ∧
      readAt map ((y - 1) * stride + x) = readAt map (cy * stride + cx) :=
    ⟨x, y - 1, Or.inr rfl, Or.inl rfl, rfl⟩
  have hC : ∃ cx cy : Int, (cx = x - 1 ∨ cx = x) ∧ (cy = y - 1 ∨ cy = y) ∧
      readAt map (y * stride + (x - 1)) = readAt map (cy * stride + cx) :=
    ⟨x - 1, y, Or.inl rfl, Or.inr rfl, rfl⟩
  have hD : ∃ cx cy : Int, (cx = x - 1 ∨ cx = x) ∧ (cy = y - 1 ∨ cy = y) ∧
      readAt map (y * stride + x) = readAt map (cy * stride + cx) :=
    ⟨x, y, Or.inr rfl, Or.inr rfl, rfl⟩
  split_ifs at h
  · simp only [List.nil_append, List.cons_append, List.mem_cons, List.mem_singleton,
      List.not_mem_nil, or_false] at h
    rcases h with h | h | h | h | h | h <;> subst h <;> assumption
  · simp only [List.nil_append, List.mem_cons, List.mem_singleton, List.not_mem_nil,
      or_false] at h
    rcases h with h | h | h <;> subst h <;> assumption
  · simp only [List.nil_append, List.mem_cons, List.mem_singleton, List.not_mem_nil,
      or_false] at h
    rcases h with h | h | h <;> subst h <;> assumption
  · simp at h

/-- At most six entries are pushed per window. -/
theorem length_scanCell_le (stride : Int) (map : List Int) (depth : List ℚ) (x y : Int) :
    (scanCell stride map depth x y []).length ≤ 6 := by
  unfold scanCell
  simp only []
  split_ifs <;> simp

/-- On equal positive depths three distinct non-empty ids pass the validator. -/
theorem isSurface_of_flat (depth : List ℚ) (z : ℚ) (hz : 0 < z) (a b c : Int)
    (ha : 0 ≤ a) (hb : 0 ≤ b) (hc : 0 ≤ c) (hab : a ≠ b) (hbc : b ≠ c) (hca : c ≠ a)
    (da : depthAt depth a = z) (db : depthAt depth b = z) (dc : depthAt depth c = z) :
    IsSurface depth a b c = true := by
  unfold IsSurface
  have hpos : (0 : ℚ) < 75 / 1000 * (z + z + z) / 3 := by positivity
  simp [da, db, dc, ha, hb, hc, hab, hbc, hca, hpos]

/-- In a flat grid a cell inside the grid holds a non-empty id of depth `z`. -/
theorem FlatGrid.cell {dm : State} {z : ℚ} (hg : FlatGrid dm z) (x y : Int)
    (hx0 : 0 ≤ x) (hx1 : x < dm.stride) (hy0 : 0 ≤ y) (hy1 : y < dm.height) :
    0 ≤ readAt dm.map (y * dm.stride + x) ∧
      depthAt dm.depth (readAt dm.map (y * dm.stride + x)) = z := by
  have hb := flat_bounds dm.stride dm.height x y hx0 hx1 hy0 hy1
  have hmem := readAt_mem dm.map (y * dm.stride + x) hb.1 (by rw [hg.length_map]; exact hb.2)
  exact ⟨hg.populated _ hmem, hg.depth_eq _ hmem⟩

/-- In a flat grid two cells inside the grid with the same id are the same cell. -/
theorem FlatGrid.cell_inj {dm : State} {z : ℚ} (hg : FlatGrid dm z) (x y x1 y1 : Int)
    (hx0 : 0 ≤ x) (hx1 : x < dm.stride) (hy0 : 0 ≤ y) (hy1 : y < dm.height)
    (hx10 : 0 ≤ x1) (hx11 : x1 < dm.stride) (hy10 : 0 ≤ y1) (hy11 : y1 < dm.height)
    (h : readAt dm.map (y * dm.stride + x) = readAt dm.map (y1 * dm.stride + x1)) :
    x = x1 ∧ y = y1 := by
  have hb := flat_bounds dm.stride dm.height x y hx0 hx1 hy0 hy1
  have hb1 := flat_bounds dm.stride dm.height x1 y1 hx10 hx11 hy10 hy11
  have := readAt_inj dm.map hg.distinct _ _ hb.1 (by rw [hg.length_map]; exact hb.2)
    hb1.1 (by rw [hg.length_map]; exact hb1.2) h
  exact flat_inj dm.stride x y x1 y1 hx0 hx1 hx10 hx11 this

/-- In a flat grid both triangles of a window inside the grid are pushed. -/
theorem length_scanCell_flat {dm : State} {z : ℚ} (hg : FlatGrid dm z) (x y : Int)
    (hx0 : 1 ≤ x) (hx1 : x < dm.stride) (hy0 : 1 ≤ y) (hy1 : y < dm.height) :
    (scanCell dm.stride dm.map dm.depth x y []).length = 6 := by
  have e1 : (y - 1) * dm.stride + x - 1 = (y - 1) * dm.stride + (x - 1) := by ring
  have e2 : y * dm.stride + x - 1 = y * dm.stride + (x - 1) := by ring
  have cA := hg.cell (x - 1) (y - 1) (by omega) (by omega) (by omega) (by omega)
  have cB := hg.cell x (y - 1) (by omega) (by omega) (by omega) (by omega)
  have cC := hg.cell (x - 1) y (by omega) (by omega) (by omega) (by omega)
  have cD := hg.cell x y (by omega) (by omega) (by omega) (by omega)
  have nAB : readAt dm.map ((y - 1) * dm.stride + (x - 1))
      ≠ readAt dm.map ((y - 1) * dm.stride + x) := fun h => by
    have := hg.cell_inj (x - 1) (y - 1) x (y - 1) (by omega) (by omega) (by omega) (by omega)
      (by omega) (by omega) (by omega) (by omega) h
    omega
  have nBC : readAt dm.map ((y - 1) * dm.stride + x)
      ≠ readAt dm.map (y * dm.stride + (x - 1)) := fun h => by
    have := hg.cell_inj x (y - 1) (x - 1) y (by omega) (by omega) (by omega) (by omega)
      (by omega) (by omega) (by omega) (by omega) h
    omega
  have nCA : readAt dm.map (y * dm.stride + (x - 1))
      ≠ readAt dm.map ((y - 1) * dm.stride + (x - 1)) := fun h => by
    have := hg.cell_inj (x - 1) y (x - 1) (y - 1) (by omega) (by omega) (by omega) (by omega)
      (by omega) (by omega) (by omega) (by omega) h
    omega
  have nCD : readAt dm.map (y * dm.stride + (x - 1))
      ≠ readAt dm.map (y * dm.stride + x) := fun h => by
    have := hg.cell_inj (x - 1) y x y (by omega) (by omega) (by omega) (by omega)
      (by omega) (by omega) (by omega) (by omega) h
    omega
  have nDB : readAt dm.map (y * dm.stride + x)
      ≠ readAt dm.map ((y - 1) * dm.stride + x) := fun h => by
    have := hg.cell_inj x y x (y - 1) (by omega) (by omega) (by omega) (by omega)
      (by omega) (by omega) (by omega) (by omega) h
    omega
  have s1 := isSurface_of_flat dm.depth z hg.depth_pos _ _ _ cA.1 cB.1 cC.1 nAB nBC nCA
    cA.2 cB.2 cC.2
  have s2 := isSurface_of_flat dm.depth z hg.depth_pos _ _ _ cB.1 cC.1 cD.1 nBC nCD nDB
    cB.2 cC.2 cD.2
  unfold scanCell
  simp only [e1, e2, s1, s2, if_true]
  simp

/-- With the exact validator: on a flat grid without quads and with an empty
index list, `MakeSurface(m)` leaves `3 * (2 * (stride-1-2m) * (height-1-2m))` index entries,
and the id of a cell whose column is `< m` or `> stride-1-m`, or whose row is
`< m` or `> height-1-m`, is not among them. -/
theorem makeSurface_flat_count_exact (dm : State) (z : ℚ) (m : Int) (hg : FlatGrid dm z)
    (hr : dm.rects = []) (hi : dm.indices = []) (hm : 0 ≤ m)
    (hs : 0 ≤ dm.stride - 1 - 2 * m) (hh : 0 ≤ dm.height - 1 - 2 * m) :
    ((MakeSurface dm m).indices.length : Int)
        = 3 * (2 * (dm.stride - 1 - 2 * m) * (dm.height - 1 - 2 * m)) ∧
    (∀ cx cy : Int, 0 ≤ cx → cx < dm.stride → 0 ≤ cy → cy < dm.height →
        (cx < m ∨ cx > dm.stride - 1 - m ∨ cy < m ∨ cy > dm.height - 1 - m) →
        readAt dm.map (cy * dm.stride + cx) ∉ (MakeSurface dm m).indices) := by
  rw [makeSurface_indices, hr, hi]
  simp only [List.nil_append, List.flatMap_nil, List.append_nil]
  constructor
  · have hcol : ∀ x ∈ loopRange (1 + m) (dm.stride - m),
        ((loopRange (1 + m) (dm.height - m)).flatMap (fun y =>
          scanCell dm.stride dm.map dm.depth x y [])).length
          = 6 * (loopRange (1 + m) (dm.height - m)).length := by
      intro x hx
      rw [mem_loopRange] at hx
      apply length_flatMap_const
      intro y hy
      rw [mem_loopRange] at hy
      exact length_scanCell_flat hg x y (by omega) (by omega) (by omega) (by omega)
    rw [length_flatMap_const _ _ _ hcol, length_loopRange, length_loopRange]
    have e1 : ((dm.stride - m - (1 + m)).toNat : Int) = dm.stride - 1 - 2 * m := by omega
    have e2 : ((dm.height - m - (1 + m)).toNat : Int) = dm.height - 1 - 2 * m := by omega
    push_cast
    rw [e1, e2]
    ring
  · intro cx cy hx0 hx1 hy0 hy1 hout hmem
    rw [List.mem_flatMap] at hmem
    obtain ⟨x, hx, hmem⟩ := hmem
    rw [List.mem_flatMap] at hmem
    obtain ⟨y, hy, hmem⟩ := hmem
    rw [mem_loopRange] at hx hy
    obtain ⟨wx, wy, hwx, hwy, hv⟩ := mem_scanCell _ _ _ _ _ _ hmem
    have := hg.cell_inj cx cy wx wy hx0 hx1 hy0 hy1 (by omega) (by omega) (by omega)
      (by omega) hv
    omega

/-- The flat 4x4 grid of depth 1 is a flat grid. -/
theorem flatGrid_four : FlatGrid (flatGrid 4 4 1) 1 :=
  ⟨by decide, by decide, by decide, by decide!, by norm_num⟩

/-- The number of entries left by `MakeSurface` with a margin `m ≥ 0`. -/
theorem length_makeSurface_le (dm : State) (m : Int) (hm : 0 ≤ m) (hs : 0 ≤ dm.stride)
    (hh : 0 ≤ dm.height) :
    ((MakeSurface dm m).indices.length : Int)
      ≤ dm.indices.length + 6 * (dm.stride * dm.height) + 6 * dm.rects.length := by
  rw [makeSurface_indices]
  simp only [List.length_append]
  have hcol : ∀ x ∈ loopRange (1 + m) (dm.stride - m),
      ((loopRange (1 + m) (dm.height - m)).flatMap (fun y =>
        scanCell dm.stride dm.map dm.depth x y [])).length
        ≤ 6 * (loopRange (1 + m) (dm.height - m)).length := fun x _ =>
    length_flatMap_le _ _ 6 (fun y _ => length_scanCell_le _ _ _ _ _)
  have h1 := length_flatMap_le _ _ _ hcol
  have h2 := length_flatMap_const dm.rects rectEntries 6 (fun r _ => rfl)
  rw [h2]
  rw [length_loopRange, length_loopRange] at h1
  have hx : ((dm.stride - m - (1 + m)).toNat : Int) ≤ dm.stride := by omega
  have hy : ((dm.height - m - (1 + m)).toNat : Int) ≤ dm.height := by omega
  have hx0 : (0 : Int) ≤ ((dm.stride - m - (1 + m)).toNat : Int) := Int.ofNat_nonneg _
  have hy0 : (0 : Int) ≤ ((dm.height - m - (1 + m)).toNat : Int) := Int.ofNat_nonneg _
  have h3 : ((dm.height - m - (1 + m)).toNat : Int) * ((dm.stride - m - (1 + m)).toNat : Int)
      ≤ dm.stride * dm.height := by nlinarith
  have h4 : (((loopRange (1 + m) (dm.stride - m)).flatMap (fun x =>
      (loopRange (1 + m) (dm.height - m)).flatMap (fun y =>
        scanCell dm.stride dm.map dm.depth x y []))).length : Int)
      ≤ 6 * ((dm.height - m - (1 + m)).toNat : Int) * ((dm.stride - m - (1 + m)).toNat : Int) := by
    exact_mod_cast h1
  push_cast
  nlinarith

/-! ## The merge -/

theorem joinClearColumn_ok (stride x : Int) (hs : stride ≠ 0) (ys : List Int) (map : List Int)
    (hnd : ys.Nodup) (hne : ∀ y ∈ ys, 0 ≤ readAt map (y * stride + x)) :
    (joinClearColumn stride x ys map).1 = true ∧
    ∀ j : Int, (∀ y ∈ ys, j ≠ y * stride + x) →
      readAt (joinClearColumn stride x ys map).2 j = readAt map j := by
  induction ys generalizing map with
  | nil =>
    exact ⟨rfl, fun j _ => rfl⟩
  | cons y ys ih =>
    have h0 : ¬ readAt map (y * stride + x) < 0 :=
      not_lt.mpr (hne y (List.mem_cons_self y ys))
    have hnd1 := List.nodup_cons.mp hnd
    have hne1 : ∀ y1 ∈ ys, 0 ≤ readAt (writeAt map (y * stride + x) (-1)) (y1 * stride + x) := by
      intro y1 hy1
      have hyy : y ≠ y1 := fun h => hnd1.1 (h ▸ hy1)
      have hflat : y * stride + x ≠ y1 * stride + x := by
        intro h
        have h3 : y * stride = y1 * stride := by omega
        exact hyy (Int.eq_of_mul_eq_mul_right hs h3)
      rw [readAt_writeAt_ne _ _ _ _ hflat]
      exact hne y1 (List.mem_cons_of_mem y hy1)
    have ih1 := ih (writeAt map (y * stride + x) (-1)) hnd1.2 hne1
    unfold joinClearColumn
    rw [if_neg h0]
    refine ⟨ih1.1, fun j hj => ?_⟩
    rw [ih1.2 j (fun y1 hy1 => hj y1 (List.mem_cons_of_mem y hy1))]
    exact readAt_writeAt_ne _ _ _ _ (fun h => hj y (List.mem_cons_self y ys) h.symm)

theorem joinClear_ok (stride : Int) (ys xs : List Int) (map : List Int)
    (hndx : xs.Nodup) (hndy : ys.Nodup) (hxb : ∀ x ∈ xs, 0 ≤ x ∧ x < stride)
    (hne : ∀ x ∈ xs, ∀ y ∈ ys, 0 ≤ readAt map (y * stride + x)) :
    (joinClear stride ys xs map).1 = true ∧
    ∀ j : Int, (∀ x ∈ xs, ∀ y ∈ ys, j ≠ y * stride + x) →
      readAt (joinClear stride ys xs map).2 j = readAt map j := by
  induction xs generalizing map with
  | nil =>
    exact ⟨rfl, fun j _ => rfl⟩
  | cons x xs ih =>
    have hx := hxb x (List.mem_cons_self x xs)
    have hs : stride ≠ 0 := by omega
    have hnd1 := List.nodup_cons.mp hndx
    have hcol := joinClearColumn_ok stride x hs ys map hndy
      (fun y hy => hne x (List.mem_cons_self x xs) y hy)
    have hne1 : ∀ x1 ∈ xs, ∀ y ∈ ys,
        0 ≤ readAt (joinClearColumn stride x ys map).2 (y * stride + x1) := by
      intro x1 hx1 y hy
      have hxx : x1 ≠ x := fun h => hnd1.1 (h ▸ hx1)
      have hx1b := hxb x1 (List.mem_cons_of_mem x hx1)
      rw [hcol.2]
      · exact hne x1 (List.mem_cons_of_mem x hx1) y hy
      · intro y0 _ h
        exact hxx (flat_inj stride x1 y x y0 hx1b.1 hx1b.2 hx.1 hx.2 h).1
    have ih1 := ih (joinClearColumn stride x ys map).2 hnd1.2
      (fun x1 hx1 => hxb x1 (List.mem_cons_of_mem x hx1)) hne1
    have hsplit : joinClearColumn stride x ys map
        = (true, (joinClearColumn stride x ys map).2) := Prod.ext hcol.1 rfl
    have hunf : joinClear stride ys (x :: xs) map
        = joinClear stride ys xs (joinClearColumn stride x ys map).2 := by
      rw [joinClear, hsplit]
    rw [hunf]
    refine ⟨ih1.1, fun j hj => ?_⟩
    rw [ih1.2 j (fun x1 hx1 y hy => hj x1 (List.mem_cons_of_mem x hx1) y hy)]
    exact hcol.2 j (fun y hy => hj x (List.mem_cons_self x xs) y hy)

/-- The return expression of `Join` when nothing wraps around. -/
theorem joinCheck_iff (before after : Nat) (x1 y1 x2 y2 : Int) (hb : (before : Int) < 2 ^ 32)
    (hw : 0 ≤ (x2 - x1 + 1) * (y2 - y1 + 1))
    (hp : (x2 - x1 + 1) * (y2 - y1 + 1) * 6 < 2 ^ 31)
    (ha : (after : Int) + (x2 - x1 + 1) * (y2 - y1 + 1) * 6 - 24 < 2 ^ 64) :
    joinCheck before after x1 y1 x2 y2 = true
      ↔ (before : Int) - (after : Int) = 6 * (x2 - x1 + 1) * (y2 - y1 + 1) - 24 := by
  have hwrap : wrapInt32 ((x2 - x1 + 1) * (y2 - y1 + 1) * 6)
      = (x2 - x1 + 1) * (y2 - y1 + 1) * 6 := by
    unfold wrapInt32
    generalize (x2 - x1 + 1) * (y2 - y1 + 1) = p at hw hp
    norm_num at hp ⊢
    omega
  unfold joinCheck
  rw [decide_eq_true_eq, hwrap]
  have e : 6 * (x2 - x1 + 1) * (y2 - y1 + 1) = (x2 - x1 + 1) * (y2 - y1 + 1) * 6 := by ring
  rw [e]
  generalize (x2 - x1 + 1) * (y2 - y1 + 1) = p at hw hp ha ⊢
  norm_num at hb ha ⊢
  omega

/-- What `Join` returns on a rectangle inside the grid without an empty cell. -/
theorem join_of_pre (dm : State) (x1 y1 x2 y2 : Int)
    (hx1 : 0 ≤ x1) (hx12 : x1 ≤ x2) (hx2 : x2 < dm.stride)
    (hy12 : y1 ≤ y2) (hy2 : y2 < dm.height)
    (hcells : ∀ x y : Int, x1 ≤ x → x ≤ x2 → y1 ≤ y → y ≤ y2 →
      0 ≤ readAt dm.map (y * dm.stride + x)) :
    Join dm x1 y1 x2 y2
      = (joinCheck dm.indices.length
          (MakeSurface (joinOverwrite dm x1 y1 x2 y2
            (readAt dm.map (y1 * dm.stride + x1)) (readAt dm.map (y1 * dm.stride + x2))
            (readAt dm.map (y2 * dm.stride + x1)) (readAt dm.map (y2 * dm.stride + x2))
            (joinClear dm.stride (loopRange y1 (y2 + 1)) (loopRange x1 (x2 + 1)) dm.map).2)
            dm.lastMargin).indices.length x1 y1 x2 y2,
        MakeSurface (joinOverwrite dm x1 y1 x2 y2
            (readAt dm.map (y1 * dm.stride + x1)) (readAt dm.map (y1 * dm.stride + x2))
            (readAt dm.map (y2 * dm.stride + x1)) (readAt dm.map (y2 * dm.stride + x2))
            (joinClear dm.stride (loopRange y1 (y2 + 1)) (loopRange x1 (x2 + 1)) dm.map).2)
            dm.lastMargin) := by
  have hclear := (joinClear_ok dm.stride (loopRange y1 (y2 + 1)) (loopRange x1 (x2 + 1)) dm.map
    (nodup_loopRange _ _) (nodup_loopRange _ _)
    (fun x hx => by rw [mem_loopRange] at hx; omega)
    (fun x hx y hy => by
      rw [mem_loopRange] at hx hy
      exact hcells x y (by omega) (by omega) (by omega) (by omega))).1
  have hsplit : joinClear dm.stride (loopRange y1 (y2 + 1)) (loopRange x1 (x2 + 1)) dm.map
      = (true, (joinClear dm.stride (loopRange y1 (y2 + 1)) (loopRange x1 (x2 + 1)) dm.map).2) :=
    Prod.ext hclear rfl
  have ha := hcells x1 y1 (le_refl _) hx12 (le_refl _) hy12
  have hb := hcells x2 y1 hx12 (le_refl _) (le_refl _) hy12
  have hc := hcells x1 y2 (le_refl _) hx12 hy12 (le_refl _)
  have hd := hcells x2 y2 hx12 (le_refl _) hy12 (le_refl _)
  have hcorner : ¬ (readAt dm.map (y1 * dm.stride + x1) < 0
      ∨ readAt dm.map (y1 * dm.stride + x2) < 0
      ∨ readAt dm.map (y2 * dm.stride + x1) < 0
      ∨ readAt dm.map (y2 * dm.stride + x2) < 0) := by
    omega
  unfold Join
  rw [if_neg (not_le.mpr hx2), if_neg (not_le.mpr hy2)]
  simp only []
  rw [if_neg hcorner, hsplit]
  rfl

/-! ## Rejections of `Join` -/

/-- The three guards of lines 47-57 return false before anything is written. -/
theorem join_guard_unchanged (dm : State) (x1 y1 x2 y2 : Int)
    (h : dm.stride ≤ x2 ∨ dm.height ≤ y2
      ∨ readAt dm.map (y1 * dm.stride + x1) < 0 ∨ readAt dm.map (y1 * dm.stride + x2) < 0
      ∨ readAt dm.map (y2 * dm.stride + x1) < 0 ∨ readAt dm.map (y2 * dm.stride + x2) < 0) :
    Join dm x1 y1 x2 y2 = (false, dm) := by
  unfold Join
  by_cases h1 : x2 ≥ dm.stride
  · rw [if_pos h1]
  · rw [if_neg h1]
    by_cases h2 : y2 ≥ dm.height
    · rw [if_pos h2]
    · rw [if_neg h2]
      have h3 : readAt dm.map (y1 * dm.stride + x1) < 0 ∨ readAt dm.map (y1 * dm.stride + x2) < 0
          ∨ readAt dm.map (y2 * dm.stride + x1) < 0 ∨ readAt dm.map (y2 * dm.stride + x2) < 0 := by
        rcases h with h | h | h
        · exact absurd h h1
        · exact absurd h h2
        · exact h
      simp only []
      rw [if_pos h3]

/-- Clearing a cell leaves every cell as it was or empty. -/
theorem readAt_writeAt_clear (v : List Int) (i j : Int) :
    readAt (writeAt v i (-1)) j = readAt v j ∨ readAt (writeAt v i (-1)) j = -1 := by
  by_cases hij : i = j
  · subst hij
    by_cases hr : 0 ≤ i ∧ i < v.length
    · exact Or.inr (readAt_writeAt_self v i (-1) hr.1 hr.2)
    · left
      unfold readAt writeAt
      by_cases h0 : 0 ≤ i
      · have hlen : v.length ≤ i.toNat := by omega
        simp only [if_pos h0, List.getD_eq_getElem?_getD]
        rw [List.getElem?_eq_none (by simpa using hlen), List.getElem?_eq_none hlen]
      · simp only [if_neg h0]
  · exact Or.inl (readAt_writeAt_ne v i j (-1) hij)

theorem joinClearColumn_cells (stride x : Int) (ys : List Int) (map : List Int) :
    (∀ j : Int, readAt (joinClearColumn stride x ys map).2 j = readAt map j
      ∨ readAt (joinClearColumn stride x ys map).2 j = -1) ∧
    ((joinClearColumn stride x ys map).1 = true →
      ∀ y ∈ ys, 0 ≤ readAt map (y * stride + x)) := by
  induction ys generalizing map with
  | nil =>
    exact ⟨fun j => Or.inl rfl, fun _ y hy => absurd hy (List.not_mem_nil y)⟩
  | cons y ys ih =>
    unfold joinClearColumn
    by_cases h0 : readAt map (y * stride + x) < 0
    · rw [if_pos h0]
      exact ⟨fun j => Or.inl rfl, fun h => by cases h⟩
    · rw [if_neg h0]
      have ih1 := ih (writeAt map (y * stride + x) (-1))
      constructor
      · intro j
        rcases ih1.1 j with h | h
        · rw [h]
          exact readAt_writeAt_clear map _ j
        · exact Or.inr h
      · intro h y1 hy1
        rcases List.mem_cons.mp hy1 with rfl | hy1
        · omega
        · have h1 := ih1.2 h y1 hy1
          rcases readAt_writeAt_clear map (y * stride + x) (y1 * stride + x) with h2 | h2
          · rw [h2] at h1
            exact h1
          · omega

theorem joinClear_cells (stride : Int) (ys xs : List Int) (map : List Int) :
    (∀ j : Int, readAt (joinClear stride ys xs map).2 j = readAt map j
      ∨ readAt (joinClear stride ys xs map).2 j = -1) ∧
    ((joinClear stride ys xs map).1 = true →
      ∀ x ∈ xs, ∀ y ∈ ys, 0 ≤ readAt map (y * stride + x)) := by
  induction xs generalizing map with
  | nil =>
    exact ⟨fun j => Or.inl rfl, fun _ x hx => absurd hx (List.not_mem_nil x)⟩
  | cons x xs ih =>
    have hcol := joinClearColumn_cells stride x ys map
    rcases hc : joinClearColumn stride x ys map with ⟨ok, map1⟩
    rw [hc] at hcol
    cases ok with
    | false =>
      have hunf : joinClear stride ys (x :: xs) map = (false, map1) := by
        rw [joinClear, hc]
      rw [hunf]
      exact ⟨hcol.1, fun h => by cases h⟩
    | true =>
      have hunf : joinClear stride ys (x :: xs) map = joinClear stride ys xs map1 := by
        rw [joinClear, hc]
      rw [hunf]
      have ih1 := ih map1
      constructor
      · intro j
        rcases ih1.1 j with h | h
        · rw [h]
          exact hcol.1 j
        · exact Or.inr h
      · intro h x0 hx0 y hy
        rcases List.mem_cons.mp hx0 with rfl | hx0
        · exact hcol.2 rfl y hy
        · have h1 := ih1.2 h x0 hx0 y hy
          rcases hcol.1 (y * stride + x0) with h2 | h2
          · rw [h2] at h1
            exact h1
          · simp only at h2
            omega

/-- The part of C1 that holds for every state: a rectangle with an empty cell
makes `Join` return false, with `indices` and `rects` as before the call. -/
theorem join_empty_cell_false (dm : State) (x1 y1 x2 y2 x y : Int)
    (hx : x1 ≤ x ∧ x ≤ x2) (hy : y1 ≤ y ∧ y ≤ y2)
    (hempty : readAt dm.map (y * dm.stride + x) < 0) :
    (Join dm x1 y1 x2 y2).1 = false ∧ (Join dm x1 y1 x2 y2).2.indices = dm.indices
      ∧ (Join dm x1 y1 x2 y2).2.rects = dm.rects := by
  by_cases hg : dm.stride ≤ x2 ∨ dm.height ≤ y2
      ∨ readAt dm.map (y1 * dm.stride + x1) < 0 ∨ readAt dm.map (y1 * dm.stride + x2) < 0
      ∨ readAt dm.map (y2 * dm.stride + x1) < 0 ∨ readAt dm.map (y2 * dm.stride + x2) < 0
  · rw [join_guard_unchanged dm x1 y1 x2 y2 hg]
    exact ⟨rfl, rfl, rfl⟩
  · have h1 : ¬ x2 ≥ dm.stride := fun h => hg (Or.inl h)
    have h2 : ¬ y2 ≥ dm.height := fun h => hg (Or.inr (Or.inl h))
    have h3 : ¬ (readAt dm.map (y1 * dm.stride + x1) < 0
        ∨ readAt dm.map (y1 * dm.stride + x2) < 0
        ∨ readAt dm.map (y2 * dm.stride + x1) < 0
        ∨ readAt dm.map (y2 * dm.stride + x2) < 0) := fun h => hg (Or.inr (Or.inr h))
    have hcells := (joinClear_cells dm.stride (loopRange y1 (y2 + 1)) (loopRange x1 (x2 + 1))
      dm.map).2
    unfold Join
    rw [if_neg h1, if_neg h2]
    simp only []
    rw [if_neg h3]
    rcases hc : joinClear dm.stride (loopRange y1 (y2 + 1)) (loopRange x1 (x2 + 1)) dm.map
      with ⟨ok, map1⟩
    rw [hc] at hcells
    cases ok with
    | false => exact ⟨rfl, rfl, rfl⟩
    | true =>
      have := hcells rfl x ((mem_loopRange _ _ _).mpr (by omega)) y
        ((mem_loopRange _ _ _).mpr (by omega))
      omega

/-- C1: on the 3x3 grid with an empty centre, `Join(0,0,2,2)` returns false
after it has cleared the cells (0,0), (0,1), (0,2) and (1,0). -/
theorem join_hole_clears_cells :
    holeGrid.map = [0, 1, 2, 3, -1, 5, 6, 7, 8] ∧
    (Join holeGrid 0 0 2 2).1 = false ∧
    (Join holeGrid 0 0 2 2).2.map = [-1, -1, 2, -1, -1, 5, -1, 7, 8] ∧
    (Join holeGrid 0 0 2 2).2.indices = holeGrid.indices ∧
    (Join holeGrid 0 0 2 2).2.rects = holeGrid.rects := by
  decide!

/-- C2: on the triangulated 4x4 grid `Join(-1,1,1,2)` passes the two bound
checks, reads and writes inside the vector only, overwrites six cells (one of
them cell (3,0)), appends a quad and rebuilds the indices. -/
theorem join_negative_x1_mutates :
    (Join (MakeSurface (flatGrid 4 4 1) 0) (-1) 1 1 2).1 = false ∧
    (MakeSurface (flatGrid 4 4 1) 0).map
      = [0, 1, 2, 3, 4, 5, 6, 7, 8, 9, 10, 11, 12, 13, 14, 15] ∧
    (Join (MakeSurface (flatGrid 4 4 1) 0) (-1) 1 1 2).2.map
      = [0, 1, 2, 7, 5, 9, 6, 7, 9, 9, 10, 11, 12, 13, 14, 15] ∧
    (MakeSurface (flatGrid 4 4 1) 0).rects = [] ∧
    (Join (MakeSurface (flatGrid 4 4 1) 0) (-1) 1 1 2).2.rects = [⟨3, 5, 7, 9⟩] ∧
    (MakeSurface (flatGrid 4 4 1) 0).indices.length = 54 ∧
    (Join (MakeSurface (flatGrid 4 4 1) 0) (-1) 1 1 2).2.indices.length = 45 := by
  decide!

/-! ## The 4x4 scenario -/

/-- When `mapScale` divides the width and the height of the image, the cell of
an accepted pixel is a cell of the grid and its flat index lies in the vector. -/
theorem cellIndex_in_grid (W H mapScale x y : Int) (hms : 1 ≤ mapScale)
    (hW : mapScale ∣ W) (hH : mapScale ∣ H) (hacc : accepted W H x y = true) :
    (0 ≤ x.tdiv mapScale ∧ x.tdiv mapScale < gridStride W mapScale) ∧
    (0 ≤ y.tdiv mapScale ∧ y.tdiv mapScale < gridHeight H mapScale) ∧
    0 ≤ cellIndex (gridStride W mapScale) mapScale x y ∧
    cellIndex (gridStride W mapScale) mapScale x y
      < gridStride W mapScale * gridHeight H mapScale := by
  unfold accepted at hacc
  rw [decide_eq_true_eq] at hacc
  obtain ⟨hx0, hx1, hy0, hy1⟩ := hacc
  have hpos : 0 < mapScale := by omega
  have hW0 : 0 ≤ W := by omega
  have hH0 : 0 ≤ H := by omega
  unfold gridStride gridHeight cellIndex
  rw [Int.tdiv_eq_ediv hx0 (by omega), Int.tdiv_eq_ediv hy0 (by omega),
    Int.tdiv_eq_ediv hW0 (by omega), Int.tdiv_eq_ediv hH0 (by omega)]
  have a1 : 0 ≤ x / mapScale := (Int.div_nonneg_iff_of_pos hpos).mpr hx0
  have a2 : x / mapScale < W / mapScale :=
    (Int.ediv_lt_iff_lt_mul hpos).mpr (by rw [Int.ediv_mul_cancel hW]; exact hx1)
  have a3 : 0 ≤ y / mapScale := (Int.div_nonneg_iff_of_pos hpos).mpr hy0
  have a4 : y / mapScale < H / mapScale :=
    (Int.ediv_lt_iff_lt_mul hpos).mpr (by rw [Int.ediv_mul_cancel hH]; exact hy1)
  have hb := flat_bounds (W / mapScale) (H / mapScale) (x / mapScale) (y / mapScale) a1 a2 a3 a4
  exact ⟨⟨a1, a2⟩, ⟨a3, a4⟩, hb.1, hb.2⟩

theorem getElem?_writeAt_ne {α : Type} (v : List α) (i j : Int) (val : α) (hj : 0 ≤ j)
    (h : i ≠ j) : (writeAt v i val)[j.toNat]? = v[j.toNat]? := by
  unfold writeAt
  by_cases hi : 0 ≤ i
  · rw [if_pos hi]
    exact List.getElem?_set_ne (by omega)
  · rw [if_neg hi]

theorem getElem?_writeAt_self {α : Type} (v : List α) (i : Int) (val : α) (h0 : 0 ≤ i)
    (h1 : i < v.length) : (writeAt v i val)[i.toNat]? = some val := by
  unfold writeAt
  rw [if_pos h0]
  exact List.getElem?_set_self (by omega)

theorem construct_snoc (W H mapScale : Int) (cam : Camera) (matrix : List ℚ)
    (pts : List Vec3) (v : Vec3) :
    construct W H mapScale cam matrix (pts ++ [v])
      = addPoint W H mapScale cam (construct W H mapScale cam matrix pts) v := by
  simp [construct, List.foldl_append]

theorem acceptedPoints_snoc (W H : Int) (cam : Camera) (pts : List Vec3) (v : Vec3) :
    acceptedPoints W H cam (pts ++ [v])
      = acceptedPoints W H cam pts
        ++ (if accepted W H (cam.pixel v).1 (cam.pixel v).2 then [v] else []) := by
  unfold acceptedPoints
  rw [List.filter_append]
  by_cases h : accepted W H (cam.pixel v).1 (cam.pixel v).2 = true
  · simp [h]
  · simp [h]

/-- What the constructor leaves behind, by flat index: ids are given to the
accepted points in iteration order, and a flat index of the grid holds the id
and the raw point of the last accepted point written to it, or the initial
`-1` entries when no accepted point is written to it. -/
theorem construct_last_write (W H mapScale : Int) (cam : Camera) (matrix : List ℚ)
    (pts : List Vec3) :
    (construct W H mapScale cam matrix pts).stride = gridStride W mapScale ∧
    (construct W H mapScale cam matrix pts).height = gridHeight H mapScale ∧
    ((construct W H mapScale cam matrix pts).map.length : Int)
      = ((gridStride W mapScale * gridHeight H mapScale).toNat : Int) ∧
    ((construct W H mapScale cam matrix pts).vecmap.length : Int)
      = ((gridStride W mapScale * gridHeight H mapScale).toNat : Int) ∧
    (construct W H mapScale cam matrix pts).vertices
      = (acceptedPoints W H cam pts).map cam.world ∧
    (construct W H mapScale cam matrix pts).depth
      = (acceptedPoints W H cam pts).map (fun v => v.z) ∧
    (construct W H mapScale cam matrix pts).colors
      = (acceptedPoints W H cam pts).map (fun v => cam.color (cam.pixel v).1 (cam.pixel v).2) ∧
    (∀ i : Int, 0 ≤ i → i < gridStride W mapScale * gridHeight H mapScale →
      (∀ v ∈ acceptedPoints W H cam pts,
        writeIndex (gridStride W mapScale) mapScale cam v ≠ i) →
      readAt (construct W H mapScale cam matrix pts).map i = -1 ∧
      (construct W H mapScale cam matrix pts).vecmap[i.toNat]? = some ⟨-1, -1, -1⟩) ∧
    (∀ i : Int, 0 ≤ i → i < gridStride W mapScale * gridHeight H mapScale →
      ∀ (k : Nat) (v : Vec3), (acceptedPoints W H cam pts)[k]? = some v →
        writeIndex (gridStride W mapScale) mapScale cam v = i →
        (∀ (k1 : Nat) (v1 : Vec3), k < k1 → (acceptedPoints W H cam pts)[k1]? = some v1 →
          writeIndex (gridStride W mapScale) mapScale cam v1 ≠ i) →
        readAt (construct W H mapScale cam matrix pts).map i = (k : Int) ∧
        (construct W H mapScale cam matrix pts).vecmap[i.toNat]? = some v) := by
  induction pts using List.reverseRecOn with
  | nil =>
    refine ⟨rfl, rfl, ?_, ?_, rfl, rfl, rfl, ?_, ?_⟩
    · simp [construct, emptyGrid]
    · simp [construct, emptyGrid]
    · intro i h0 h1 _
      have hlt : i.toNat < (gridStride W mapScale * gridHeight H mapScale).toNat := by omega
      constructor
      · unfold readAt
        rw [if_pos h0]
        simp [construct, emptyGrid, List.getElem?_replicate, hlt]
      · simp [construct, emptyGrid, List.getElem?_replicate, hlt]
    · intro i _ _ k v hk
      simp [acceptedPoints] at hk
  | append_singleton pts p ih =>
    obtain ⟨hs, hh, hml, hvl, hv, hd, hc, hA, hB⟩ := ih
    rw [construct_snoc, acceptedPoints_snoc]
    by_cases hacc : accepted W H (cam.pixel p).1 (cam.pixel p).2 = true
    · have hadd : addPoint W H mapScale cam (construct W H mapScale cam matrix pts) p
          = { construct W H mapScale cam matrix pts with
              colors := (construct W H mapScale cam matrix pts).colors
                ++ [cam.color (cam.pixel p).1 (cam.pixel p).2],
              map := writeAt (construct W H mapScale cam matrix pts).map
                (writeIndex (gridStride W mapScale) mapScale cam p)
                ((construct W H mapScale cam matrix pts).vertices.length : Int),
              vecmap := writeAt (construct W H mapScale cam matrix pts).vecmap
                (writeIndex (gridStride W mapScale) mapScale cam p) p,
              depth := (construct W H mapScale cam matrix pts).depth ++ [p.z],
              vertices := (construct W H mapScale cam matrix pts).vertices ++ [cam.world p] } := by
        unfold addPoint writeIndex
        simp only [hacc, if_true, hs]
      rw [hadd, if_pos hacc]
      simp only [length_writeAt, List.map_append, List.map_cons, List.map_nil]
      refine ⟨hs, hh, hml, hvl, by rw [hv], by rw [hd], by rw [hc], ?_, ?_⟩
      · intro i h0 h1 hno
        have hne : writeIndex (gridStride W mapScale) mapScale cam p ≠ i :=
          hno p (List.mem_append_right _ (List.mem_singleton_self p))
        rw [readAt_writeAt_ne _ _ _ _ hne, getElem?_writeAt_ne _ _ _ _ h0 hne]
        exact hA i h0 h1 (fun v hv1 => hno v (List.mem_append_left _ hv1))
      · intro i h0 h1 k v hk hw hlast
        have hlen : (construct W H mapScale cam matrix pts).vertices.length
            = (acceptedPoints W H cam pts).length := by rw [hv, List.length_map]
        by_cases hkl : k < (acceptedPoints W H cam pts).length
        · rw [List.getElem?_append_left hkl] at hk
          have hne : writeIndex (gridStride W mapScale) mapScale cam p ≠ i := by
            apply hlast (acceptedPoints W H cam pts).length p hkl
            rw [List.getElem?_append_right (le_refl _)]
            simp
          rw [readAt_writeAt_ne _ _ _ _ hne, getElem?_writeAt_ne _ _ _ _ h0 hne]
          apply hB i h0 h1 k v hk hw
          intro k1 v1 hk1 hv1
          apply hlast k1 v1 hk1
          have hk1l : k1 < (acceptedPoints W H cam pts).length := by
            by_contra hge
            rw [List.getElem?_eq_none (by omega)] at hv1
            cases hv1
          rw [List.getElem?_append_left hk1l]
          exact hv1
        · rw [List.getElem?_append_right (by omega)] at hk
          have hk0 : k - (acceptedPoints W H cam pts).length = 0 := by
            by_contra hne
            rw [List.getElem?_eq_none (by simp; omega)] at hk
            cases hk
          rw [hk0] at hk
          simp only [List.getElem?_cons_zero, Option.some.injEq] at hk
          subst hk
          have hkeq : k = (acceptedPoints W H cam pts).length := by omega
          rw [hw, hlen, ← hkeq]
          exact ⟨readAt_writeAt_self _ _ _ h0 (by omega),
            getElem?_writeAt_self _ _ _ h0 (by omega)⟩
    · have hadd : addPoint W H mapScale cam (construct W H mapScale cam matrix pts) p
          = construct W H mapScale cam matrix pts := by
        unfold addPoint
        simp only [hacc]
        rfl
      rw [hadd, if_neg hacc, List.append_nil]
      exact ⟨hs, hh, hml, hvl, hv, hd, hc, hA, hB⟩

/-- When `mapScale` divides the width and the height of the image, an accepted
point is written to the flat index of a grid cell exactly when that cell is
its own cell `(x / mapScale, y / mapScale)`. -/
theorem writeIndex_eq_cell (W H mapScale : Int) (cam : Camera) (v : Vec3) (cx cy : Int)
    (hms : 1 ≤ mapScale) (hW : mapScale ∣ W) (hH : mapScale ∣ H)
    (hacc : accepted W H (cam.pixel v).1 (cam.pixel v).2 = true)
    (hcx : 0 ≤ cx ∧ cx < gridStride W mapScale) :
    writeIndex (gridStride W mapScale) mapScale cam v = cy * gridStride W mapScale + cx
      ↔ ((cam.pixel v).1.tdiv mapScale = cx ∧ (cam.pixel v).2.tdiv mapScale = cy) := by
  have hin := cellIndex_in_grid W H mapScale _ _ hms hW hH hacc
  unfold writeIndex cellIndex
  constructor
  · intro h
    exact flat_inj _ _ _ _ _ hin.1.1 hin.1.2 hcx.1 hcx.2 h
  · rintro ⟨h1, h2⟩
    rw [h1, h2]

/-- C9: for a 5x4 image and `mapScale = 2` the grid is 2x2; the accepted pixel
(4,1) has column `4/2 = 2`, not below the stride, and its flat index 2 is that
of cell (0,1); the accepted pixel (4,3) has flat index 4, outside the grid. -/
theorem cellIndex_leaves_grid :
    gridStride 5 2 = 2 ∧ gridHeight 4 2 = 2 ∧
    accepted 5 4 4 1 = true ∧ ¬ ((4 : Int).tdiv 2 < gridStride 5 2) ∧
    cellIndex (gridStride 5 2) 2 4 1 = 1 * gridStride 5 2 + 0 ∧
    accepted 5 4 4 3 = true ∧
    ¬ (cellIndex (gridStride 5 2) 2 4 3 < gridStride 5 2 * gridHeight 4 2) := by
  decide

/-- C10: for a 5x4 image and `mapScale = 2`, the single point at pixel (4,1)
has cell column 2 and row 0, yet the grid cell (0,1), flat index 2, holds its
id 0 after construction. -/
theorem construct_aliases_cell :
    floorCamera.pixel ⟨4, 1, 1⟩ = (4, 1) ∧
    ((4 : Int).tdiv 2, (1 : Int).tdiv 2) ≠ (0, 1) ∧
    (construct 5 4 2 floorCamera [] [⟨4, 1, 1⟩]).stride = 2 ∧
    (construct 5 4 2 floorCamera [] [⟨4, 1, 1⟩]).map = [-1, -1, 0, -1] ∧
    readAt (construct 5 4 2 floorCamera [] [⟨4, 1, 1⟩]).map (1 * 2 + 0) = 0 := by
  decide!

/-! ## The validator accepts positive depths only -/

/-- Three depths accepted by the validator are positive. -/
theorem isSurface_pos (depth : List ℚ) (a b c : Int) (h : IsSurface depth a b c = true) :
    0 < depthAt depth a ∧ 0 < depthAt depth b ∧ 0 < depthAt depth c := by
  unfold IsSurface at h
  by_cases hg : 0 ≤ a ∧ 0 ≤ b ∧ 0 ≤ c ∧ a ≠ b ∧ b ≠ c ∧ c ≠ a
  · rw [if_pos hg] at h
    simp only [] at h
    by_cases hl : |depthAt depth a - depthAt depth b|
          < 75 / 1000 * (depthAt depth c + depthAt depth b + depthAt depth a) / 3
        ∧ |depthAt depth a - depthAt depth c|
          < 75 / 1000 * (depthAt depth c + depthAt depth b + depthAt depth a) / 3
        ∧ |depthAt depth b - depthAt depth c|
          < 75 / 1000 * (depthAt depth c + depthAt depth b + depthAt depth a) / 3
    · obtain ⟨h1, h2, h3⟩ := hl
      have p1 := abs_nonneg (depthAt depth a - depthAt depth b)
      rw [abs_lt] at h1 h2 h3
      refine ⟨?_, ?_, ?_⟩ <;> linarith [h1.1, h1.2, h2.1, h2.2, h3.1, h3.2]
    · rw [if_neg hl] at h
      cases h
  · rw [if_neg hg] at h
    cases h

theorem scanCell_eq_specWindow (stride : Int) (map : List Int) (depth : List ℚ) (x y : Int) :
    scanCell stride map depth x y [] = specWindow stride map depth x y := by
  unfold scanCell specWindow
  simp only []
  split_ifs <;> simp

/-- An entry pushed at a window belongs to a triangle that passed the validator. -/
theorem scanCell_entry_valid (stride : Int) (map : List Int) (depth : List ℚ) (x y v : Int)
    (h : v ∈ scanCell stride map depth x y []) :
    ∃ a b c : Int, IsSurface depth a b c = true ∧ (v = a ∨ v = b ∨ v = c) := by
  rw [scanCell_eq_specWindow] at h
  unfold specWindow at h
  rw [List.mem_append] at h
  rcases h with h | h
  · by_cases h1 : IsSurface depth (readAt map ((y - 1) * stride + x - 1))
        (readAt map ((y - 1) * stride + x)) (readAt map (y * stride + x - 1)) = true
    · rw [if_pos h1] at h
      refine ⟨_, _, _, h1, ?_⟩
      simp only [List.mem_cons, List.mem_singleton, List.not_mem_nil, or_false] at h
      rcases h with h | h | h
      · exact Or.inr (Or.inr h)
      · exact Or.inr (Or.inl h)
      · exact Or.inl h
    · rw [if_neg h1] at h
      exact absurd h (List.not_mem_nil v)
  · by_cases h2 : IsSurface depth (readAt map ((y - 1) * stride + x))
        (readAt map (y * stride + x - 1)) (readAt map (y * stride + x)) = true
    · rw [if_pos h2] at h
      refine ⟨_, _, _, h2, ?_⟩
      simp only [List.mem_cons, List.mem_singleton, List.not_mem_nil, or_false] at h
      exact h
    · rw [if_neg h2] at h
      exact absurd h (List.not_mem_nil v)

/-- C20: ids accepted by `IsSurface` have positive depths, and so has every
entry that the grid scan of `MakeSurface(m)` pushes. -/
theorem isSurface_positive_depths (dm : State) (m : Int) :
    (∀ a b c : Int, IsSurface dm.depth a b c = true →
      0 < depthAt dm.depth a ∧ 0 < depthAt dm.depth b ∧ 0 < depthAt dm.depth c) ∧
    (∀ v ∈ scanGrid dm.stride dm.map dm.depth (loopRange (1 + m) (dm.stride - m))
        (loopRange (1 + m) (dm.height - m)) [], 0 < depthAt dm.depth v) := by
  refine ⟨fun a b c h => isSurface_pos dm.depth a b c h, ?_⟩
  intro v hv
  rw [scanGrid_append, List.nil_append, List.mem_flatMap] at hv
  obtain ⟨x, _, hv⟩ := hv
  rw [List.mem_flatMap] at hv
  obtain ⟨y, _, hv⟩ := hv
  obtain ⟨a, b, c, hs, hv⟩ := scanCell_entry_valid _ _ _ _ _ _ hv
  have hp := isSurface_pos dm.depth a b c hs
  rcases hv with rfl | rfl | rfl
  · exact hp.1
  · exact hp.2.1
  · exact hp.2.2

/-- C20 on the triangulated 4x4 grid: the ids 4, 1, 0 of its first triangle
pass the validator and have positive depth. -/
theorem isSurface_positive_depths_witness :
    IsSurface (flatGrid 4 4 1).depth 4 1 0 = true ∧
    (0 < depthAt (flatGrid 4 4 1).depth 4 ∧ 0 < depthAt (flatGrid 4 4 1).depth 1
      ∧ 0 < depthAt (flatGrid 4 4 1).depth 0) :=
  ⟨by decide!, (isSurface_positive_depths (flatGrid 4 4 1) 0).1 4 1 0 (by decide!)⟩

/-! ## What `Join` leaves in `indices` -/

/-- The builder run on an empty index list gives the list of the specification. -/
theorem makeSurface_eq_specSurface (dm : State) (m : Int) (h : dm.indices = []) :
    (MakeSurface dm m).indices
      = specSurface dm.stride dm.height dm.map dm.depth dm.rects m := by
  rw [makeSurface_indices, h, List.nil_append]
  unfold specSurface
  simp only [scanCell_eq_specWindow]
  rfl

/-- C17: after a `Join` on a rectangle inside the grid without an empty cell,
`lastMargin` is as before, the new quad is the last of `rects`, and `indices`
is what `MakeSurface(lastMargin)` produces from an empty list on the map and
the quads left by the merge: the passing triangles of the scanned windows in
scan order, then six entries per quad. -/
theorem join_rebuilds_indices (dm : State) (x1 y1 x2 y2 : Int)
    (hx1 : 0 ≤ x1) (hx12 : x1 ≤ x2) (hx2 : x2 < dm.stride)
    (hy1 : 0 ≤ y1) (hy12 : y1 ≤ y2) (hy2 : y2 < dm.height)
    (hcells : ∀ x y : Int, x1 ≤ x → x ≤ x2 → y1 ≤ y → y ≤ y2 →
      0 ≤ readAt dm.map (y * dm.stride + x)) :
    (Join dm x1 y1 x2 y2).2.lastMargin = dm.lastMargin ∧
    (Join dm x1 y1 x2 y2).2.rects
      = dm.rects ++ [⟨readAt dm.map (y1 * dm.stride + x1), readAt dm.map (y1 * dm.stride + x2),
          readAt dm.map (y2 * dm.stride + x1), readAt dm.map (y2 * dm.stride + x2)⟩] ∧
    (Join dm x1 y1 x2 y2).2.indices
      = (MakeSurface { (Join dm x1 y1 x2 y2).2 with indices := [] } dm.lastMargin).indices ∧
    (Join dm x1 y1 x2 y2).2.indices
      = specSurface (Join dm x1 y1 x2 y2).2.stride (Join dm x1 y1 x2 y2).2.height
          (Join dm x1 y1 x2 y2).2.map (Join dm x1 y1 x2 y2).2.depth
          (Join dm x1 y1 x2 y2).2.rects dm.lastMargin := by
  have _ := hy1
  rw [join_of_pre dm x1 y1 x2 y2 hx1 hx12 hx2 hy12 hy2 hcells]
  refine ⟨rfl, rfl, ?_, ?_⟩
  · simp only [makeSurface_indices, joinOverwrite, MakeSurface, List.nil_append]
  · rw [makeSurface_eq_specSurface _ _ (by simp only [joinOverwrite])]
    simp only [joinOverwrite, MakeSurface]

/-- Every cell of the triangulated 4x4 grid is non-empty. -/
theorem flatGrid_four_cells (x y : Int) (hx0 : 0 ≤ x) (hx1 : x ≤ 3) (hy0 : 0 ≤ y)
    (hy1 : y ≤ 3) :
    0 ≤ readAt (MakeSurface (flatGrid 4 4 1) 0).map
      (y * (MakeSurface (flatGrid 4 4 1) 0).stride + x) := by
  have hx : x = 0 ∨ x = 1 ∨ x = 2 ∨ x = 3 := by omega
  have hy : y = 0 ∨ y = 1 ∨ y = 2 ∨ y = 3 := by omega
  rcases hx with rfl | rfl | rfl | rfl <;> rcases hy with rfl | rfl | rfl | rfl <;> decide

/-- C17 on the triangulated 4x4 grid and `Join(0,0,3,3)`: the nine entries
left in `indices` are those of the specification. -/
theorem join_rebuilds_indices_witness :
    (Join (MakeSurface (flatGrid 4 4 1) 0) 0 0 3 3).2.indices = [12, 3, 0, 12, 3, 0, 3, 12, 15] ∧
    (Join (MakeSurface (flatGrid 4 4 1) 0) 0 0 3 3).2.indices
      = specSurface (Join (MakeSurface (flatGrid 4 4 1) 0) 0 0 3 3).2.stride
          (Join (MakeSurface (flatGrid 4 4 1) 0) 0 0 3 3).2.height
          (Join (MakeSurface (flatGrid 4 4 1) 0) 0 0 3 3).2.map
          (Join (MakeSurface (flatGrid 4 4 1) 0) 0 0 3 3).2.depth
          (Join (MakeSurface (flatGrid 4 4 1) 0) 0 0 3 3).2.rects
          (MakeSurface (flatGrid 4 4 1) 0).lastMargin :=
  ⟨by decide!,
    (join_rebuilds_indices (MakeSurface (flatGrid 4 4 1) 0) 0 0 3 3 (by decide) (by decide)
      (by decide) (by decide) (by decide) (by decide)
      (fun x y h1 h2 h3 h4 => flatGrid_four_cells x y h1 h2 h3 h4)).2.2.2⟩

/-! ## Reads and writes of the smoother -/

theorem foldl_invariant {α β : Type} (P : β → Prop) (f : β → α → β) (l : List α) (b : β)
    (hb : P b) (hstep : ∀ acc a, a ∈ l → P acc → P (f acc a)) : P (l.foldl f b) := by
  induction l generalizing b with
  | nil => exact hb
  | cons a l ih =>
    rw [List.foldl_cons]
    exact ih (f b a) (hstep b a (List.mem_cons_self a l) hb)
      (fun acc a1 h1 hacc => hstep acc a1 (List.mem_cons_of_mem a h1) hacc)

theorem writeAt_outside {α : Type} (v : List α) (i : Int) (val : α)
    (h : i < 0 ∨ (v.length : Int) ≤ i) : writeAt v i val = v := by
  unfold writeAt
  by_cases h0 : 0 ≤ i
  · rw [if_pos h0]
    exact List.set_eq_of_length_le (by omega)
  · rw [if_neg h0]

theorem dstAt_writeAt_ne (v : List ℚ) (i j : Int) (val : ℚ) (h : i ≠ j) :
    dstAt (writeAt v i val) j = dstAt v j := by
  unfold dstAt writeAt
  by_cases hi : 0 ≤ i
  · by_cases hj : 0 ≤ j
    · have hne : i.toNat ≠ j.toNat := by omega
      simp only [if_pos hi, if_pos hj, List.getD_eq_getElem?_getD]
      rw [List.getElem?_set_ne hne]
    · simp only [if_neg hj]
  · simp only [if_neg hi]

theorem dstAt_writeAt_cases (v : List ℚ) (i j : Int) (val : ℚ) :
    dstAt (writeAt v i val) j = dstAt v j ∨ (j = i ∧ dstAt (writeAt v i val) j = val) := by
  by_cases hij : i = j
  · subst hij
    by_cases hr : 0 ≤ i ∧ i < v.length
    · right
      refine ⟨rfl, ?_⟩
      unfold dstAt writeAt
      have h : i.toNat < v.length := by omega
      simp [if_pos hr.1, List.getD_eq_getElem?_getD, h]
    · left
      rw [writeAt_outside v i val (by omega)]
  · exact Or.inl (dstAt_writeAt_ne v i j val hij)

theorem vecAt_writeAt_ne (v : List Vec3) (i j : Int) (val : Vec3) (h : i ≠ j) :
    vecAt (writeAt v i val) j = vecAt v j := by
  unfold vecAt writeAt
  by_cases hi : 0 ≤ i
  · by_cases hj : 0 ≤ j
    · have hne : i.toNat ≠ j.toNat := by omega
      simp only [if_pos hi, if_pos hj, List.getD_eq_getElem?_getD]
      rw [List.getElem?_set_ne hne]
    · simp only [if_neg hj]
  · simp only [if_neg hi]

theorem vecAt_writeAt_self (v : List Vec3) (i : Int) (val : Vec3) (h0 : 0 ≤ i)
    (h1 : i < v.length) : vecAt (writeAt v i val) i = val := by
  unfold vecAt writeAt
  have h : i.toNat < v.length := by omega
  simp [if_pos h0, List.getD_eq_getElem?_getD, h]

theorem vecAt_writeAt_cases (v : List Vec3) (i j : Int) (val : Vec3) :
    vecAt (writeAt v i val) j = vecAt v j ∨ (j = i ∧ vecAt (writeAt v i val) j = val) := by
  by_cases hij : i = j
  · subst hij
    by_cases hr : 0 ≤ i ∧ i < v.length
    · exact Or.inr ⟨rfl, vecAt_writeAt_self v i val hr.1 hr.2⟩
    · left
      rw [writeAt_outside v i val (by omega)]
  · exact Or.inl (vecAt_writeAt_ne v i j val hij)

theorem dstAt_replicate (n : Nat) (i : Int) : dstAt (List.replicate n (-1)) i = -1 := by
  unfold dstAt
  by_cases h0 : 0 ≤ i
  · rw [if_pos h0, List.getD_eq_getElem?_getD, List.getElem?_replicate]
    split_ifs <;> rfl
  · rw [if_neg h0]

/-! ## One pass of the smoother -/

/-- Every entry of the distance map is the initial `-1` or the mean computed
for the inner non-empty cell with that flat index. -/
theorem distanceMap_entry (dm : State) (i : Int) :
    dstAt (distanceMap dm) i = -1 ∨
    ∃ x y : Int, (1 ≤ x ∧ x < dm.stride - 1) ∧ (1 ≤ y ∧ y < dm.height - 1) ∧
      i = y * dm.stride + x ∧ 0 ≤ readAt dm.map (y * dm.stride + x) ∧
      0 < (cellSum dm x y).2 ∧
      dstAt (distanceMap dm) i = (cellSum dm x y).1 / ((cellSum dm x y).2 : ℚ) := by
  unfold distanceMap
  let P : List ℚ → Prop := fun dst => dstAt dst i = -1 ∨
    ∃ x y : Int, (1 ≤ x ∧ x < dm.stride - 1) ∧ (1 ≤ y ∧ y < dm.height - 1) ∧
      i = y * dm.stride + x ∧ 0 ≤ readAt dm.map (y * dm.stride + x) ∧
      0 < (cellSum dm x y).2 ∧
      dstAt dst i = (cellSum dm x y).1 / ((cellSum dm x y).2 : ℚ)
  refine foldl_invariant P _ _ _ (Or.inl (dstAt_replicate _ i)) ?_
  intro dst1 x hx h1
  refine foldl_invariant P _ _ _ h1 ?_
  intro dst2 y hy h2
  rw [mem_loopRange] at hx hy
  simp only [P] at h2 ⊢
  unfold smoothCell
  by_cases he : readAt dm.map (y * dm.stride + x) < 0
  · rw [if_pos he]
    exact h2
  · rw [if_neg he]
    by_cases hc : (cellSum dm x y).2 > 0
    · rw [if_pos hc]
      rcases dstAt_writeAt_cases dst2 (y * dm.stride + x) i
        ((cellSum dm x y).1 / ((cellSum dm x y).2 : ℚ)) with h | ⟨hi, h⟩
      · rw [h]
        exact h2
      · exact Or.inr ⟨x, y, ⟨hx.1, by omega⟩, ⟨hy.1, by omega⟩, hi, by omega, hc, h⟩
    · rw [if_neg hc]
      exact h2

/-- Applying a distance map leaves an entry of the vector map alone or sets
its Z to the non-negative entry of the distance map. -/
theorem applyDistance_entry (dst : List ℚ) (n : Int) (vm : List Vec3) (j : Int) :
    vecAt (applyDistance dst n vm) j = vecAt vm j ∨
    (0 ≤ dstAt dst j ∧
      vecAt (applyDistance dst n vm) j = { vecAt vm j with z := dstAt dst j }) := by
  unfold applyDistance
  refine foldl_invariant (fun (cur : List Vec3) => vecAt cur j = vecAt vm j ∨
    (0 ≤ dstAt dst j ∧ vecAt cur j = { vecAt vm j with z := dstAt dst j })) _ _ _
    (Or.inl rfl) ?_
  intro cur i _ hcur
  by_cases hd : dstAt dst i ≥ 0
  · rw [if_pos hd]
    unfold setZ
    rcases vecAt_writeAt_cases cur i j { vecAt cur i with z := dstAt dst i } with h | ⟨hji, h⟩
    · rw [h]
      exact hcur
    · subst hji
      right
      refine ⟨hd, ?_⟩
      rw [h]
      rcases hcur with h1 | ⟨_, h1⟩ <;> rw [h1]
  · rw [if_neg hd]
    exact hcur

theorem length_applyDistance (dst : List ℚ) (n : Int) (vm : List Vec3) :
    (applyDistance dst n vm).length = vm.length := by
  unfold applyDistance
  refine foldl_invariant (fun (cur : List Vec3) => cur.length = vm.length) _ _ _ rfl ?_
  intro cur i _ hcur
  split_ifs
  · unfold setZ
    rw [length_writeAt, hcur]
  · exact hcur

/-- One pass leaves the Z of a flat index alone or replaces it by the mean of
the inner non-empty cell with that index; X and Y are never touched. -/
theorem smoothStep_entry (dm : State) (j : Int) :
    vecAt (smoothStep dm).vecmap j = vecAt dm.vecmap j ∨
    ∃ x y : Int, (1 ≤ x ∧ x < dm.stride - 1) ∧ (1 ≤ y ∧ y < dm.height - 1) ∧
      j = y * dm.stride + x ∧ 0 ≤ readAt dm.map (y * dm.stride + x) ∧
      0 < (cellSum dm x y).2 ∧
      vecAt (smoothStep dm).vecmap j
        = { vecAt dm.vecmap j with z := (cellSum dm x y).1 / ((cellSum dm x y).2 : ℚ) } := by
  unfold smoothStep
  simp only []
  rcases applyDistance_entry (distanceMap dm) (dm.stride * dm.height) dm.vecmap j
    with h | ⟨h0, h⟩
  · exact Or.inl h
  · rcases distanceMap_entry dm j with hd | ⟨x, y, hx, hy, hj, hne, hc, hd⟩
    · rw [hd] at h0
      norm_num at h0
    · exact Or.inr ⟨x, y, hx, hy, hj, hne, hc, by rw [h, hd]⟩

/-- The sum and the count gathered for a cell stay between `lo * count` and
`hi * count` when `lo` and `hi` bound the Z of the non-empty cells around it. -/
theorem cellSum_bounds (dm : State) (x y : Int) (lo hi : ℚ)
    (h : ∀ cx cy : Int, x - 1 ≤ cx → cx ≤ x + 1 → y - 1 ≤ cy → cy ≤ y + 1 →
      0 ≤ readAt dm.map (cy * dm.stride + cx) →
      lo ≤ (vecAt dm.vecmap (cy * dm.stride + cx)).z
        ∧ (vecAt dm.vecmap (cy * dm.stride + cx)).z ≤ hi) :
    0 ≤ (cellSum dm x y).2 ∧ lo * ((cellSum dm x y).2 : ℚ) ≤ (cellSum dm x y).1
      ∧ (cellSum dm x y).1 ≤ hi * ((cellSum dm x y).2 : ℚ) := by
  let P : ℚ × Int → Prop := fun acc =>
    0 ≤ acc.2 ∧ lo * (acc.2 : ℚ) ≤ acc.1 ∧ acc.1 ≤ hi * (acc.2 : ℚ)
  have h0 : P (0, 0) := by simp [P]
  unfold cellSum
  refine foldl_invariant P _ _ _ h0 ?_
  intro acc1 i hi1 hacc1
  refine foldl_invariant P _ _ _ hacc1 ?_
  intro acc2 j hj hacc2
  rw [mem_loopRange] at hi1 hj
  by_cases hw : windowValid dm.stride dm.map dm.depth i j = true
  · rw [if_pos hw]
    unfold accumWindow
    refine foldl_invariant P _ _ _ hacc2 ?_
    intro acc3 k hk hacc3
    refine foldl_invariant P _ _ _ hacc3 ?_
    intro acc4 l hl hacc4
    rw [mem_loopRange] at hk hl
    unfold accumCell
    by_cases hne : readAt dm.map (l * dm.stride + k) ≥ 0
    · rw [if_pos hne]
      have hb := h k l (by omega) (by omega) (by omega) (by omega) hne
      simp only [P] at hacc4 ⊢
      obtain ⟨c0, c1, c2⟩ := hacc4
      refine ⟨by omega, ?_, ?_⟩
      · push_cast
        linarith [hb.1]
      · push_cast
        linarith [hb.2]
    · rw [if_neg hne]
      exact hacc4
  · rw [if_neg hw]
    exact hacc2

/-- The mean stored for a cell lies between any two bounds of the Z of the
non-empty cells around it. -/
theorem cellMean_bounds (dm : State) (x y : Int) (lo hi : ℚ)
    (h : ∀ cx cy : Int, x - 1 ≤ cx → cx ≤ x + 1 → y - 1 ≤ cy → cy ≤ y + 1 →
      0 ≤ readAt dm.map (cy * dm.stride + cx) →
      lo ≤ (vecAt dm.vecmap (cy * dm.stride + cx)).z
        ∧ (vecAt dm.vecmap (cy * dm.stride + cx)).z ≤ hi)
    (hc : 0 < (cellSum dm x y).2) :
    lo ≤ (cellSum dm x y).1 / ((cellSum dm x y).2 : ℚ)
      ∧ (cellSum dm x y).1 / ((cellSum dm x y).2 : ℚ) ≤ hi := by
  have hb := cellSum_bounds dm x y lo hi h
  have hq : (0 : ℚ) < ((cellSum dm x y).2 : ℚ) := by exact_mod_cast hc
  exact ⟨(le_div_iff₀ hq).mpr hb.2.1, (div_le_iff₀ hq).mpr hb.2.2⟩

/-- Without a window whose two triangles pass, nothing is gathered for a cell. -/
theorem cellSum_of_invalid (dm : State) (x y : Int)
    (h : ∀ i j : Int, x ≤ i → i ≤ x + 1 → y ≤ j → j ≤ y + 1 →
      windowValid dm.stride dm.map dm.depth i j = false) :
    cellSum dm x y = (0, 0) := by
  unfold cellSum
  refine foldl_invariant (fun (acc : ℚ × Int) => acc = (0, 0)) _ _ _ rfl ?_
  intro acc1 i hi1 hacc1
  refine foldl_invariant (fun (acc : ℚ × Int) => acc = (0, 0)) _ _ _ hacc1 ?_
  intro acc2 j hj hacc2
  rw [mem_loopRange] at hi1 hj
  rw [h i j (by omega) (by omega) (by omega) (by omega)]
  exact hacc2

/-- The Z written for a cell of the grid whose Z changes is the mean gathered
for that very cell, an inner non-empty cell. -/
theorem smoothStep_changed (dm : State) (x y : Int) (hx0 : 0 ≤ x) (hx1 : x < dm.stride)
    (hne : (vecAt (smoothStep dm).vecmap (y * dm.stride + x)).z
      ≠ (vecAt dm.vecmap (y * dm.stride + x)).z) :
    (1 ≤ x ∧ x < dm.stride - 1) ∧ (1 ≤ y ∧ y < dm.height - 1) ∧
    0 ≤ readAt dm.map (y * dm.stride + x) ∧ 0 < (cellSum dm x y).2 ∧
    (vecAt (smoothStep dm).vecmap (y * dm.stride + x)).z
      = (cellSum dm x y).1 / ((cellSum dm x y).2 : ℚ) := by
  rcases smoothStep_entry dm (y * dm.stride + x) with h | ⟨x1, y1, hx, hy, hj, hn, hc, h⟩
  · rw [h] at hne
    exact absurd rfl hne
  · obtain ⟨rfl, rfl⟩ := flat_inj dm.stride x y x1 y1 hx0 hx1 (by omega) (by omega) hj
    exact ⟨hx, hy, hn, hc, by rw [h]⟩

/-- C19: for a cell `(x, y)` of the grid, if one pass of the smoother changes
its Z, the new Z lies between the Z of two non-empty cells of its 3x3
neighbourhood (so between their minimum and maximum); and the Z is kept when
the cell is empty, lies on the border of the grid, or has no window whose two
triangles pass the validator. -/
theorem smoothStep_local_range (dm : State) (x y : Int) (hx0 : 0 ≤ x) (hx1 : x < dm.stride)
    (hy0 : 0 ≤ y) (hy1 : y < dm.height) :
    ((vecAt (smoothStep dm).vecmap (y * dm.stride + x)).z
        ≠ (vecAt dm.vecmap (y * dm.stride + x)).z →
      ∃ px py qx qy : Int,
        (x - 1 ≤ px ∧ px ≤ x + 1 ∧ y - 1 ≤ py ∧ py ≤ y + 1
          ∧ 0 ≤ readAt dm.map (py * dm.stride + px)) ∧
        (x - 1 ≤ qx ∧ qx ≤ x + 1 ∧ y - 1 ≤ qy ∧ qy ≤ y + 1
          ∧ 0 ≤ readAt dm.map (qy * dm.stride + qx)) ∧
        (vecAt dm.vecmap (py * dm.stride + px)).z
          ≤ (vecAt (smoothStep dm).vecmap (y * dm.stride + x)).z ∧
        (vecAt (smoothStep dm).vecmap (y * dm.stride + x)).z
          ≤ (vecAt dm.vecmap (qy * dm.stride + qx)).z) ∧
    ((readAt dm.map (y * dm.stride + x) < 0 ∨ x = 0 ∨ x = dm.stride - 1 ∨ y = 0
        ∨ y = dm.height - 1
        ∨ (∀ i j : Int, x ≤ i → i ≤ x + 1 → y ≤ j → j ≤ y + 1 →
            windowValid dm.stride dm.map dm.depth i j = false)) →
      (vecAt (smoothStep dm).vecmap (y * dm.stride + x)).z
        = (vecAt dm.vecmap (y * dm.stride + x)).z) := by
  have _ := hy0
  have _ := hy1
  constructor
  · intro hne
    obtain ⟨hx, hy, hn, hc, hz⟩ := smoothStep_changed dm x y hx0 hx1 hne
    let N : Finset (Int × Int) :=
      ((Finset.Icc (x - 1) (x + 1)) ×ˢ (Finset.Icc (y - 1) (y + 1))).filter
        (fun c => 0 ≤ readAt dm.map (c.2 * dm.stride + c.1))
    have hmem : ∀ cx cy : Int, (cx, cy) ∈ N ↔
        (x - 1 ≤ cx ∧ cx ≤ x + 1 ∧ y - 1 ≤ cy ∧ cy ≤ y + 1
          ∧ 0 ≤ readAt dm.map (cy * dm.stride + cx)) := by
      intro cx cy
      simp only [N, Finset.mem_filter, Finset.mem_product, Finset.mem_Icc]
      tauto
    have hN : N.Nonempty := ⟨(x, y), (hmem x y).mpr ⟨by omega, by omega, by omega, by omega, hn⟩⟩
    obtain ⟨p, hp, hpmin⟩ := Finset.exists_min_image N
      (fun c => (vecAt dm.vecmap (c.2 * dm.stride + c.1)).z) hN
    obtain ⟨q, hq, hqmax⟩ := Finset.exists_max_image N
      (fun c => (vecAt dm.vecmap (c.2 * dm.stride + c.1)).z) hN
    have hb := cellMean_bounds dm x y (vecAt dm.vecmap (p.2 * dm.stride + p.1)).z
      (vecAt dm.vecmap (q.2 * dm.stride + q.1)).z
      (fun cx cy h1 h2 h3 h4 h5 =>
        ⟨hpmin (cx, cy) ((hmem cx cy).mpr ⟨h1, h2, h3, h4, h5⟩),
          hqmax (cx, cy) ((hmem cx cy).mpr ⟨h1, h2, h3, h4, h5⟩)⟩) hc
    refine ⟨p.1, p.2, q.1, q.2, (hmem p.1 p.2).mp hp, (hmem q.1 q.2).mp hq, ?_, ?_⟩
    · rw [hz]
      exact hb.1
    · rw [hz]
      exact hb.2
  · intro hkeep
    by_contra hne
    obtain ⟨hx, hy, hn, hc, _⟩ := smoothStep_changed dm x y hx0 hx1 hne
    rcases hkeep with h | h | h | h | h | h
    · omega
    · omega
    · omega
    · omega
    · omega
    · rw [cellSum_of_invalid dm x y h] at hc
      exact absurd hc (lt_irrefl 0)

/-- C19 on the noisy 3x3 grid: the Z of the centre cell changes from 1.005 to
1.00625, between the Z of two cells around it. -/
theorem smoothStep_local_range_witness :
    (vecAt (smoothStep noisyGrid).vecmap (1 * noisyGrid.stride + 1)).z
        ≠ (vecAt noisyGrid.vecmap (1 * noisyGrid.stride + 1)).z ∧
    ∃ px py qx qy : Int,
      (1 - 1 ≤ px ∧ px ≤ 1 + 1 ∧ 1 - 1 ≤ py ∧ py ≤ 1 + 1
        ∧ 0 ≤ readAt noisyGrid.map (py * noisyGrid.stride + px)) ∧
      (1 - 1 ≤ qx ∧ qx ≤ 1 + 1 ∧ 1 - 1 ≤ qy ∧ qy ≤ 1 + 1
        ∧ 0 ≤ readAt noisyGrid.map (qy * noisyGrid.stride + qx)) ∧
      (vecAt noisyGrid.vecmap (py * noisyGrid.stride + px)).z
        ≤ (vecAt (smoothStep noisyGrid).vecmap (1 * noisyGrid.stride + 1)).z ∧
      (vecAt (smoothStep noisyGrid).vecmap (1 * noisyGrid.stride + 1)).z
        ≤ (vecAt noisyGrid.vecmap (qy * noisyGrid.stride + qx)).z :=
  ⟨by decide!,
    (smoothStep_local_range noisyGrid 1 1 (by decide) (by decide!) (by decide) (by decide!)).1
      (by decide!)⟩

/-! ## Iterations -/

theorem loopRange_succ (lo hi : Int) (h : lo ≤ hi) :
    loopRange lo (hi + 1) = loopRange lo hi ++ [hi] := by
  unfold loopRange
  have e : (hi + 1 - lo).toNat = (hi - lo).toNat + 1 := by omega
  rw [e, List.range_succ, List.map_append]
  simp only [List.map_cons, List.map_nil]
  congr 2
  omega

theorem loopRange_empty (lo hi : Int) (h : hi ≤ lo) : loopRange lo hi = [] := by
  unfold loopRange
  have e : (hi - lo).toNat = 0 := by omega
  rw [e]
  rfl

theorem smoothIterations_succ (dm : State) (n : Int) (hn : 0 ≤ n) :
    smoothIterations dm (n + 1) = smoothStep (smoothIterations dm n) := by
  unfold smoothIterations
  rw [loopRange_succ 0 n hn, List.foldl_append]
  rfl

theorem smoothSurface_vecmap (dm : State) (n : Int) :
    (SmoothSurface dm n).vecmap = (smoothIterations dm n).vecmap := rfl

/-- The passes of the smoother touch nothing but the Z of the vector map. -/
theorem smoothIterations_frame (dm : State) (n : Int) :
    (smoothIterations dm n).stride = dm.stride ∧ (smoothIterations dm n).height = dm.height ∧
    (smoothIterations dm n).map = dm.map ∧ (smoothIterations dm n).vertices = dm.vertices ∧
    (smoothIterations dm n).depth = dm.depth ∧ (smoothIterations dm n).colors = dm.colors ∧
    (smoothIterations dm n).indices = dm.indices ∧ (smoothIterations dm n).rects = dm.rects ∧
    (smoothIterations dm n).lastMargin = dm.lastMargin ∧
    (smoothIterations dm n).matrix = dm.matrix ∧
    (smoothIterations dm n).vecmap.length = dm.vecmap.length ∧
    (∀ i : Int, (vecAt (smoothIterations dm n).vecmap i).x = (vecAt dm.vecmap i).x
      ∧ (vecAt (smoothIterations dm n).vecmap i).y = (vecAt dm.vecmap i).y) := by
  unfold smoothIterations
  refine foldl_invariant (fun (s : State) =>
    s.stride = dm.stride ∧ s.height = dm.height ∧ s.map = dm.map ∧ s.vertices = dm.vertices ∧
    s.depth = dm.depth ∧ s.colors = dm.colors ∧ s.indices = dm.indices ∧ s.rects = dm.rects ∧
    s.lastMargin = dm.lastMargin ∧ s.matrix = dm.matrix ∧
    s.vecmap.length = dm.vecmap.length ∧
    (∀ i : Int, (vecAt s.vecmap i).x = (vecAt dm.vecmap i).x
      ∧ (vecAt s.vecmap i).y = (vecAt dm.vecmap i).y)) _ _ _
    ⟨rfl, rfl, rfl, rfl, rfl, rfl, rfl, rfl, rfl, rfl, rfl, fun _ => ⟨rfl, rfl⟩⟩ ?_
  intro s _ _ hs
  obtain ⟨h1, h2, h3, h4, h5, h6, h7, h8, h9, h10, h11, h12⟩ := hs
  refine ⟨h1, h2, h3, h4, h5, h6, h7, h8, h9, h10, ?_, ?_⟩
  · unfold smoothStep
    simp only []
    rw [length_applyDistance, h11]
  · intro i
    rcases smoothStep_entry s i with h | ⟨_, _, _, _, _, _, _, h⟩
    · rw [h]
      exact h12 i
    · rw [h]
      exact h12 i

theorem length_applyGeometry (dm : State) :
    (applyGeometry dm).vertices.length = dm.vertices.length := by
  unfold applyGeometry
  simp only []
  refine foldl_invariant (fun (v : List Vec3) => v.length = dm.vertices.length) _ _ _ rfl ?_
  intro v1 x _ h1
  refine foldl_invariant (fun (v : List Vec3) => v.length = dm.vertices.length) _ _ _ h1 ?_
  intro v2 y _ h2
  unfold geometryCell
  split_ifs
  · rw [length_writeAt, h2]
  · exact h2

/-- C16: `SmoothSurface(n)` leaves `indices`, `map`, `rects`, `depth`, `colors`,
`lastMargin` (and the grid size and the matrix) as they were, keeps the number
of entries of `vecmap` and `vertices` and the X and Y of every entry of
`vecmap`; the validator answers as before on every triple. -/
theorem smoothSurface_frame (dm : State) (n : Int) :
    (SmoothSurface dm n).indices = dm.indices ∧ (SmoothSurface dm n).map = dm.map ∧
    (SmoothSurface dm n).rects = dm.rects ∧ (SmoothSurface dm n).depth = dm.depth ∧
    (SmoothSurface dm n).colors = dm.colors ∧
    (SmoothSurface dm n).lastMargin = dm.lastMargin ∧
    (SmoothSurface dm n).stride = dm.stride ∧ (SmoothSurface dm n).height = dm.height ∧
    (SmoothSurface dm n).matrix = dm.matrix ∧
    (SmoothSurface dm n).vecmap.length = dm.vecmap.length ∧
    (SmoothSurface dm n).vertices.length = dm.vertices.length ∧
    (∀ i : Int, (vecAt (SmoothSurface dm n).vecmap i).x = (vecAt dm.vecmap i).x
      ∧ (vecAt (SmoothSurface dm n).vecmap i).y = (vecAt dm.vecmap i).y) ∧
    (∀ a b c : Int,
      IsSurface (SmoothSurface dm n).depth a b c = IsSurface dm.depth a b c) := by
  obtain ⟨h1, h2, h3, h4, h5, h6, h7, h8, h9, h10, h11, h12⟩ := smoothIterations_frame dm n
  have hd : (SmoothSurface dm n).depth = dm.depth := h5
  have hv : (SmoothSurface dm n).vertices.length = dm.vertices.length := by
    unfold SmoothSurface
    rw [length_applyGeometry, h4]
  exact ⟨h7, h3, h8, h5, h6, h9, h1, h2, h10, h11, hv, h12, fun a b c => by rw [hd]⟩

/-! ## Flat input and the range of Z -/

/-- One pass keeps the Z of the cells of the grid between any two bounds that
held for all of them before. -/
theorem smoothStep_range (dm : State) (lo hi : ℚ)
    (h : ∀ cx cy : Int, 0 ≤ cx → cx < dm.stride → 0 ≤ cy → cy < dm.height →
      lo ≤ (vecAt dm.vecmap (cy * dm.stride + cx)).z
        ∧ (vecAt dm.vecmap (cy * dm.stride + cx)).z ≤ hi)
    (x y : Int) (hx0 : 0 ≤ x) (hx1 : x < dm.stride) (hy0 : 0 ≤ y) (hy1 : y < dm.height) :
    lo ≤ (vecAt (smoothStep dm).vecmap (y * dm.stride + x)).z
      ∧ (vecAt (smoothStep dm).vecmap (y * dm.stride + x)).z ≤ hi := by
  by_cases hne : (vecAt (smoothStep dm).vecmap (y * dm.stride + x)).z
      = (vecAt dm.vecmap (y * dm.stride + x)).z
  · rw [hne]
    exact h x y hx0 hx1 hy0 hy1
  · obtain ⟨hx, hy, _, hc, hz⟩ := smoothStep_changed dm x y hx0 hx1 hne
    rw [hz]
    exact cellMean_bounds dm x y lo hi
      (fun cx cy h1 h2 h3 h4 _ => h cx cy (by omega) (by omega) (by omega) (by omega)) hc

/-- One pass leaves the Z of an inner cell alone when the non-empty cells around
it all have the Z `z`. -/
theorem smoothStep_flat_cell (dm : State) (x y : Int) (z : ℚ)
    (hx : 1 ≤ x ∧ x < dm.stride - 1)
    (hflat : ∀ cx cy : Int, x - 1 ≤ cx → cx ≤ x + 1 → y - 1 ≤ cy → cy ≤ y + 1 →
      0 ≤ readAt dm.map (cy * dm.stride + cx) →
      (vecAt dm.vecmap (cy * dm.stride + cx)).z = z) :
    (vecAt (smoothStep dm).vecmap (y * dm.stride + x)).z
      = (vecAt dm.vecmap (y * dm.stride + x)).z := by
  by_contra hne
  obtain ⟨_, _, hn, hc, hz⟩ := smoothStep_changed dm x y (by omega) (by omega) hne
  have hb := cellMean_bounds dm x y z z
    (fun cx cy h1 h2 h3 h4 h5 => by
      rw [hflat cx cy h1 h2 h3 h4 h5]
      exact ⟨le_refl z, le_refl z⟩) hc
  have hold := hflat x y (by omega) (by omega) (by omega) (by omega) hn
  apply hne
  rw [hz, hold]
  exact le_antisymm hb.2 hb.1

/-- On a grid whose non-empty cells all have the Z `z`, one pass changes no
entry of the vector map. -/
theorem smoothStep_flat_grid (dm : State) (z : ℚ)
    (hflat : ∀ cx cy : Int, 0 ≤ cx → cx < dm.stride → 0 ≤ cy → cy < dm.height →
      0 ≤ readAt dm.map (cy * dm.stride + cx) →
      (vecAt dm.vecmap (cy * dm.stride + cx)).z = z) (i : Int) :
    vecAt (smoothStep dm).vecmap i = vecAt dm.vecmap i := by
  rcases smoothStep_entry dm i with h | ⟨x, y, hx, hy, hi, hn, hc, h⟩
  · exact h
  · have hb := cellMean_bounds dm x y z z
      (fun cx cy h1 h2 h3 h4 h5 => by
        rw [hflat cx cy (by omega) (by omega) (by omega) (by omega) h5]
        exact ⟨le_refl z, le_refl z⟩) hc
    have hold := hflat x y (by omega) (by omega) (by omega) (by omega) hn
    rw [h, le_antisymm hb.2 hb.1, ← hold, hi]

/-- C11: one pass of the smoother leaves the Z of an inner cell `(x, y)`
unchanged when all non-empty cells of its 3x3 neighbourhood have the same Z;
and when all non-empty cells of the grid have the same Z, `SmoothSurface(n)`
leaves every entry of the vector map unchanged, for every `n`. -/
theorem smooth_flat_identity (dm : State) (z : ℚ) :
    (∀ x y : Int, 1 ≤ x → x < dm.stride - 1 → 1 ≤ y → y < dm.height - 1 →
      (∀ cx cy : Int, x - 1 ≤ cx → cx ≤ x + 1 → y - 1 ≤ cy → cy ≤ y + 1 →
        0 ≤ readAt dm.map (cy * dm.stride + cx) →
        (vecAt dm.vecmap (cy * dm.stride + cx)).z = z) →
      (vecAt (smoothStep dm).vecmap (y * dm.stride + x)).z
        = (vecAt dm.vecmap (y * dm.stride + x)).z) ∧
    ((∀ cx cy : Int, 0 ≤ cx → cx < dm.stride → 0 ≤ cy → cy < dm.height →
        0 ≤ readAt dm.map (cy * dm.stride + cx) →
        (vecAt dm.vecmap (cy * dm.stride + cx)).z = z) →
      ∀ (n i : Int), vecAt (SmoothSurface dm n).vecmap i = vecAt dm.vecmap i) := by
  constructor
  · intro x y hx0 hx1 _ _ hflat
    exact smoothStep_flat_cell dm x y z ⟨hx0, hx1⟩ hflat
  · intro hflat n i
    rw [smoothSurface_vecmap]
    unfold smoothIterations
    have key : ((loopRange 0 n).foldl (fun s _ => smoothStep s) dm).stride = dm.stride
        ∧ ((loopRange 0 n).foldl (fun s _ => smoothStep s) dm).height = dm.height
        ∧ ((loopRange 0 n).foldl (fun s _ => smoothStep s) dm).map = dm.map
        ∧ ∀ j : Int, vecAt ((loopRange 0 n).foldl (fun s _ => smoothStep s) dm).vecmap j
            = vecAt dm.vecmap j := by
      refine foldl_invariant (fun (s : State) => s.stride = dm.stride ∧ s.height = dm.height
        ∧ s.map = dm.map ∧ ∀ j : Int, vecAt s.vecmap j = vecAt dm.vecmap j) _ _ _
        ⟨rfl, rfl, rfl, fun _ => rfl⟩ ?_
      intro s _ _ hs
      obtain ⟨h1, h2, h3, h4⟩ := hs
      refine ⟨h1, h2, h3, fun j => ?_⟩
      rw [← h4 j]
      apply smoothStep_flat_grid s z
      intro cx cy c1 c2 c3 c4 c5
      rw [h1, h4]
      rw [h1, h3] at c5
      exact hflat cx cy c1 (by omega) c3 (by omega) c5
    exact key.2.2.2 i

/-- C11 on the flat 4x4 grid. -/
theorem smooth_flat_identity_witness :
    vecAt (SmoothSurface (flatGrid 4 4 1) 3).vecmap 5 = vecAt (flatGrid 4 4 1).vecmap 5 :=
  (smooth_flat_identity (flatGrid 4 4 1) 1).2
    (by
      intro cx cy h1 h2 h3 h4 _
      have hx : cx = 0 ∨ cx = 1 ∨ cx = 2 ∨ cx = 3 := by
        have : (flatGrid 4 4 1).stride = 4 := rfl
        omega
      have hy : cy = 0 ∨ cy = 1 ∨ cy = 2 ∨ cy = 3 := by
        have : (flatGrid 4 4 1).height = 4 := rfl
        omega
      rcases hx with rfl | rfl | rfl | rfl <;> rcases hy with rfl | rfl | rfl | rfl <;> decide!)
    3 5

/-- C12, as stated, fails: on the noisy 3x3 grid, fully populated and with all
four windows passing the validator, the variance of Z is 1/45000 before the
first pass of the smoother and 29/1296000 after it. -/
theorem smoothing_variance_grows :
    (∀ v ∈ noisyGrid.map, 0 ≤ v) ∧
    (∀ i ∈ [(1 : Int), 2], ∀ j ∈ [(1 : Int), 2],
      windowValid noisyGrid.stride noisyGrid.map noisyGrid.depth i j = true) ∧
    variance ((SmoothSurface noisyGrid 0).vecmap.map (fun v => v.z)) = 1 / 45000 ∧
    variance ((SmoothSurface noisyGrid (0 + 1)).vecmap.map (fun v => v.z)) = 29 / 1296000 ∧
    ¬ (variance ((SmoothSurface noisyGrid (0 + 1)).vecmap.map (fun v => v.z))
        ≤ variance ((SmoothSurface noisyGrid 0).vecmap.map (fun v => v.z))) := by
  decide!

/-- C12 (amended): smoothing never widens the range of Z.  Bounds `lo` and `hi`
that hold for the Z of all cells of the grid after `n` passes hold after
`n + 1` passes (so the maximum does not grow and the minimum does not fall). -/
theorem smoothing_keeps_range (dm : State) (n : Int) (hn : 0 ≤ n) (lo hi : ℚ)
    (h : ∀ cx cy : Int, 0 ≤ cx → cx < dm.stride → 0 ≤ cy → cy < dm.height →
      lo ≤ (vecAt (SmoothSurface dm n).vecmap (cy * dm.stride + cx)).z
        ∧ (vecAt (SmoothSurface dm n).vecmap (cy * dm.stride + cx)).z ≤ hi) :
    ∀ cx cy : Int, 0 ≤ cx → cx < dm.stride → 0 ≤ cy → cy < dm.height →
      lo ≤ (vecAt (SmoothSurface dm (n + 1)).vecmap (cy * dm.stride + cx)).z
        ∧ (vecAt (SmoothSurface dm (n + 1)).vecmap (cy * dm.stride + cx)).z ≤ hi := by
  intro cx cy c1 c2 c3 c4
  obtain ⟨f1, f2, _⟩ := smoothIterations_frame dm n
  rw [smoothSurface_vecmap, smoothIterations_succ dm n hn]
  have hs := smoothStep_range (smoothIterations dm n) lo hi
    (fun ax ay a1 a2 a3 a4 => by
      rw [f1]
      rw [f1] at a2
      rw [f2] at a4
      exact h ax ay a1 a2 a3 a4)
    cx cy c1 (by rw [f1]; exact c2) c3 (by rw [f2]; exact c4)
  rw [f1] at hs
  exact hs

/-- The amended C12 on the noisy 3x3 grid: after the first pass the Z of the
centre cell is still between 1 and 1.01. -/
theorem smoothing_keeps_range_witness :
    1 ≤ (vecAt (SmoothSurface noisyGrid (0 + 1)).vecmap (1 * noisyGrid.stride + 1)).z
      ∧ (vecAt (SmoothSurface noisyGrid (0 + 1)).vecmap (1 * noisyGrid.stride + 1)).z
        ≤ 101 / 100 :=
  smoothing_keeps_range noisyGrid 0 (le_refl 0) 1 (101 / 100)
    (by
      intro cx cy h1 h2 h3 h4
      have hx : cx = 0 ∨ cx = 1 ∨ cx = 2 := by
        have : noisyGrid.stride = 3 := by decide!
        omega
      have hy : cy = 0 ∨ cy = 1 ∨ cy = 2 := by
        have : noisyGrid.height = 3 := by decide!
        omega
      rcases hx with rfl | rfl | rfl <;> rcases hy with rfl | rfl | rfl <;> decide!)
    1 1 (by decide) (by decide!) (by decide) (by decide!)

/-! ## The geometry pass -/

theorem loopRange_append (lo k hi : Int) (h1 : lo ≤ k) (h2 : k ≤ hi) :
    loopRange lo hi = loopRange lo k ++ loopRange k hi := by
  unfold loopRange
  have e : (hi - lo).toNat = (k - lo).toNat + (hi - k).toNat := by omega
  rw [e, List.range_add, List.map_append, List.map_map]
  congr 1
  apply List.map_congr_left
  intro a _
  simp only [Function.comp_apply]
  push_cast
  omega

theorem loopRange_cons (lo hi : Int) (h : lo < hi) :
    loopRange lo hi = lo :: loopRange (lo + 1) hi := by
  rw [loopRange_append lo (lo + 1) hi (by omega) (by omega)]
  have e : loopRange lo (lo + 1) = [lo] := by
    rw [loopRange_succ lo lo (le_refl lo), loopRange_empty lo lo (le_refl lo)]
    rfl
  rw [e]
  rfl

/-- The geometry pass over the rows `ys` of a column leaves alone a vertex
that no cell of these rows refers to. -/
theorem geometryColumn_frame (dm : State) (x : Int) (ys : List Int) (v : List Vec3) (id : Int)
    (h : ∀ y ∈ ys, readAt dm.map (y * dm.stride + x) ≠ id) :
    vecAt (ys.foldl (fun v2 y => geometryCell dm x y v2) v) id = vecAt v id ∧
    (ys.foldl (fun v2 y => geometryCell dm x y v2) v).length = v.length := by
  refine foldl_invariant (fun (w : List Vec3) => vecAt w id = vecAt v id ∧ w.length = v.length)
    _ _ _ ⟨rfl, rfl⟩ ?_
  intro w y hy hw
  unfold geometryCell
  split_ifs
  · rw [vecAt_writeAt_ne _ _ _ _ (h y hy), length_writeAt]
    exact hw
  · exact hw

theorem geometryColumn_length (dm : State) (x : Int) (ys : List Int) (v : List Vec3) :
    (ys.foldl (fun v2 y => geometryCell dm x y v2) v).length = v.length := by
  refine foldl_invariant (fun (w : List Vec3) => w.length = v.length) _ _ _ rfl ?_
  intro w y _ hw
  unfold geometryCell
  split_ifs
  · rw [length_writeAt]
    exact hw
  · exact hw

/-- The geometry pass over the columns `xs` leaves alone a vertex that no cell
of these columns refers to. -/
theorem geometryGrid_frame (dm : State) (xs ys : List Int) (v : List Vec3) (id : Int)
    (h : ∀ x ∈ xs, ∀ y ∈ ys, readAt dm.map (y * dm.stride + x) ≠ id) :
    vecAt (xs.foldl (fun v1 x => ys.foldl (fun v2 y => geometryCell dm x y v2) v1) v) id
      = vecAt v id ∧
    (xs.foldl (fun v1 x => ys.foldl (fun v2 y => geometryCell dm x y v2) v1) v).length
      = v.length := by
  refine foldl_invariant (fun (w : List Vec3) => vecAt w id = vecAt v id ∧ w.length = v.length)
    _ _ _ ⟨rfl, rfl⟩ ?_
  intro w x hx hw
  have hc := geometryColumn_frame dm x ys w id (h x hx)
  exact ⟨by rw [hc.1, hw.1], by rw [hc.2, hw.2]⟩

theorem geometryGrid_length (dm : State) (xs ys : List Int) (v : List Vec3) :
    (xs.foldl (fun v1 x => ys.foldl (fun v2 y => geometryCell dm x y v2) v1) v).length
      = v.length := by
  refine foldl_invariant (fun (w : List Vec3) => w.length = v.length) _ _ _ rfl ?_
  intro w x _ hw
  rw [geometryColumn_length, hw]

theorem geometryCell_self (dm : State) (x y : Int) (v : List Vec3)
    (hid : 0 ≤ readAt dm.map (y * dm.stride + x))
    (hlen : readAt dm.map (y * dm.stride + x) < v.length) :
    vecAt (geometryCell dm x y v) (readAt dm.map (y * dm.stride + x))
      = transform dm.matrix (vecAt dm.vecmap (y * dm.stride + x)) := by
  unfold geometryCell
  rw [if_pos hid]
  exact vecAt_writeAt_self _ _ _ hid hlen

/-- The geometry pass over one column: the vertex of a non-empty cell is the
transform of its vector-map point when no cell below it holds the same id. -/
theorem geometryColumn_last (dm : State) (x y : Int) (v : List Vec3)
    (hy0 : 0 ≤ y) (hy1 : y < dm.height)
    (hid : 0 ≤ readAt dm.map (y * dm.stride + x))
    (hlen : readAt dm.map (y * dm.stride + x) < v.length)
    (hlast : ∀ cy : Int, y < cy → cy < dm.height →
      readAt dm.map (cy * dm.stride + x) ≠ readAt dm.map (y * dm.stride + x)) :
    vecAt ((loopRange 0 dm.height).foldl (fun v2 y1 => geometryCell dm x y1 v2) v)
        (readAt dm.map (y * dm.stride + x))
      = transform dm.matrix (vecAt dm.vecmap (y * dm.stride + x)) := by
  rw [loopRange_append 0 y dm.height hy0 (by omega), loopRange_cons y dm.height hy1,
    List.foldl_append, List.foldl_cons]
  have hcol := geometryColumn_frame dm x (loopRange (y + 1) dm.height)
    (geometryCell dm x y ((loopRange 0 y).foldl (fun v2 y1 => geometryCell dm x y1 v2) v))
    (readAt dm.map (y * dm.stride + x))
    (fun cy hcy => by
      rw [mem_loopRange] at hcy
      exact hlast cy (by omega) (by omega))
  rw [hcol.1]
  apply geometryCell_self dm x y _ hid
  rw [geometryColumn_length]
  exact hlen

/-- After the geometry pass the vertex of a non-empty cell is the transform of
the vector-map point of that cell, when no later cell of the pass (a larger
column, or the same column and a larger row) holds the same id. -/
theorem applyGeometry_last (dm : State) (x y : Int) (hx0 : 0 ≤ x) (hx1 : x < dm.stride)
    (hy0 : 0 ≤ y) (hy1 : y < dm.height)
    (hid : 0 ≤ readAt dm.map (y * dm.stride + x))
    (hlen : readAt dm.map (y * dm.stride + x) < dm.vertices.length)
    (hlast : ∀ cx cy : Int, 0 ≤ cx → cx < dm.stride → 0 ≤ cy → cy < dm.height →
      (x < cx ∨ (cx = x ∧ y < cy)) →
      readAt dm.map (cy * dm.stride + cx) ≠ readAt dm.map (y * dm.stride + x)) :
    vecAt (applyGeometry dm).vertices (readAt dm.map (y * dm.stride + x))
      = transform dm.matrix (vecAt dm.vecmap (y * dm.stride + x)) := by
  unfold applyGeometry
  simp only []
  rw [loopRange_append 0 x dm.stride hx0 (by omega), loopRange_cons x dm.stride hx1,
    List.foldl_append, List.foldl_cons]
  have hrest := geometryGrid_frame dm (loopRange (x + 1) dm.stride) (loopRange 0 dm.height)
    ((loopRange 0 dm.height).foldl (fun v2 y1 => geometryCell dm x y1 v2)
      ((loopRange 0 x).foldl (fun v1 x1 =>
        (loopRange 0 dm.height).foldl (fun v2 y1 => geometryCell dm x1 y1 v2) v1) dm.vertices))
    (readAt dm.map (y * dm.stride + x))
    (fun cx hcx cy hcy => by
      rw [mem_loopRange] at hcx hcy
      exact hlast cx cy (by omega) (by omega) (by omega) (by omega) (Or.inl (by omega)))
  rw [hrest.1]
  apply geometryColumn_last dm x y _ hy0 hy1 hid
  · rw [geometryGrid_length]
    exact hlen
  · intro cy h1 h2
    exact hlast x cy hx0 hx1 (by omega) h2 (Or.inr ⟨rfl, h1⟩)

/-- C14, as stated, fails: in the merged 3x3 grid the cell (1,0) holds the id 6
of the corner cell (2,0); after `SmoothSurface(0)` the vertex 6 is the
transform of the point of cell (2,0), not of the point of cell (1,0). -/
theorem smoothSurface_shared_vertex :
    mergedGrid.map = [0, 6, 6, 2, -1, 8, 2, 8, 8] ∧
    readAt (SmoothSurface mergedGrid 0).map (0 * mergedGrid.stride + 1) = 6 ∧
    vecAt (SmoothSurface mergedGrid 0).vecmap (0 * mergedGrid.stride + 1) = ⟨1, 0, 1⟩ ∧
    transform (SmoothSurface mergedGrid 0).matrix
      (vecAt (SmoothSurface mergedGrid 0).vecmap (0 * mergedGrid.stride + 1)) = ⟨1, 0, 1⟩ ∧
    vecAt (SmoothSurface mergedGrid 0).vertices 6 = ⟨2, 0, 1⟩ ∧
    vecAt (SmoothSurface mergedGrid 0).vertices
        (readAt (SmoothSurface mergedGrid 0).map (0 * mergedGrid.stride + 1))
      ≠ transform (SmoothSurface mergedGrid 0).matrix
          (vecAt (SmoothSurface mergedGrid 0).vecmap (0 * mergedGrid.stride + 1)) := by
  decide!

/-- C14 (amended): after `SmoothSurface(n)`, the vertex referenced by a
non-empty cell of the grid is the transform of the (smoothed) vector-map point
of that cell, provided its id is a valid vertex index held by no later cell of
the geometry pass (a larger column, or the same column and a larger row); a
shared id ends with the transform of its last cell. -/
theorem smoothSurface_vertex_last (dm : State) (n : Int) (x y : Int)
    (hx0 : 0 ≤ x) (hx1 : x < dm.stride) (hy0 : 0 ≤ y) (hy1 : y < dm.height)
    (hid : 0 ≤ readAt dm.map (y * dm.stride + x))
    (hlen : readAt dm.map (y * dm.stride + x) < dm.vertices.length)
    (hlast : ∀ cx cy : Int, 0 ≤ cx → cx < dm.stride → 0 ≤ cy → cy < dm.height →
      (x < cx ∨ (cx = x ∧ y < cy)) →
      readAt dm.map (cy * dm.stride + cx) ≠ readAt dm.map (y * dm.stride + x)) :
    vecAt (SmoothSurface dm n).vertices
        (readAt (SmoothSurface dm n).map (y * (SmoothSurface dm n).stride + x))
      = transform (SmoothSurface dm n).matrix
          (vecAt (SmoothSurface dm n).vecmap (y * (SmoothSurface dm n).stride + x)) := by
  obtain ⟨f1, f2, f3, f4, _, _, _, _, _, f10, _, _⟩ := smoothIterations_frame dm n
  have e1 : (SmoothSurface dm n).map = (smoothIterations dm n).map := rfl
  have e2 : (SmoothSurface dm n).stride = (smoothIterations dm n).stride := rfl
  have e3 : (SmoothSurface dm n).matrix = (smoothIterations dm n).matrix := rfl
  rw [e1, e2, e3, smoothSurface_vecmap]
  unfold SmoothSurface
  apply applyGeometry_last (smoothIterations dm n) x y hx0 (by rw [f1]; exact hx1) hy0
    (by rw [f2]; exact hy1)
  · rw [f1, f3]
    exact hid
  · rw [f1, f3, f4]
    exact hlen
  · intro cx cy c1 c2 c3 c4 c5
    rw [f1, f3]
    rw [f1] at c2
    rw [f2] at c4
    exact hlast cx cy c1 c2 c3 c4 c5

/-- The amended C14 on the merged 3x3 grid: the corner cell (2,0) is the last
cell that holds the id 6. -/
theorem smoothSurface_vertex_last_witness :
    vecAt (SmoothSurface mergedGrid 1).vertices
        (readAt (SmoothSurface mergedGrid 1).map (0 * (SmoothSurface mergedGrid 1).stride + 2))
      = transform (SmoothSurface mergedGrid 1).matrix
          (vecAt (SmoothSurface mergedGrid 1).vecmap
            (0 * (SmoothSurface mergedGrid 1).stride + 2)) :=
  smoothSurface_vertex_last mergedGrid 1 2 0 (by decide) (by decide!) (by decide) (by decide!)
    (by decide!) (by decide!)
    (by
      intro cx cy h1 h2 h3 h4 h5
      have hx : cx = 0 ∨ cx = 1 ∨ cx = 2 := by
        have : mergedGrid.stride = 3 := by decide!
        omega
      have hy : cy = 0 ∨ cy = 1 ∨ cy = 2 := by
        have : mergedGrid.height = 3 := by decide!
        omega
      rcases hx with rfl | rfl | rfl <;> rcases hy with rfl | rfl | rfl <;>
        first
          | (exfalso; omega)
          | decide!)

/-! ## The state invariant -/

theorem readAt_nonneg_mem (v : List Int) (i : Int) (h : 0 ≤ readAt v i) : readAt v i ∈ v := by
  by_cases hr : 0 ≤ i ∧ i < v.length
  · exact readAt_mem v i hr.1 hr.2
  · exfalso
    unfold readAt at h
    by_cases h0 : 0 ≤ i
    · rw [if_pos h0, List.getD_eq_default _ _ (by omega)] at h
      omega
    · rw [if_neg h0] at h
      omega

theorem mem_writeAt {α : Type} (v : List α) (i : Int) (val a : α) (h : a ∈ writeAt v i val) :
    a ∈ v ∨ a = val := by
  unfold writeAt at h
  by_cases h0 : 0 ≤ i
  · rw [if_pos h0] at h
    exact List.mem_or_eq_of_mem_set h
  · rw [if_neg h0] at h
    exact Or.inl h

theorem isSurface_nonneg (depth : List ℚ) (a b c : Int) (h : IsSurface depth a b c = true) :
    0 ≤ a ∧ 0 ≤ b ∧ 0 ≤ c := by
  unfold IsSurface at h
  by_cases hg : 0 ≤ a ∧ 0 ≤ b ∧ 0 ≤ c ∧ a ≠ b ∧ b ≠ c ∧ c ≠ a
  · exact ⟨hg.1, hg.2.1, hg.2.2.1⟩
  · rw [if_neg hg] at h
    cases h

theorem dvd_length_flatMap {α β : Type} (l : List α) (f : α → List β) (k : Nat)
    (h : ∀ a ∈ l, k ∣ (f a).length) : k ∣ (l.flatMap f).length := by
  induction l with
  | nil => simp
  | cons a l ih =>
    simp only [List.flatMap_cons, List.length_append]
    exact Nat.dvd_add (h a (List.mem_cons_self a l))
      (ih (fun b hb => h b (List.mem_cons_of_mem a hb)))

theorem dvd_length_scanCell (stride : Int) (map : List Int) (depth : List ℚ) (x y : Int) :
    3 ∣ (scanCell stride map depth x y []).length := by
  unfold scanCell
  simp only []
  split_ifs
  · exact ⟨2, by simp⟩
  · exact ⟨1, by simp⟩
  · exact ⟨1, by simp⟩
  · exact ⟨0, by simp⟩

/-- A non-negative entry pushed by the scan is an entry of `map`. -/
theorem scanCell_entry_mem (stride : Int) (map : List Int) (depth : List ℚ) (x y v : Int)
    (h : v ∈ scanCell stride map depth x y []) : 0 ≤ v ∧ v ∈ map := by
  obtain ⟨a, b, c, hs, hv⟩ := scanCell_entry_valid stride map depth x y v h
  have hn := isSurface_nonneg depth a b c hs
  have h0 : 0 ≤ v := by
    rcases hv with rfl | rfl | rfl
    · exact hn.1
    · exact hn.2.1
    · exact hn.2.2
  obtain ⟨cx, cy, _, _, hr⟩ := mem_scanCell stride map depth x y v h
  refine ⟨h0, ?_⟩
  rw [hr]
  apply readAt_nonneg_mem
  rw [← hr]
  exact h0

/-- `MakeSurface` keeps the invariant. -/
theorem makeSurface_invariant (dm : State) (m : Int) (h : Invariant dm) :
    Invariant (MakeSurface dm m) := by
  refine ⟨h.depth_length, h.colors_length, h.map_valid, h.rects_valid, ?_, ?_⟩
  · rw [makeSurface_indices]
    simp only [List.length_append]
    refine Nat.dvd_add (Nat.dvd_add h.indices_triples ?_) ?_
    · exact dvd_length_flatMap _ _ 3 (fun x _ =>
        dvd_length_flatMap _ _ 3 (fun y _ => dvd_length_scanCell _ _ _ _ _))
    · exact dvd_length_flatMap _ _ 3 (fun r _ => ⟨2, rfl⟩)
  · intro v hv
    rw [makeSurface_indices] at hv
    rcases List.mem_append.mp hv with hv | hv
    · rcases List.mem_append.mp hv with hv | hv
      · exact h.indices_valid v hv
      · rw [List.mem_flatMap] at hv
        obtain ⟨x, _, hv⟩ := hv
        rw [List.mem_flatMap] at hv
        obtain ⟨y, _, hv⟩ := hv
        have hm := scanCell_entry_mem _ _ _ _ _ _ hv
        exact ⟨hm.1, h.map_valid v hm.2 hm.1⟩
    · rw [List.mem_flatMap] at hv
      obtain ⟨r, hr, hv⟩ := hv
      have hr1 := h.rects_valid r hr
      unfold rectEntries at hv
      simp only [List.mem_cons, List.mem_singleton, List.not_mem_nil, or_false] at hv
      rcases hv with rfl | rfl | rfl | rfl | rfl | rfl
      · exact hr1.2.2.1
      · exact hr1.2.1
      · exact hr1.1
      · exact hr1.2.1
      · exact hr1.2.2.1
      · exact hr1.2.2.2

/-- The constructor establishes the invariant. -/
theorem construct_invariant (W H mapScale : Int) (cam : Camera) (matrix : List ℚ)
    (pts : List Vec3) : Invariant (construct W H mapScale cam matrix pts) := by
  unfold construct
  have key : (fun (s : State) => Invariant s ∧ s.rects = [] ∧ s.indices = [])
      (pts.foldl (addPoint W H mapScale cam) (emptyGrid W H mapScale matrix)) := by
    refine foldl_invariant (fun (s : State) => Invariant s ∧ s.rects = [] ∧ s.indices = [])
      _ _ _ ?_ ?_
    · refine ⟨⟨rfl, rfl, ?_, ?_, ⟨0, rfl⟩, ?_⟩, rfl, rfl⟩
      · intro v hv h0
        simp only [emptyGrid] at hv
        rw [List.eq_of_mem_replicate hv] at h0
        omega
      · intro r hr
        simp [emptyGrid] at hr
      · intro v hv
        simp [emptyGrid] at hv
    · intro s p _ hs
      obtain ⟨hi, hr, hx⟩ := hs
      unfold addPoint
      simp only []
      split_ifs
      · refine ⟨⟨?_, ?_, ?_, ?_, ?_, ?_⟩, hr, hx⟩
        · simp only [List.length_append, List.length_singleton, hi.depth_length]
        · simp only [List.length_append, List.length_singleton, hi.colors_length]
        · intro v hv h0
          simp only [List.length_append, List.length_singleton]
          rcases mem_writeAt _ _ _ _ hv with hv | hv
          · have := hi.map_valid v hv h0
            push_cast
            omega
          · rw [hv]
            push_cast
            omega
        · intro r hr1
          simp only [hr] at hr1
          exact absurd hr1 (List.not_mem_nil r)
        · simp only [hx]
          exact ⟨0, rfl⟩
        · intro v hv
          simp only [hx] at hv
          exact absurd hv (List.not_mem_nil v)
      · exact ⟨hi, hr, hx⟩
  exact key.1

theorem joinClearColumn_mem (stride x : Int) (ys : List Int) (map : List Int) (v : Int)
    (h : v ∈ (joinClearColumn stride x ys map).2) : v ∈ map ∨ v = -1 := by
  induction ys generalizing map with
  | nil => exact Or.inl h
  | cons y ys ih =>
    unfold joinClearColumn at h
    by_cases h0 : readAt map (y * stride + x) < 0
    · rw [if_pos h0] at h
      exact Or.inl h
    · rw [if_neg h0] at h
      rcases ih _ h with h1 | h1
      · exact mem_writeAt _ _ _ _ h1
      · exact Or.inr h1

theorem joinClear_mem (stride : Int) (ys xs : List Int) (map : List Int) (v : Int)
    (h : v ∈ (joinClear stride ys xs map).2) : v ∈ map ∨ v = -1 := by
  induction xs generalizing map with
  | nil => exact Or.inl h
  | cons x xs ih =>
    rcases hc : joinClearColumn stride x ys map with ⟨ok, map1⟩
    have hcol : ∀ w ∈ map1, w ∈ map ∨ w = -1 := by
      intro w hw
      have := joinClearColumn_mem stride x ys map w
      rw [hc] at this
      exact this hw
    cases ok with
    | false =>
      have hunf : joinClear stride ys (x :: xs) map = (false, map1) := by
        rw [joinClear, hc]
      rw [hunf] at h
      exact hcol v h
    | true =>
      have hunf : joinClear stride ys (x :: xs) map = joinClear stride ys xs map1 := by
        rw [joinClear, hc]
      rw [hunf] at h
      rcases ih map1 h with h1 | h1
      · exact hcol v h1
      · exact Or.inr h1

theorem joinRows_mem (stride y1 y2 xm a b c d : Int) (xs : List Int) (map : List Int) (v : Int)
    (h : v ∈ joinRows stride y1 y2 xm a b c d xs map) :
    v ∈ map ∨ v = a ∨ v = b ∨ v = c ∨ v = d := by
  revert h
  unfold joinRows
  refine foldl_invariant (fun (m : List Int) => v ∈ m → v ∈ map ∨ v = a ∨ v = b ∨ v = c ∨ v = d)
    _ _ _ (fun h => Or.inl h) ?_
  intro m x _ hm hv
  rcases mem_writeAt _ _ _ _ hv with hv | hv
  · rcases mem_writeAt _ _ _ _ hv with hv | hv
    · exact hm hv
    · split_ifs at hv
      · exact Or.inr (Or.inl hv)
      · exact Or.inr (Or.inr (Or.inl hv))
  · split_ifs at hv
    · exact Or.inr (Or.inr (Or.inr (Or.inl hv)))
    · exact Or.inr (Or.inr (Or.inr (Or.inr hv)))

theorem joinColumns_mem (stride x1 x2 ym a b c d : Int) (ys : List Int) (map : List Int)
    (v : Int) (h : v ∈ joinColumns stride x1 x2 ym a b c d ys map) :
    v ∈ map ∨ v = a ∨ v = b ∨ v = c ∨ v = d := by
  revert h
  unfold joinColumns
  refine foldl_invariant (fun (m : List Int) => v ∈ m → v ∈ map ∨ v = a ∨ v = b ∨ v = c ∨ v = d)
    _ _ _ (fun h => Or.inl h) ?_
  intro m y _ hm hv
  rcases mem_writeAt _ _ _ _ hv with hv | hv
  · rcases mem_writeAt _ _ _ _ hv with hv | hv
    · exact hm hv
    · split_ifs at hv
      · exact Or.inr (Or.inl hv)
      · exact Or.inr (Or.inr (Or.inr (Or.inl hv)))
  · split_ifs at hv
    · exact Or.inr (Or.inr (Or.inl hv))
    · exact Or.inr (Or.inr (Or.inr (Or.inr hv)))

/-- The state handed by `Join` to `MakeSurface` satisfies the invariant. -/
theorem joinOverwrite_invariant (dm : State) (x1 y1 x2 y2 a b c d : Int) (map1 : List Int)
    (h : Invariant dm) (hmap : ∀ v ∈ map1, v ∈ dm.map ∨ v = -1)
    (ha : 0 ≤ a ∧ a ∈ dm.map) (hb : 0 ≤ b ∧ b ∈ dm.map) (hc : 0 ≤ c ∧ c ∈ dm.map)
    (hd : 0 ≤ d ∧ d ∈ dm.map) :
    Invariant (joinOverwrite dm x1 y1 x2 y2 a b c d map1) := by
  have va := h.map_valid a ha.2 ha.1
  have vb := h.map_valid b hb.2 hb.1
  have vc := h.map_valid c hc.2 hc.1
  have vd := h.map_valid d hd.2 hd.1
  unfold joinOverwrite
  refine ⟨h.depth_length, h.colors_length, ?_, ?_, ⟨0, rfl⟩, ?_⟩
  · intro v hv h0
    simp only [] at hv ⊢
    rcases joinColumns_mem _ _ _ _ _ _ _ _ _ _ v hv with hv | rfl | rfl | rfl | rfl
    · rcases joinRows_mem _ _ _ _ _ _ _ _ _ _ v hv with hv | rfl | rfl | rfl | rfl
      · rcases hmap v hv with hv | rfl
        · exact h.map_valid v hv h0
        · omega
      · exact va
      · exact vb
      · exact vc
      · exact vd
    · exact va
    · exact vb
    · exact vc
    · exact vd
  · intro r hr
    simp only [] at hr ⊢
    rcases List.mem_append.mp hr with hr | hr
    · exact h.rects_valid r hr
    · rw [List.mem_singleton] at hr
      subst hr
      exact ⟨⟨ha.1, va⟩, ⟨hb.1, vb⟩, ⟨hc.1, vc⟩, ⟨hd.1, vd⟩⟩
  · intro v hv
    simp only [] at hv
    exact absurd hv (List.not_mem_nil v)

/-- `Join` keeps the invariant and the three per-vertex vectors, whatever it
returns. -/
theorem join_invariant (dm : State) (x1 y1 x2 y2 : Int) (h : Invariant dm) :
    Invariant (Join dm x1 y1 x2 y2).2 ∧
    (Join dm x1 y1 x2 y2).2.vertices = dm.vertices ∧
    (Join dm x1 y1 x2 y2).2.depth = dm.depth ∧
    (Join dm x1 y1 x2 y2).2.colors = dm.colors := by
  by_cases hg : dm.stride ≤ x2 ∨ dm.height ≤ y2
      ∨ readAt dm.map (y1 * dm.stride + x1) < 0 ∨ readAt dm.map (y1 * dm.stride + x2) < 0
      ∨ readAt dm.map (y2 * dm.stride + x1) < 0 ∨ readAt dm.map (y2 * dm.stride + x2) < 0
  · rw [join_guard_unchanged dm x1 y1 x2 y2 hg]
    exact ⟨h, rfl, rfl, rfl⟩
  · have h1 : ¬ x2 ≥ dm.stride := fun h => hg (Or.inl h)
    have h2 : ¬ y2 ≥ dm.height := fun h => hg (Or.inr (Or.inl h))
    have h3 : ¬ (readAt dm.map (y1 * dm.stride + x1) < 0
        ∨ readAt dm.map (y1 * dm.stride + x2) < 0
        ∨ readAt dm.map (y2 * dm.stride + x1) < 0
        ∨ readAt dm.map (y2 * dm.stride + x2) < 0) := fun h => hg (Or.inr (Or.inr h))
    have ha : 0 ≤ readAt dm.map (y1 * dm.stride + x1) := by omega
    have hb : 0 ≤ readAt dm.map (y1 * dm.stride + x2) := by omega
    have hc : 0 ≤ readAt dm.map (y2 * dm.stride + x1) := by omega
    have hd : 0 ≤ readAt dm.map (y2 * dm.stride + x2) := by omega
    have hmem := joinClear_mem dm.stride (loopRange y1 (y2 + 1)) (loopRange x1 (x2 + 1)) dm.map
    unfold Join
    rw [if_neg h1, if_neg h2]
    simp only []
    rw [if_neg h3]
    rcases hcl : joinClear dm.stride (loopRange y1 (y2 + 1)) (loopRange x1 (x2 + 1)) dm.map
      with ⟨ok, map1⟩
    rw [hcl] at hmem
    cases ok with
    | false =>
      refine ⟨⟨h.depth_length, h.colors_length, ?_, h.rects_valid, h.indices_triples,
        h.indices_valid⟩, rfl, rfl, rfl⟩
      intro v hv h0
      rcases hmem v hv with hv | rfl
      · exact h.map_valid v hv h0
      · omega
    | true =>
      exact ⟨makeSurface_invariant _ _ (joinOverwrite_invariant dm x1 y1 x2 y2 _ _ _ _ map1 h
        (fun v hv => hmem v hv) ⟨ha, readAt_nonneg_mem _ _ ha⟩ ⟨hb, readAt_nonneg_mem _ _ hb⟩
        ⟨hc, readAt_nonneg_mem _ _ hc⟩ ⟨hd, readAt_nonneg_mem _ _ hd⟩), rfl, rfl, rfl⟩

/-- `SmoothSurface` keeps the invariant. -/
theorem smoothSurface_invariant (dm : State) (n : Int) (h : Invariant dm) :
    Invariant (SmoothSurface dm n) := by
  obtain ⟨_, _, f3, f4, f5, f6, f7, f8, _, _, _, _⟩ := smoothIterations_frame dm n
  have e1 : (SmoothSurface dm n).map = dm.map := f3
  have e2 : (SmoothSurface dm n).depth = dm.depth := f5
  have e3 : (SmoothSurface dm n).colors = dm.colors := f6
  have e4 : (SmoothSurface dm n).indices = dm.indices := f7
  have e5 : (SmoothSurface dm n).rects = dm.rects := f8
  have e6 : (SmoothSurface dm n).vertices.length = dm.vertices.length := by
    unfold SmoothSurface
    rw [length_applyGeometry, f4]
  refine ⟨?_, ?_, ?_, ?_, ?_, ?_⟩
  · rw [e2, e6]
    exact h.depth_length
  · rw [e3, e6]
    exact h.colors_length
  · rw [e1, e6]
    exact h.map_valid
  · rw [e5, e6]
    exact h.rects_valid
  · rw [e4]
    exact h.indices_triples
  · rw [e4, e6]
    exact h.indices_valid

/-! ## The map left by a merge -/

theorem readAt_nonneg_range (v : List Int) (i : Int) (h : 0 ≤ readAt v i) :
    0 ≤ i ∧ i < v.length := by
  unfold readAt at h
  by_cases h0 : 0 ≤ i
  · refine ⟨h0, ?_⟩
    by_contra hge
    rw [if_pos h0, List.getD_eq_default _ _ (by omega)] at h
    omega
  · rw [if_neg h0] at h
    omega

/-- A loop of two writes per key, as in lines 68-71 and 73-76: the entry `j` is
left alone when no key writes it, and otherwise holds what its only key wrote
last. -/
theorem writePairs_read (p q u v : Int → Int) (l : List Int) (hnd : l.Nodup) (m : List Int)
    (j : Int) :
    ((∀ k ∈ l, p k ≠ j ∧ q k ≠ j) →
      readAt (l.foldl (fun acc k => writeAt (writeAt acc (p k) (u k)) (q k) (v k)) m) j
        = readAt m j) ∧
    (0 ≤ j → j < m.length → ∀ k0 ∈ l, (∀ k ∈ l, k ≠ k0 → p k ≠ j ∧ q k ≠ j) →
      (q k0 = j →
        readAt (l.foldl (fun acc k => writeAt (writeAt acc (p k) (u k)) (q k) (v k)) m) j
          = v k0) ∧
      (p k0 = j → q k0 ≠ j →
        readAt (l.foldl (fun acc k => writeAt (writeAt acc (p k) (u k)) (q k) (v k)) m) j
          = u k0)) := by
  induction l generalizing m with
  | nil =>
    exact ⟨fun _ => rfl, fun _ _ k0 hk0 => absurd hk0 (List.not_mem_nil k0)⟩
  | cons k l ih =>
    have hnd1 := List.nodup_cons.mp hnd
    have ih1 := ih hnd1.2 (writeAt (writeAt m (p k) (u k)) (q k) (v k))
    simp only [List.foldl_cons]
    constructor
    · intro hno
      rw [ih1.1 (fun k1 hk1 => hno k1 (List.mem_cons_of_mem k hk1))]
      have hk := hno k (List.mem_cons_self k l)
      rw [readAt_writeAt_ne _ _ _ _ hk.2, readAt_writeAt_ne _ _ _ _ hk.1]
    · intro h0 h1 k0 hk0 hothers
      by_cases hkk : k0 = k
      · subst hkk
        have hrest : ∀ k1 ∈ l, p k1 ≠ j ∧ q k1 ≠ j := fun k1 hk1 =>
          hothers k1 (List.mem_cons_of_mem k0 hk1) (fun h => hnd1.1 (h ▸ hk1))
        rw [ih1.1 hrest]
        constructor
        · intro hq
          rw [hq]
          exact readAt_writeAt_self _ _ _ h0 (by rw [length_writeAt]; exact h1)
        · intro hp hq
          rw [readAt_writeAt_ne _ _ _ _ hq, hp]
          exact readAt_writeAt_self _ _ _ h0 h1
      · have hk0l : k0 ∈ l := by
          rcases List.mem_cons.mp hk0 with h | h
          · exact absurd h hkk
          · exact h
        exact ih1.2 h0 (by rw [length_writeAt, length_writeAt]; exact h1) k0 hk0l
          (fun k1 hk1 hne => hothers k1 (List.mem_cons_of_mem k hk1) hne)

theorem length_joinClearColumn (stride x : Int) (ys : List Int) (map : List Int) :
    (joinClearColumn stride x ys map).2.length = map.length := by
  induction ys generalizing map with
  | nil => rfl
  | cons y ys ih =>
    unfold joinClearColumn
    split_ifs
    · rfl
    · rw [ih, length_writeAt]

theorem length_joinClear (stride : Int) (ys xs : List Int) (map : List Int) :
    (joinClear stride ys xs map).2.length = map.length := by
  induction xs generalizing map with
  | nil => rfl
  | cons x xs ih =>
    have hl := length_joinClearColumn stride x ys map
    rcases hc : joinClearColumn stride x ys map with ⟨ok, map1⟩
    rw [hc] at hl
    cases ok with
    | false =>
      have hunf : joinClear stride ys (x :: xs) map = (false, map1) := by
        rw [joinClear, hc]
      rw [hunf]
      exact hl
    | true =>
      have hunf : joinClear stride ys (x :: xs) map = joinClear stride ys xs map1 := by
        rw [joinClear, hc]
      rw [hunf, ih]
      exact hl

theorem readAt_clear_self (v : List Int) (i : Int) : readAt (writeAt v i (-1)) i = -1 := by
  by_cases hr : 0 ≤ i ∧ i < v.length
  · exact readAt_writeAt_self v i (-1) hr.1 hr.2
  · rw [writeAt_outside v i (-1) (by omega)]
    unfold readAt
    by_cases h0 : 0 ≤ i
    · rw [if_pos h0, List.getD_eq_default _ _ (by omega)]
    · rw [if_neg h0]

theorem joinClearColumn_cleared (stride x : Int) (hs : stride ≠ 0) (ys : List Int)
    (map : List Int) (hnd : ys.Nodup) (hne : ∀ y ∈ ys, 0 ≤ readAt map (y * stride + x)) :
    ∀ y ∈ ys, readAt (joinClearColumn stride x ys map).2 (y * stride + x) = -1 := by
  induction ys generalizing map with
  | nil => exact fun y hy => absurd hy (List.not_mem_nil y)
  | cons y0 ys ih =>
    have h0 : ¬ readAt map (y0 * stride + x) < 0 :=
      not_lt.mpr (hne y0 (List.mem_cons_self y0 ys))
    have hnd1 := List.nodup_cons.mp hnd
    have hflat : ∀ y1 ∈ ys, y0 * stride + x ≠ y1 * stride + x := by
      intro y1 hy1 h
      have h3 : y0 * stride = y1 * stride := by omega
      exact hnd1.1 ((Int.eq_of_mul_eq_mul_right hs h3) ▸ hy1)
    have hne1 : ∀ y1 ∈ ys, 0 ≤ readAt (writeAt map (y0 * stride + x) (-1)) (y1 * stride + x) := by
      intro y1 hy1
      rw [readAt_writeAt_ne _ _ _ _ (hflat y1 hy1)]
      exact hne y1 (List.mem_cons_of_mem y0 hy1)
    intro y hy
    unfold joinClearColumn
    rw [if_neg h0]
    rcases List.mem_cons.mp hy with rfl | hy
    · rw [(joinClearColumn_ok stride x hs ys _ hnd1.2 hne1).2 _
        (fun y1 hy1 => hflat y1 hy1)]
      exact readAt_clear_self _ _
    · exact ih _ hnd1.2 hne1 y hy

theorem joinClear_cleared (stride : Int) (ys xs : List Int) (map : List Int)
    (hndx : xs.Nodup) (hndy : ys.Nodup) (hxb : ∀ x ∈ xs, 0 ≤ x ∧ x < stride)
    (hne : ∀ x ∈ xs, ∀ y ∈ ys, 0 ≤ readAt map (y * stride + x)) :
    ∀ x ∈ xs, ∀ y ∈ ys, readAt (joinClear stride ys xs map).2 (y * stride + x) = -1 := by
  induction xs generalizing map with
  | nil => exact fun x hx => absurd hx (List.not_mem_nil x)
  | cons x0 xs ih =>
    have hx0 := hxb x0 (List.mem_cons_self x0 xs)
    have hs : stride ≠ 0 := by omega
    have hnd1 := List.nodup_cons.mp hndx
    have hcol := joinClearColumn_ok stride x0 hs ys map hndy
      (fun y hy => hne x0 (List.mem_cons_self x0 xs) y hy)
    have hne1 : ∀ x1 ∈ xs, ∀ y ∈ ys,
        0 ≤ readAt (joinClearColumn stride x0 ys map).2 (y * stride + x1) := by
      intro x1 hx1 y hy
      have hxx : x1 ≠ x0 := fun h => hnd1.1 (h ▸ hx1)
      have hx1b := hxb x1 (List.mem_cons_of_mem x0 hx1)
      rw [hcol.2]
      · exact hne x1 (List.mem_cons_of_mem x0 hx1) y hy
      · intro y0 _ h
        exact hxx (flat_inj stride x1 y x0 y0 hx1b.1 hx1b.2 hx0.1 hx0.2 h).1
    have hsplit : joinClearColumn stride x0 ys map
        = (true, (joinClearColumn stride x0 ys map).2) := Prod.ext hcol.1 rfl
    have hunf : joinClear stride ys (x0 :: xs) map
        = joinClear stride ys xs (joinClearColumn stride x0 ys map).2 := by
      rw [joinClear, hsplit]
    rw [hunf]
    intro x hx y hy
    rcases List.mem_cons.mp hx with rfl | hx
    · rw [(joinClear_ok stride ys xs _ hnd1.2 hndy
        (fun x1 hx1 => hxb x1 (List.mem_cons_of_mem x hx1)) hne1).2]
      · exact joinClearColumn_cleared stride x hs ys map hndy
          (fun y hy => hne x (List.mem_cons_self x xs) y hy) y hy
      · intro x1 hx1 y1 _ h
        have hx1b := hxb x1 (List.mem_cons_of_mem x hx1)
        exact hnd1.1 ((flat_inj stride x y x1 y1 hx0.1 hx0.2 hx1b.1 hx1b.2 h).1 ▸ hx1)
    · exact ih _ hnd1.2 (fun x1 hx1 => hxb x1 (List.mem_cons_of_mem x0 hx1)) hne1 x hx y hy

theorem length_joinRows (stride y1 y2 xm a b c d : Int) (xs : List Int) (map : List Int) :
    (joinRows stride y1 y2 xm a b c d xs map).length = map.length := by
  unfold joinRows
  refine foldl_invariant (fun (m : List Int) => m.length = map.length) _ _ _ rfl ?_
  intro m x _ hm
  rw [length_writeAt, length_writeAt, hm]

/-- The map after `Join` on a rectangle inside the grid without an empty cell,
cell by cell. -/
theorem join_map_read (dm : State) (x1 y1 x2 y2 : Int)
    (hx1 : 0 ≤ x1) (hx12 : x1 ≤ x2) (hx2 : x2 < dm.stride)
    (hy12 : y1 ≤ y2) (hy2 : y2 < dm.height)
    (hcells : ∀ x y : Int, x1 ≤ x → x ≤ x2 → y1 ≤ y → y ≤ y2 →
      0 ≤ readAt dm.map (y * dm.stride + x))
    (cx cy : Int) (hc0 : 0 ≤ cx) (hc1 : cx < dm.stride) :
    readAt (Join dm x1 y1 x2 y2).2.map (cy * dm.stride + cx)
      = mergedId x1 y1 x2 y2 (readAt dm.map (y1 * dm.stride + x1))
          (readAt dm.map (y1 * dm.stride + x2)) (readAt dm.map (y2 * dm.stride + x1))
          (readAt dm.map (y2 * dm.stride + x2)) cx cy (readAt dm.map (cy * dm.stride + cx)) := by
  rw [join_of_pre dm x1 y1 x2 y2 hx1 hx12 hx2 hy12 hy2 hcells]
  have hmap : ∀ (dm1 : State) (m : Int), (MakeSurface dm1 m).map = dm1.map := fun _ _ => rfl
  rw [hmap]
  unfold joinOverwrite
  simp only []
  -- the three stages
  have hndx := nodup_loopRange x1 (x2 + 1)
  have hndy := nodup_loopRange y1 (y2 + 1)
  have hxb : ∀ x ∈ loopRange x1 (x2 + 1), 0 ≤ x ∧ x < dm.stride := fun x hx => by
    rw [mem_loopRange] at hx
    omega
  have hne : ∀ x ∈ loopRange x1 (x2 + 1), ∀ y ∈ loopRange y1 (y2 + 1),
      0 ≤ readAt dm.map (y * dm.stride + x) := fun x hx y hy => by
    rw [mem_loopRange] at hx hy
    exact hcells x y (by omega) (by omega) (by omega) (by omega)
  have hframe := (joinClear_ok dm.stride (loopRange y1 (y2 + 1)) (loopRange x1 (x2 + 1)) dm.map
    hndx hndy hxb hne).2
  have hclear := joinClear_cleared dm.stride (loopRange y1 (y2 + 1)) (loopRange x1 (x2 + 1))
    dm.map hndx hndy hxb hne
  have hlen1 := length_joinClear dm.stride (loopRange y1 (y2 + 1)) (loopRange x1 (x2 + 1)) dm.map
  generalize (joinClear dm.stride (loopRange y1 (y2 + 1)) (loopRange x1 (x2 + 1)) dm.map).2
    = map1 at hframe hclear hlen1 ⊢
  generalize readAt dm.map (y1 * dm.stride + x1) = a
  generalize readAt dm.map (y1 * dm.stride + x2) = b
  generalize readAt dm.map (y2 * dm.stride + x1) = c
  generalize readAt dm.map (y2 * dm.stride + x2) = d
  have hrows := writePairs_read (fun x => y1 * dm.stride + x) (fun x => y2 * dm.stride + x)
    (fun x => if x < (x1 + x2).tdiv 2 then a else b)
    (fun x => if x < (x1 + x2).tdiv 2 then c else d) (loopRange x1 (x2 + 1)) hndx map1
    (cy * dm.stride + cx)
  have hlen2 := length_joinRows dm.stride y1 y2 ((x1 + x2).tdiv 2) a b c d
    (loopRange x1 (x2 + 1)) map1
  change _ ∧ _ at hrows
  have hcols := writePairs_read (fun y => y * dm.stride + x1) (fun y => y * dm.stride + x2)
    (fun y => if y < (y1 + y2).tdiv 2 then a else c)
    (fun y => if y < (y1 + y2).tdiv 2 then b else d) (loopRange y1 (y2 + 1)) hndy
    (joinRows dm.stride y1 y2 ((x1 + x2).tdiv 2) a b c d (loopRange x1 (x2 + 1)) map1)
    (cy * dm.stride + cx)
  unfold mergedId
  by_cases hin : x1 ≤ cx ∧ cx ≤ x2 ∧ y1 ≤ cy ∧ cy ≤ y2
  · rw [if_pos hin]
    have hrange := readAt_nonneg_range dm.map _ (hcells cx cy hin.1 hin.2.1 hin.2.2.1 hin.2.2.2)
    have hcy : cy ∈ loopRange y1 (y2 + 1) := (mem_loopRange _ _ _).mpr (by omega)
    have hcx : cx ∈ loopRange x1 (x2 + 1) := (mem_loopRange _ _ _).mpr (by omega)
    by_cases e2 : cx = x2
    · rw [if_pos e2]
      refine ((hcols.2 hrange.1 (by rw [hlen2, hlen1]; exact hrange.2) cy hcy ?_).1 ?_)
      · intro k _ hk
        constructor
        · intro h
          exact hk (flat_inj dm.stride x1 k cx cy hx1 (by omega) hc0 hc1 h).2
        · intro h
          exact hk (flat_inj dm.stride x2 k cx cy (by omega) hx2 hc0 hc1 h).2
      · rw [e2]
    · rw [if_neg e2]
      by_cases e1 : cx = x1
      · rw [if_pos e1]
        refine ((hcols.2 hrange.1 (by rw [hlen2, hlen1]; exact hrange.2) cy hcy ?_).2 ?_ ?_)
        · intro k _ hk
          constructor
          · intro h
            exact hk (flat_inj dm.stride x1 k cx cy hx1 (by omega) hc0 hc1 h).2
          · intro h
            exact hk (flat_inj dm.stride x2 k cx cy (by omega) hx2 hc0 hc1 h).2
        · rw [e1]
        · intro h
          exact e2 (flat_inj dm.stride x2 cy cx cy (by omega) hx2 hc0 hc1 h).1.symm
      · rw [if_neg e1]
        have hc : readAt (joinColumns dm.stride x1 x2 ((y1 + y2).tdiv 2) a b c d
            (loopRange y1 (y2 + 1))
            (joinRows dm.stride y1 y2 ((x1 + x2).tdiv 2) a b c d (loopRange x1 (x2 + 1)) map1))
            (cy * dm.stride + cx)
            = readAt (joinRows dm.stride y1 y2 ((x1 + x2).tdiv 2) a b c d
                (loopRange x1 (x2 + 1)) map1) (cy * dm.stride + cx) := by
          refine hcols.1 ?_
          intro k _
          constructor
          · intro h
            exact e1 (flat_inj dm.stride x1 k cx cy hx1 (by omega) hc0 hc1 h).1.symm
          · intro h
            exact e2 (flat_inj dm.stride x2 k cx cy (by omega) hx2 hc0 hc1 h).1.symm
        rw [hc]
        by_cases f2 : cy = y2
        · rw [if_pos f2]
          refine ((hrows.2 hrange.1 (by rw [hlen1]; exact hrange.2) cx hcx ?_).1 ?_)
          · intro k hkm hk
            have hkb := hxb k hkm
            constructor
            · intro h
              exact hk (flat_inj dm.stride k y1 cx cy hkb.1 hkb.2 hc0 hc1 h).1
            · intro h
              exact hk (flat_inj dm.stride k y2 cx cy hkb.1 hkb.2 hc0 hc1 h).1
          · show y2 * dm.stride + cx = cy * dm.stride + cx
            rw [f2]
        · rw [if_neg f2]
          by_cases f1 : cy = y1
          · rw [if_pos f1]
            refine ((hrows.2 hrange.1 (by rw [hlen1]; exact hrange.2) cx hcx ?_).2 ?_ ?_)
            · intro k hkm hk
              have hkb := hxb k hkm
              constructor
              · intro h
                exact hk (flat_inj dm.stride k y1 cx cy hkb.1 hkb.2 hc0 hc1 h).1
              · intro h
                exact hk (flat_inj dm.stride k y2 cx cy hkb.1 hkb.2 hc0 hc1 h).1
            · show y1 * dm.stride + cx = cy * dm.stride + cx
              rw [f1]
            · intro h
              exact f2 (flat_inj dm.stride cx y2 cx cy hc0 hc1 hc0 hc1 h).2.symm
          · rw [if_neg f1]
            have hr : readAt (joinRows dm.stride y1 y2 ((x1 + x2).tdiv 2) a b c d
                (loopRange x1 (x2 + 1)) map1) (cy * dm.stride + cx)
                = readAt map1 (cy * dm.stride + cx) := by
              refine hrows.1 ?_
              intro k hkm
              have hkb := hxb k hkm
              constructor
              · intro h
                exact f1 (flat_inj dm.stride k y1 cx cy hkb.1 hkb.2 hc0 hc1 h).2.symm
              · intro h
                exact f2 (flat_inj dm.stride k y2 cx cy hkb.1 hkb.2 hc0 hc1 h).2.symm
            rw [hr]
            exact hclear cx hcx cy hcy
  · rw [if_neg hin]
    have hc : readAt (joinColumns dm.stride x1 x2 ((y1 + y2).tdiv 2) a b c d
        (loopRange y1 (y2 + 1))
        (joinRows dm.stride y1 y2 ((x1 + x2).tdiv 2) a b c d (loopRange x1 (x2 + 1)) map1))
        (cy * dm.stride + cx)
        = readAt (joinRows dm.stride y1 y2 ((x1 + x2).tdiv 2) a b c d
            (loopRange x1 (x2 + 1)) map1) (cy * dm.stride + cx) := by
      refine hcols.1 ?_
      intro k hkm
      rw [mem_loopRange] at hkm
      constructor
      · intro h
        have := flat_inj dm.stride x1 k cx cy hx1 (by omega) hc0 hc1 h
        exact hin (by omega)
      · intro h
        have := flat_inj dm.stride x2 k cx cy (by omega) hx2 hc0 hc1 h
        exact hin (by omega)
    have hr : readAt (joinRows dm.stride y1 y2 ((x1 + x2).tdiv 2) a b c d
        (loopRange x1 (x2 + 1)) map1) (cy * dm.stride + cx)
        = readAt map1 (cy * dm.stride + cx) := by
      refine hrows.1 ?_
      intro k hkm
      have hkb := hxb k hkm
      rw [mem_loopRange] at hkm
      constructor
      · intro h
        have := flat_inj dm.stride k y1 cx cy hkb.1 hkb.2 hc0 hc1 h
        exact hin (by omega)
      · intro h
        have := flat_inj dm.stride k y2 cx cy hkb.1 hkb.2 hc0 hc1 h
        exact hin (by omega)
    rw [hc, hr]
    refine hframe _ ?_
    intro k hkm y hym h
    have hkb := hxb k hkm
    rw [mem_loopRange] at hkm hym
    have := flat_inj dm.stride cx cy k y hc0 hc1 hkb.1 hkb.2 h
    exact hin (by omega)

/-- The midpoint of lines 67 and 72 for non-negative ends. -/
theorem tdiv_two (u v : Int) (hu : 0 ≤ u) (hv : 0 ≤ v) : (u + v).tdiv 2 = (u + v) / 2 :=
  Int.tdiv_eq_ediv (by omega) (by omega)

/-- After `Join` on a rectangle inside the grid without an empty cell, at least
two cells wide and three cells tall, the four corner cells hold their own ids,
the cells inside the border are empty and the quad `{a,b,c,d}` is the last of
`rects`. -/
theorem join_keeps_corners (dm : State) (x1 y1 x2 y2 : Int)
    (hx1 : 0 ≤ x1) (hx12 : x1 < x2) (hx2 : x2 < dm.stride)
    (hy1 : 0 ≤ y1) (hy12 : y1 + 2 ≤ y2) (hy2 : y2 < dm.height)
    (hcells : ∀ x y : Int, x1 ≤ x → x ≤ x2 → y1 ≤ y → y ≤ y2 →
      0 ≤ readAt dm.map (y * dm.stride + x)) :
    readAt (Join dm x1 y1 x2 y2).2.map (y1 * dm.stride + x1) = readAt dm.map (y1 * dm.stride + x1) ∧
    readAt (Join dm x1 y1 x2 y2).2.map (y1 * dm.stride + x2) = readAt dm.map (y1 * dm.stride + x2) ∧
    readAt (Join dm x1 y1 x2 y2).2.map (y2 * dm.stride + x1) = readAt dm.map (y2 * dm.stride + x1) ∧
    readAt (Join dm x1 y1 x2 y2).2.map (y2 * dm.stride + x2) = readAt dm.map (y2 * dm.stride + x2) ∧
    (∀ x y : Int, x1 < x → x < x2 → y1 < y → y < y2 →
      readAt (Join dm x1 y1 x2 y2).2.map (y * dm.stride + x) = -1) ∧
    (Join dm x1 y1 x2 y2).2.rects
      = dm.rects ++ [⟨readAt dm.map (y1 * dm.stride + x1), readAt dm.map (y1 * dm.stride + x2),
          readAt dm.map (y2 * dm.stride + x1), readAt dm.map (y2 * dm.stride + x2)⟩] := by
  have hr := join_map_read dm x1 y1 x2 y2 hx1 (by omega) hx2 (by omega) hy2 hcells
  have hm := tdiv_two y1 y2 hy1 (by omega)
  have hn := tdiv_two x1 x2 hx1 (by omega)
  refine ⟨?_, ?_, ?_, ?_, ?_, ?_⟩
  · rw [hr x1 y1 hx1 (by omega)]
    unfold mergedId
    rw [hm, hn]
    split_ifs <;> omega
  · rw [hr x2 y1 (by omega) hx2]
    unfold mergedId
    rw [hm, hn]
    split_ifs <;> omega
  · rw [hr x1 y2 hx1 (by omega)]
    unfold mergedId
    rw [hm, hn]
    split_ifs <;> omega
  · rw [hr x2 y2 (by omega) hx2]
    unfold mergedId
    rw [hm, hn]
    split_ifs <;> omega
  · intro x y h1 h2 h3 h4
    rw [hr x y (by omega) (by omega)]
    unfold mergedId
    rw [hm, hn]
    split_ifs <;> omega
  · rw [join_of_pre dm x1 y1 x2 y2 hx1 (by omega) hx2 (by omega) hy2 hcells]
    rfl

/-- C13: on the triangulated 4x4 grid the rectangle (1,1)-(2,2) has the corner
ids 5, 6, 9, 10; after `Join(1,1,2,2)` the corner cells (1,1) and (2,1) hold 9
and 10, the ids of the two bottom corners. -/
theorem join_two_rows_loses_corners :
    readAt (MakeSurface (flatGrid 4 4 1) 0).map (1 * 4 + 1) = 5 ∧
    readAt (MakeSurface (flatGrid 4 4 1) 0).map (1 * 4 + 2) = 6 ∧
    readAt (MakeSurface (flatGrid 4 4 1) 0).map (2 * 4 + 1) = 9 ∧
    readAt (MakeSurface (flatGrid 4 4 1) 0).map (2 * 4 + 2) = 10 ∧
    (Join (MakeSurface (flatGrid 4 4 1) 0) 1 1 2 2).2.map
      = [0, 1, 2, 3, 4, 9, 10, 7, 8, 9, 10, 11, 12, 13, 14, 15] ∧
    readAt (Join (MakeSurface (flatGrid 4 4 1) 0) 1 1 2 2).2.map (1 * 4 + 1) = 9 ∧
    readAt (Join (MakeSurface (flatGrid 4 4 1) 0) 1 1 2 2).2.map (1 * 4 + 2) = 10 ∧
    (Join (MakeSurface (flatGrid 4 4 1) 0) 1 1 2 2).2.rects = [⟨5, 6, 9, 10⟩] := by
  decide!

/-! ## The triangles around a merged rectangle -/

set_option maxHeartbeats 4000000 in
/-- For a rectangle at least three cells wide and tall: the first triangle of
the window `(x, y)` has three non-empty cells with three different ids, except
in the windows inside the rectangle (but for the top-left one of a rectangle at
most four cells wide and tall), below it and right of it away from the
midpoints. -/
theorem first_triangle_arith (x1 y1 x2 y2 x y : Int)
    (hx12 : x1 + 2 ≤ x2) (hy12 : y1 + 2 ≤ y2) :
    (¬ cellInner x1 y1 x2 y2 (x - 1) (y - 1) ∧ ¬ cellInner x1 y1 x2 y2 x (y - 1)
      ∧ ¬ cellInner x1 y1 x2 y2 (x - 1) y
      ∧ ¬ (repX x1 y1 x2 y2 (x - 1) (y - 1) = repX x1 y1 x2 y2 x (y - 1)
          ∧ repY x1 y1 x2 y2 (x - 1) (y - 1) = repY x1 y1 x2 y2 x (y - 1))
      ∧ ¬ (repX x1 y1 x2 y2 x (y - 1) = repX x1 y1 x2 y2 (x - 1) y
          ∧ repY x1 y1 x2 y2 x (y - 1) = repY x1 y1 x2 y2 (x - 1) y)
      ∧ ¬ (repX x1 y1 x2 y2 (x - 1) y = repX x1 y1 x2 y2 (x - 1) (y - 1)
          ∧ repY x1 y1 x2 y2 (x - 1) y = repY x1 y1 x2 y2 (x - 1) (y - 1))) ↔
    ¬ ((x1 + 1 ≤ x ∧ x ≤ x2 ∧ y1 + 1 ≤ y ∧ y ≤ y2
          ∧ ¬ (x = x1 + 1 ∧ y = y1 + 1 ∧ x2 ≤ x1 + 3 ∧ y2 ≤ y1 + 3))
        ∨ (x1 + 1 ≤ x ∧ x ≤ x2 ∧ y = y2 + 1 ∧ x ≠ (x1 + x2) / 2)
        ∨ (x = x2 + 1 ∧ y1 + 1 ≤ y ∧ y ≤ y2 ∧ y ≠ (y1 + y2) / 2)) := by
  unfold cellInner repX repY
  split_ifs <;> omega

set_option maxHeartbeats 4000000 in
/-- For a rectangle at least three cells wide and tall: the second triangle of
the window `(x, y)` has three non-empty cells with three different ids, except
in the windows inside the rectangle, above it and left of it away from the
midpoints. -/
theorem second_triangle_arith (x1 y1 x2 y2 x y : Int)
    (hx12 : x1 + 2 ≤ x2) (hy12 : y1 + 2 ≤ y2) :
    (¬ cellInner x1 y1 x2 y2 x (y - 1) ∧ ¬ cellInner x1 y1 x2 y2 (x - 1) y
      ∧ ¬ cellInner x1 y1 x2 y2 x y
      ∧ ¬ (repX x1 y1 x2 y2 x (y - 1) = repX x1 y1 x2 y2 (x - 1) y
          ∧ repY x1 y1 x2 y2 x (y - 1) = repY x1 y1 x2 y2 (x - 1) y)
      ∧ ¬ (repX x1 y1 x2 y2 (x - 1) y = repX x1 y1 x2 y2 x y
          ∧ repY x1 y1 x2 y2 (x - 1) y = repY x1 y1 x2 y2 x y)
      ∧ ¬ (repX x1 y1 x2 y2 x y = repX x1 y1 x2 y2 x (y - 1)
          ∧ repY x1 y1 x2 y2 x y = repY x1 y1 x2 y2 x (y - 1))) ↔
    ¬ ((x1 + 1 ≤ x ∧ x ≤ x2 ∧ y1 + 1 ≤ y ∧ y ≤ y2)
        ∨ (x1 + 1 ≤ x ∧ x ≤ x2 ∧ y = y1 ∧ x ≠ (x1 + x2) / 2)
        ∨ (x = x1 ∧ y1 + 1 ≤ y ∧ y ≤ y2 ∧ y ≠ (y1 + y2) / 2)) := by
  unfold cellInner repX repY
  split_ifs <;> omega

/-- The cell whose id a cell holds after the merge is the cell itself or a cell
of the rectangle. -/
theorem rep_bounds (x1 y1 x2 y2 cx cy : Int) (hx12 : x1 ≤ x2) (hy12 : y1 ≤ y2) :
    (repX x1 y1 x2 y2 cx cy = cx ∧ repY x1 y1 x2 y2 cx cy = cy) ∨
    (x1 ≤ repX x1 y1 x2 y2 cx cy ∧ repX x1 y1 x2 y2 cx cy ≤ x2
      ∧ y1 ≤ repY x1 y1 x2 y2 cx cy ∧ repY x1 y1 x2 y2 cx cy ≤ y2) := by
  unfold repX repY
  split_ifs <;> omega

/-- The id left in a cell by the merge is `-1` strictly inside the border and
otherwise the old id of the cell `(repX, repY)`. -/
theorem mergedId_rep (dm : State) (x1 y1 x2 y2 cx cy : Int)
    (hx1 : 0 ≤ x1) (hx12 : x1 < x2) (hy1 : 0 ≤ y1) (hy12 : y1 < y2) :
    mergedId x1 y1 x2 y2 (readAt dm.map (y1 * dm.stride + x1))
        (readAt dm.map (y1 * dm.stride + x2)) (readAt dm.map (y2 * dm.stride + x1))
        (readAt dm.map (y2 * dm.stride + x2)) cx cy (readAt dm.map (cy * dm.stride + cx))
      = if cellInner x1 y1 x2 y2 cx cy then -1
        else readAt dm.map (repY x1 y1 x2 y2 cx cy * dm.stride + repX x1 y1 x2 y2 cx cy) := by
  unfold mergedId cellInner repX repY
  rw [tdiv_two x1 x2 hx1 (by omega), tdiv_two y1 y2 hy1 (by omega)]
  split_ifs <;> first | rfl | omega

/-- On a flat grid the validator asks for three non-empty, pairwise distinct
ids, for ids that are `-1` or entries of the map. -/
theorem isSurface_flat_iff {dm : State} {z : ℚ} (hg : FlatGrid dm z) (p q r : Int)
    (hp : 0 ≤ p → p ∈ dm.map) (hq : 0 ≤ q → q ∈ dm.map) (hr : 0 ≤ r → r ∈ dm.map) :
    IsSurface dm.depth p q r = true ↔ (0 ≤ p ∧ 0 ≤ q ∧ 0 ≤ r ∧ p ≠ q ∧ q ≠ r ∧ r ≠ p) := by
  constructor
  · intro h
    unfold IsSurface at h
    by_contra hn
    rw [if_neg hn] at h
    cases h
  · rintro ⟨h1, h2, h3, h4, h5, h6⟩
    exact isSurface_of_flat dm.depth z hg.depth_pos p q r h1 h2 h3 h4 h5 h6
      (hg.depth_eq p (hp h1)) (hg.depth_eq q (hq h2)) (hg.depth_eq r (hr h3))

/-- The number of entries pushed at a window. -/
theorem length_scanCell (stride : Int) (map : List Int) (depth : List ℚ) (x y : Int) :
    ((scanCell stride map depth x y []).length : Int)
      = (if IsSurface depth (readAt map ((y - 1) * stride + x - 1))
            (readAt map ((y - 1) * stride + x)) (readAt map (y * stride + x - 1)) = true
          then 3 else 0)
        + (if IsSurface depth (readAt map ((y - 1) * stride + x))
            (readAt map (y * stride + x - 1)) (readAt map (y * stride + x)) = true
          then 3 else 0) := by
  rw [scanCell_eq_specWindow]
  unfold specWindow
  split_ifs <;> simp

/-- The id of a cell of the grid after the merge of a rectangle of a flat grid. -/
theorem merged_cell {dm : State} {z : ℚ} (hg : FlatGrid dm z) (x1 y1 x2 y2 : Int)
    (hx1 : 0 ≤ x1) (hx12 : x1 < x2) (hx2 : x2 < dm.stride)
    (hy1 : 0 ≤ y1) (hy12 : y1 < y2) (hy2 : y2 < dm.height)
    (cx cy : Int) (hcx : 0 ≤ cx ∧ cx < dm.stride) (hcy : 0 ≤ cy ∧ cy < dm.height) :
    (cellInner x1 y1 x2 y2 cx cy →
      readAt (Join dm x1 y1 x2 y2).2.map (cy * dm.stride + cx) = -1) ∧
    (¬ cellInner x1 y1 x2 y2 cx cy →
      readAt (Join dm x1 y1 x2 y2).2.map (cy * dm.stride + cx)
        = readAt dm.map (repY x1 y1 x2 y2 cx cy * dm.stride + repX x1 y1 x2 y2 cx cy)) ∧
    (0 ≤ repX x1 y1 x2 y2 cx cy ∧ repX x1 y1 x2 y2 cx cy < dm.stride) ∧
    (0 ≤ repY x1 y1 x2 y2 cx cy ∧ repY x1 y1 x2 y2 cx cy < dm.height) := by
  have hcells : ∀ x y : Int, x1 ≤ x → x ≤ x2 → y1 ≤ y → y ≤ y2 →
      0 ≤ readAt dm.map (y * dm.stride + x) := fun x y h1 h2 h3 h4 =>
    (hg.cell x y (by omega) (by omega) (by omega) (by omega)).1
  have hr := join_map_read dm x1 y1 x2 y2 hx1 (by omega) hx2 (by omega) hy2 hcells cx cy
    hcx.1 hcx.2
  rw [mergedId_rep dm x1 y1 x2 y2 cx cy hx1 hx12 hy1 hy12] at hr
  have hb := rep_bounds x1 y1 x2 y2 cx cy (by omega) (by omega)
  refine ⟨fun h => ?_, fun h => ?_, by omega, by omega⟩
  · rw [hr, if_pos h]
  · rw [hr, if_neg h]

/-- The validator on three cells of the grid after the merge of a rectangle of a
flat grid: the three cells are on or outside the border and hold the ids of
three different cells. -/
theorem merged_triangle {dm : State} {z : ℚ} (hg : FlatGrid dm z) (x1 y1 x2 y2 : Int)
    (hx1 : 0 ≤ x1) (hx12 : x1 < x2) (hx2 : x2 < dm.stride)
    (hy1 : 0 ≤ y1) (hy12 : y1 < y2) (hy2 : y2 < dm.height)
    (px py qx qy rx ry : Int)
    (hpx : 0 ≤ px ∧ px < dm.stride) (hpy : 0 ≤ py ∧ py < dm.height)
    (hqx : 0 ≤ qx ∧ qx < dm.stride) (hqy : 0 ≤ qy ∧ qy < dm.height)
    (hrx : 0 ≤ rx ∧ rx < dm.stride) (hry : 0 ≤ ry ∧ ry < dm.height) :
    IsSurface dm.depth (readAt (Join dm x1 y1 x2 y2).2.map (py * dm.stride + px))
        (readAt (Join dm x1 y1 x2 y2).2.map (qy * dm.stride + qx))
        (readAt (Join dm x1 y1 x2 y2).2.map (ry * dm.stride + rx)) = true ↔
    (¬ cellInner x1 y1 x2 y2 px py ∧ ¬ cellInner x1 y1 x2 y2 qx qy
      ∧ ¬ cellInner x1 y1 x2 y2 rx ry
      ∧ ¬ (repX x1 y1 x2 y2 px py = repX x1 y1 x2 y2 qx qy
          ∧ repY x1 y1 x2 y2 px py = repY x1 y1 x2 y2 qx qy)
      ∧ ¬ (repX x1 y1 x2 y2 qx qy = repX x1 y1 x2 y2 rx ry
          ∧ repY x1 y1 x2 y2 qx qy = repY x1 y1 x2 y2 rx ry)
      ∧ ¬ (repX x1 y1 x2 y2 rx ry = repX x1 y1 x2 y2 px py
          ∧ repY x1 y1 x2 y2 rx ry = repY x1 y1 x2 y2 px py)) := by
  obtain ⟨pi, po, pbx, pby⟩ := merged_cell hg x1 y1 x2 y2 hx1 hx12 hx2 hy1 hy12 hy2 px py hpx hpy
  obtain ⟨qi, qo, qbx, qby⟩ := merged_cell hg x1 y1 x2 y2 hx1 hx12 hx2 hy1 hy12 hy2 qx qy hqx hqy
  obtain ⟨ri, ro, rbx, rby⟩ := merged_cell hg x1 y1 x2 y2 hx1 hx12 hx2 hy1 hy12 hy2 rx ry hrx hry
  have key : ∀ (g : Int) (ux uy : Int) (inner : Prop),
      (inner → g = -1) → (¬ inner → g = readAt dm.map (uy * dm.stride + ux)) →
      (0 ≤ g → g ∈ dm.map) := by
    intro g ux uy inner h1 h2 h0
    by_cases hi : inner
    · rw [h1 hi] at h0
      omega
    · rw [h2 hi] at h0 ⊢
      exact readAt_nonneg_mem _ _ h0
  rw [isSurface_flat_iff hg _ _ _ (key _ _ _ _ pi po) (key _ _ _ _ qi qo) (key _ _ _ _ ri ro)]
  constructor
  · rintro ⟨h1, h2, h3, h4, h5, h6⟩
    have np : ¬ cellInner x1 y1 x2 y2 px py := fun h => by rw [pi h] at h1; omega
    have nq : ¬ cellInner x1 y1 x2 y2 qx qy := fun h => by rw [qi h] at h2; omega
    have nr : ¬ cellInner x1 y1 x2 y2 rx ry := fun h => by rw [ri h] at h3; omega
    refine ⟨np, nq, nr, ?_, ?_, ?_⟩
    · rintro ⟨e1, e2⟩
      apply h4
      rw [po np, qo nq, e1, e2]
    · rintro ⟨e1, e2⟩
      apply h5
      rw [qo nq, ro nr, e1, e2]
    · rintro ⟨e1, e2⟩
      apply h6
      rw [ro nr, po np, e1, e2]
  · rintro ⟨np, nq, nr, h4, h5, h6⟩
    rw [po np, qo nq, ro nr]
    refine ⟨(hg.cell _ _ pbx.1 pbx.2 pby.1 pby.2).1, (hg.cell _ _ qbx.1 qbx.2 qby.1 qby.2).1,
      (hg.cell _ _ rbx.1 rbx.2 rby.1 rby.2).1, ?_, ?_, ?_⟩
    · intro h
      exact h4 (hg.cell_inj _ _ _ _ pbx.1 pbx.2 pby.1 pby.2 qbx.1 qbx.2 qby.1 qby.2 h)
    · intro h
      exact h5 (hg.cell_inj _ _ _ _ qbx.1 qbx.2 qby.1 qby.2 rbx.1 rbx.2 rby.1 rby.2 h)
    · intro h
      exact h6 (hg.cell_inj _ _ _ _ rbx.1 rbx.2 rby.1 rby.2 pbx.1 pbx.2 pby.1 pby.2 h)

/-! ## Counting the triangles around a merged rectangle -/

theorem toFinset_loopRange (lo hi : Int) : (loopRange lo hi).toFinset = Finset.Ico lo hi := by
  ext v
  rw [List.mem_toFinset, mem_loopRange, Finset.mem_Ico]

theorem length_flatMap_sum {α β : Type} (l : List α) (f : α → List β) :
    (((l.flatMap f).length : Nat) : Int) = (l.map (fun a => ((f a).length : Int))).sum := by
  induction l with
  | nil => simp
  | cons a l ih =>
    simp only [List.flatMap_cons, List.length_append, List.map_cons, List.sum_cons]
    push_cast
    rw [ih]

/-- The length of a scan as a double sum over the scanned windows. -/
theorem length_scan_sum (lo hi lo2 hi2 : Int) (f : Int → Int → List Int) :
    ((((loopRange lo hi).flatMap (fun x => (loopRange lo2 hi2).flatMap (fun y => f x y))).length
        : Nat) : Int)
      = ∑ x in Finset.Ico lo hi, ∑ y in Finset.Ico lo2 hi2, ((f x y).length : Int) := by
  rw [length_flatMap_sum, ← toFinset_loopRange lo hi, List.sum_toFinset _ (nodup_loopRange _ _)]
  congr 1
  apply List.map_congr_left
  intro x _
  rw [length_flatMap_sum, ← toFinset_loopRange lo2 hi2,
    List.sum_toFinset _ (nodup_loopRange _ _)]

/-- The windows of a box inside the scanned area, counted. -/
theorem sum_boxInd (lo hi lo2 hi2 p q r s : Int) (hp : lo ≤ p) (hq : q < hi) (hpq : p ≤ q + 1)
    (hr : lo2 ≤ r) (hs : s < hi2) (hrs : r ≤ s + 1) :
    ∑ x in Finset.Ico lo hi, ∑ y in Finset.Ico lo2 hi2, boxInd p q r s x y
      = (q - p + 1) * (s - r + 1) := by
  have e : ∀ x y : Int, boxInd p q r s x y
      = (if p ≤ x ∧ x ≤ q then 1 else 0) * (if r ≤ y ∧ y ≤ s then 1 else 0) := by
    intro x y
    unfold boxInd
    split_ifs <;> first | rfl | omega
  simp only [e]
  rw [← Finset.sum_mul_sum]
  have h1 : ∀ (a b u v : Int), a ≤ u → v < b → u ≤ v + 1 →
      ∑ x in Finset.Ico a b, (if u ≤ x ∧ x ≤ v then (1 : Int) else 0) = v - u + 1 := by
    intro a b u v hu hv huv
    rw [Finset.sum_boole]
    have : Finset.filter (fun x => u ≤ x ∧ x ≤ v) (Finset.Ico a b) = Finset.Icc u v := by
      ext x
      simp only [Finset.mem_filter, Finset.mem_Ico, Finset.mem_Icc]
      omega
    rw [this, Int.card_Icc]
    omega
  rw [h1 lo hi p q hp hq hpq, h1 lo2 hi2 r s hr hs hrs]

set_option maxHeartbeats 4000000 in
/-- The first triangle of a window around a merged rectangle, counted with the
boxes of windows that lose it. -/
theorem first_triangle_count (x1 y1 x2 y2 x y : Int) (hx12 : x1 + 2 ≤ x2) (hy12 : y1 + 2 ≤ y2) :
    (if ¬ ((x1 + 1 ≤ x ∧ x ≤ x2 ∧ y1 + 1 ≤ y ∧ y ≤ y2
          ∧ ¬ (x = x1 + 1 ∧ y = y1 + 1 ∧ x2 ≤ x1 + 3 ∧ y2 ≤ y1 + 3))
        ∨ (x1 + 1 ≤ x ∧ x ≤ x2 ∧ y = y2 + 1 ∧ x ≠ (x1 + x2) / 2)
        ∨ (x = x2 + 1 ∧ y1 + 1 ≤ y ∧ y ≤ y2 ∧ y ≠ (y1 + y2) / 2)) then (3 : Int) else 0)
      = 3 - 3 * (boxInd (x1 + 1) x2 (y1 + 1) y2 x y
          - (if x2 ≤ x1 + 3 ∧ y2 ≤ y1 + 3 then boxInd (x1 + 1) (x1 + 1) (y1 + 1) (y1 + 1) x y
              else 0)
          + boxInd (x1 + 1) x2 (y2 + 1) (y2 + 1) x y
          - boxInd ((x1 + x2) / 2) ((x1 + x2) / 2) (y2 + 1) (y2 + 1) x y
          + boxInd (x2 + 1) (x2 + 1) (y1 + 1) y2 x y
          - boxInd (x2 + 1) (x2 + 1) ((y1 + y2) / 2) ((y1 + y2) / 2) x y) := by
  unfold boxInd
  split_ifs <;> omega

set_option maxHeartbeats 4000000 in
/-- The second triangle of a window around a merged rectangle, counted with
the boxes of windows that lose it. -/
theorem second_triangle_count (x1 y1 x2 y2 x y : Int) (hx12 : x1 + 2 ≤ x2)
    (hy12 : y1 + 2 ≤ y2) :
    (if ¬ ((x1 + 1 ≤ x ∧ x ≤ x2 ∧ y1 + 1 ≤ y ∧ y ≤ y2)
        ∨ (x1 + 1 ≤ x ∧ x ≤ x2 ∧ y = y1 ∧ x ≠ (x1 + x2) / 2)
        ∨ (x = x1 ∧ y1 + 1 ≤ y ∧ y ≤ y2 ∧ y ≠ (y1 + y2) / 2)) then (3 : Int) else 0)
      = 3 - 3 * (boxInd (x1 + 1) x2 (y1 + 1) y2 x y
          + boxInd (x1 + 1) x2 y1 y1 x y
          - boxInd ((x1 + x2) / 2) ((x1 + x2) / 2) y1 y1 x y
          + boxInd x1 x1 (y1 + 1) y2 x y
          - boxInd x1 x1 ((y1 + y2) / 2) ((y1 + y2) / 2) x y) := by
  unfold boxInd
  split_ifs <;> omega

/-- The entries pushed at a window after the merge of a rectangle, at least three
cells wide and tall, of a flat grid. -/
theorem length_scanCell_merged {dm : State} {z : ℚ} (hg : FlatGrid dm z) (x1 y1 x2 y2 : Int)
    (hx1 : 0 ≤ x1) (hx12 : x1 + 2 ≤ x2) (hx2 : x2 < dm.stride)
    (hy1 : 0 ≤ y1) (hy12 : y1 + 2 ≤ y2) (hy2 : y2 < dm.height)
    (x y : Int) (hx : 1 ≤ x ∧ x < dm.stride) (hy : 1 ≤ y ∧ y < dm.height) :
    ((scanCell dm.stride (Join dm x1 y1 x2 y2).2.map dm.depth x y []).length : Int)
      = 6 - 3 * (boxInd (x1 + 1) x2 (y1 + 1) y2 x y
          - (if x2 ≤ x1 + 3 ∧ y2 ≤ y1 + 3 then boxInd (x1 + 1) (x1 + 1) (y1 + 1) (y1 + 1) x y
              else 0)
          + boxInd (x1 + 1) x2 (y2 + 1) (y2 + 1) x y
          - boxInd ((x1 + x2) / 2) ((x1 + x2) / 2) (y2 + 1) (y2 + 1) x y
          + boxInd (x2 + 1) (x2 + 1) (y1 + 1) y2 x y
          - boxInd (x2 + 1) (x2 + 1) ((y1 + y2) / 2) ((y1 + y2) / 2) x y)
        - 3 * (boxInd (x1 + 1) x2 (y1 + 1) y2 x y
          + boxInd (x1 + 1) x2 y1 y1 x y
          - boxInd ((x1 + x2) / 2) ((x1 + x2) / 2) y1 y1 x y
          + boxInd x1 x1 (y1 + 1) y2 x y
          - boxInd x1 x1 ((y1 + y2) / 2) ((y1 + y2) / 2) x y) := by
  have e1 : (y - 1) * dm.stride + x - 1 = (y - 1) * dm.stride + (x - 1) := by ring
  have e2 : y * dm.stride + x - 1 = y * dm.stride + (x - 1) := by ring
  have t1 := (merged_triangle hg x1 y1 x2 y2 hx1 (by omega) hx2 hy1 (by omega) hy2
    (x - 1) (y - 1) x (y - 1) (x - 1) y (by omega) (by omega) (by omega) (by omega)
    (by omega) (by omega)).trans (first_triangle_arith x1 y1 x2 y2 x y hx12 hy12)
  have t2 := (merged_triangle hg x1 y1 x2 y2 hx1 (by omega) hx2 hy1 (by omega) hy2
    x (y - 1) (x - 1) y x y (by omega) (by omega) (by omega) (by omega)
    (by omega) (by omega)).trans (second_triangle_arith x1 y1 x2 y2 x y hx12 hy12)
  rw [length_scanCell, e1, e2, if_congr t1 rfl rfl, if_congr t2 rfl rfl,
    first_triangle_count x1 y1 x2 y2 x y hx12 hy12,
    second_triangle_count x1 y1 x2 y2 x y hx12 hy12]
  ring

/-- The index list left by `Join` on a rectangle inside the grid without an
empty cell. -/
theorem join_indices (dm : State) (x1 y1 x2 y2 : Int)
    (hx1 : 0 ≤ x1) (hx12 : x1 ≤ x2) (hx2 : x2 < dm.stride)
    (hy12 : y1 ≤ y2) (hy2 : y2 < dm.height)
    (hcells : ∀ x y : Int, x1 ≤ x → x ≤ x2 → y1 ≤ y → y ≤ y2 →
      0 ≤ readAt dm.map (y * dm.stride + x)) :
    (Join dm x1 y1 x2 y2).1
      = joinCheck dm.indices.length (Join dm x1 y1 x2 y2).2.indices.length x1 y1 x2 y2 ∧
    (Join dm x1 y1 x2 y2).2.indices
      = (loopRange (1 + dm.lastMargin) (dm.stride - dm.lastMargin)).flatMap (fun x =>
          (loopRange (1 + dm.lastMargin) (dm.height - dm.lastMargin)).flatMap (fun y =>
            scanCell dm.stride (Join dm x1 y1 x2 y2).2.map dm.depth x y []))
        ++ (dm.rects ++ [Rect.mk (readAt dm.map (y1 * dm.stride + x1))
              (readAt dm.map (y1 * dm.stride + x2)) (readAt dm.map (y2 * dm.stride + x1))
              (readAt dm.map (y2 * dm.stride + x2))]).flatMap rectEntries := by
  rw [join_of_pre dm x1 y1 x2 y2 hx1 hx12 hx2 hy12 hy2 hcells]
  refine ⟨rfl, ?_⟩
  rw [makeSurface_indices]
  rfl

/-- The number of index entries left by `MakeSurface` on a flat grid without
quads and with an empty index list. -/
theorem length_makeSurface_flat {dm : State} {z : ℚ} (m : Int) (hg : FlatGrid dm z)
    (hr : dm.rects = []) (hi : dm.indices = []) (hm : 0 ≤ m)
    (hs : 0 ≤ dm.stride - 1 - 2 * m) (hh : 0 ≤ dm.height - 1 - 2 * m) :
    ((MakeSurface dm m).indices.length : Int)
        = 6 * (dm.stride - 1 - 2 * m) * (dm.height - 1 - 2 * m) := by
  rw [makeSurface_indices, hr, hi]
  simp only [List.nil_append, List.flatMap_nil, List.append_nil]
  rw [length_scan_sum]
  have e : ∀ x ∈ Finset.Ico (1 + m) (dm.stride - m), ∀ y ∈ Finset.Ico (1 + m) (dm.height - m),
      ((scanCell dm.stride dm.map dm.depth x y []).length : Int) = 6 := by
    intro x hx y hy
    rw [Finset.mem_Ico] at hx hy
    rw [length_scanCell_flat hg x y (by omega) (by omega) (by omega) (by omega)]
    rfl
  rw [Finset.sum_congr rfl (fun x hx => Finset.sum_congr rfl (e x hx))]
  simp only [Finset.sum_const, Int.card_Ico, smul_eq_mul, nsmul_eq_mul]
  have e1 : ((dm.stride - m - (1 + m)).toNat : Int) = dm.stride - 1 - 2 * m := by omega
  have e2 : ((dm.height - m - (1 + m)).toNat : Int) = dm.height - 1 - 2 * m := by omega
  rw [e1, e2]
  ring

/-- The number of index entries left by `Join` on a rectangle, at least three
cells wide and tall and strictly inside the scanned area, of a flat grid without
quads. -/
theorem length_join_flat {dm : State} {z : ℚ} (hg : FlatGrid dm z) (hr : dm.rects = [])
    (x1 y1 x2 y2 : Int) (hm : 0 ≤ dm.lastMargin)
    (hx1 : 1 + dm.lastMargin ≤ x1) (hx12 : x1 + 2 ≤ x2)
    (hx2 : x2 ≤ dm.stride - dm.lastMargin - 2)
    (hy1 : 1 + dm.lastMargin ≤ y1) (hy12 : y1 + 2 ≤ y2)
    (hy2 : y2 ≤ dm.height - dm.lastMargin - 2) :
    ((Join dm x1 y1 x2 y2).2.indices.length : Int)
      = 6 * (dm.stride - 1 - 2 * dm.lastMargin) * (dm.height - 1 - 2 * dm.lastMargin)
        - (6 * (x2 - x1 + 1) * (y2 - y1 + 1) - 24)
        + (if x2 ≤ x1 + 3 ∧ y2 ≤ y1 + 3 then 3 else 0) := by
  have hcells : ∀ x y : Int, x1 ≤ x → x ≤ x2 → y1 ≤ y → y ≤ y2 →
      0 ≤ readAt dm.map (y * dm.stride + x) := fun x y h1 h2 h3 h4 =>
    (hg.cell x y (by omega) (by omega) (by omega) (by omega)).1
  rw [(join_indices dm x1 y1 x2 y2 (by omega) (by omega) (by omega) (by omega) (by omega)
    hcells).2, hr]
  simp only [List.nil_append, List.length_append, List.flatMap_cons, List.flatMap_nil,
    List.append_nil, rectEntries, List.length_cons, List.length_nil]
  push_cast
  rw [length_scan_sum]
  have e : ∀ x ∈ Finset.Ico (1 + dm.lastMargin) (dm.stride - dm.lastMargin),
      ∀ y ∈ Finset.Ico (1 + dm.lastMargin) (dm.height - dm.lastMargin),
      ((scanCell dm.stride (Join dm x1 y1 x2 y2).2.map dm.depth x y []).length : Int)
      = 6 - 3 * (boxInd (x1 + 1) x2 (y1 + 1) y2 x y
          - (if x2 ≤ x1 + 3 ∧ y2 ≤ y1 + 3 then boxInd (x1 + 1) (x1 + 1) (y1 + 1) (y1 + 1) x y
              else 0)
          + boxInd (x1 + 1) x2 (y2 + 1) (y2 + 1) x y
          - boxInd ((x1 + x2) / 2) ((x1 + x2) / 2) (y2 + 1) (y2 + 1) x y
          + boxInd (x2 + 1) (x2 + 1) (y1 + 1) y2 x y
          - boxInd (x2 + 1) (x2 + 1) ((y1 + y2) / 2) ((y1 + y2) / 2) x y)
        - 3 * (boxInd (x1 + 1) x2 (y1 + 1) y2 x y
          + boxInd (x1 + 1) x2 y1 y1 x y
          - boxInd ((x1 + x2) / 2) ((x1 + x2) / 2) y1 y1 x y
          + boxInd x1 x1 (y1 + 1) y2 x y
          - boxInd x1 x1 ((y1 + y2) / 2) ((y1 + y2) / 2) x y) := by
    intro x hx y hy
    rw [Finset.mem_Ico] at hx hy
    exact length_scanCell_merged hg x1 y1 x2 y2 (by omega) hx12 (by omega) (by omega) hy12
      (by omega) x y (by omega) (by omega)
  rw [Finset.sum_congr rfl (fun x hx => Finset.sum_congr rfl (e x hx))]
  have box := fun p q r s h1 h2 h3 h4 h5 h6 =>
    sum_boxInd (1 + dm.lastMargin) (dm.stride - dm.lastMargin) (1 + dm.lastMargin)
      (dm.height - dm.lastMargin) p q r s h1 h2 h3 h4 h5 h6
  have e1 : ((dm.stride - dm.lastMargin - (1 + dm.lastMargin)).toNat : Int)
      = dm.stride - 1 - 2 * dm.lastMargin := by omega
  have e2 : ((dm.height - dm.lastMargin - (1 + dm.lastMargin)).toNat : Int)
      = dm.height - 1 - 2 * dm.lastMargin := by omega
  by_cases hsmall : x2 ≤ x1 + 3 ∧ y2 ≤ y1 + 3
  · simp only [if_pos hsmall, Finset.sum_sub_distrib, Finset.sum_add_distrib,
      ← Finset.mul_sum, Finset.sum_const, Int.card_Ico, smul_eq_mul, nsmul_eq_mul]
    rw [box (x1 + 1) x2 (y1 + 1) y2 (by omega) (by omega) (by omega) (by omega) (by omega)
        (by omega),
      box (x1 + 1) (x1 + 1) (y1 + 1) (y1 + 1) (by omega) (by omega) (by omega) (by omega)
        (by omega) (by omega),
      box (x1 + 1) x2 (y2 + 1) (y2 + 1) (by omega) (by omega) (by omega) (by omega) (by omega)
        (by omega),
      box ((x1 + x2) / 2) ((x1 + x2) / 2) (y2 + 1) (y2 + 1) (by omega) (by omega) (by omega)
        (by omega) (by omega) (by omega),
      box (x2 + 1) (x2 + 1) (y1 + 1) y2 (by omega) (by omega) (by omega) (by omega) (by omega)
        (by omega),
      box (x2 + 1) (x2 + 1) ((y1 + y2) / 2) ((y1 + y2) / 2) (by omega) (by omega) (by omega)
        (by omega) (by omega) (by omega),
      box (x1 + 1) x2 y1 y1 (by omega) (by omega) (by omega) (by omega) (by omega) (by omega),
      box ((x1 + x2) / 2) ((x1 + x2) / 2) y1 y1 (by omega) (by omega) (by omega) (by omega)
        (by omega) (by omega),
      box x1 x1 (y1 + 1) y2 (by omega) (by omega) (by omega) (by omega) (by omega) (by omega),
      box x1 x1 ((y1 + y2) / 2) ((y1 + y2) / 2) (by omega) (by omega) (by omega) (by omega)
        (by omega) (by omega), e1, e2]
    ring
  · simp only [if_neg hsmall, sub_zero, add_zero, Finset.sum_sub_distrib,
      Finset.sum_add_distrib, ← Finset.mul_sum, Finset.sum_const, Int.card_Ico, smul_eq_mul,
      nsmul_eq_mul]
    rw [box (x1 + 1) x2 (y1 + 1) y2 (by omega) (by omega) (by omega) (by omega) (by omega)
        (by omega),
      box (x1 + 1) x2 (y2 + 1) (y2 + 1) (by omega) (by omega) (by omega) (by omega) (by omega)
        (by omega),
      box ((x1 + x2) / 2) ((x1 + x2) / 2) (y2 + 1) (y2 + 1) (by omega) (by omega) (by omega)
        (by omega) (by omega) (by omega),
      box (x2 + 1) (x2 + 1) (y1 + 1) y2 (by omega) (by omega) (by omega) (by omega) (by omega)
        (by omega),
      box (x2 + 1) (x2 + 1) ((y1 + y2) / 2) ((y1 + y2) / 2) (by omega) (by omega) (by omega)
        (by omega) (by omega) (by omega),
      box (x1 + 1) x2 y1 y1 (by omega) (by omega) (by omega) (by omega) (by omega) (by omega),
      box ((x1 + x2) / 2) ((x1 + x2) / 2) y1 y1 (by omega) (by omega) (by omega) (by omega)
        (by omega) (by omega),
      box x1 x1 (y1 + 1) y2 (by omega) (by omega) (by omega) (by omega) (by omega) (by omega),
      box x1 x1 ((y1 + y2) / 2) ((y1 + y2) / 2) (by omega) (by omega) (by omega) (by omega)
        (by omega) (by omega), e1, e2]
    ring

/-- The grid `flatGrid` is a flat grid. -/
theorem flatGrid_flat (stride height : Nat) (z : ℚ) (hz : 0 < z) :
    FlatGrid (flatGrid stride height z) z := by
  refine ⟨?_, ?_, ?_, ?_, hz⟩
  · simp [flatGrid]
  · intro v hv
    simp only [flatGrid, List.mem_map, List.mem_range] at hv
    obtain ⟨i, _, rfl⟩ := hv
    omega
  · simp only [flatGrid]
    exact (List.nodup_range _).map (fun a b h => by simpa using h)
  · intro v hv
    simp only [flatGrid, List.mem_map, List.mem_range] at hv
    obtain ⟨i, hi, rfl⟩ := hv
    simp only [flatGrid, depthAt]
    rw [if_pos (by omega), List.getD_eq_getElem?_getD, List.getElem?_replicate]
    simp [hi]

set_option maxHeartbeats 4000000 in
/-- The cells whose ids the top-left inner window of a merged rectangle at most
four cells wide and tall reads. -/
theorem rep_corner (x1 y1 x2 y2 : Int) (hx12 : x1 + 2 ≤ x2) (hy12 : y1 + 2 ≤ y2)
    (hx : x2 ≤ x1 + 3) (hy : y2 ≤ y1 + 3) :
    (repX x1 y1 x2 y2 (x1 + 1 - 1) (y1 + 1 - 1) = x1
      ∧ repY x1 y1 x2 y2 (x1 + 1 - 1) (y1 + 1 - 1) = y1)
    ∧ (repX x1 y1 x2 y2 (x1 + 1) (y1 + 1 - 1) = x2
      ∧ repY x1 y1 x2 y2 (x1 + 1) (y1 + 1 - 1) = y1)
    ∧ (repX x1 y1 x2 y2 (x1 + 1 - 1) (y1 + 1) = x1
      ∧ repY x1 y1 x2 y2 (x1 + 1 - 1) (y1 + 1) = y2) := by
  unfold repX repY
  split_ifs <;> omega

/-- After the merge of a rectangle three or four cells wide and tall, the
top-left inner window pushes one triangle: the corner ids `c, b, a`. -/
theorem scanCell_merged_corner {dm : State} {z : ℚ} (hg : FlatGrid dm z) (x1 y1 x2 y2 : Int)
    (hx1 : 0 ≤ x1) (hx12 : x1 + 2 ≤ x2) (hx2 : x2 < dm.stride)
    (hy1 : 0 ≤ y1) (hy12 : y1 + 2 ≤ y2) (hy2 : y2 < dm.height)
    (hx : x2 ≤ x1 + 3) (hy : y2 ≤ y1 + 3) :
    scanCell dm.stride (Join dm x1 y1 x2 y2).2.map dm.depth (x1 + 1) (y1 + 1) []
      = [readAt dm.map (y2 * dm.stride + x1), readAt dm.map (y1 * dm.stride + x2),
          readAt dm.map (y1 * dm.stride + x1)] := by
  have e1 : (y1 + 1 - 1) * dm.stride + (x1 + 1) - 1
      = (y1 + 1 - 1) * dm.stride + (x1 + 1 - 1) := by ring
  have e2 : (y1 + 1) * dm.stride + (x1 + 1) - 1 = (y1 + 1) * dm.stride + (x1 + 1 - 1) := by
    ring
  have t1 := (merged_triangle hg x1 y1 x2 y2 hx1 (by omega) hx2 hy1 (by omega) hy2
    (x1 + 1 - 1) (y1 + 1 - 1) (x1 + 1) (y1 + 1 - 1) (x1 + 1 - 1) (y1 + 1) (by omega) (by omega)
    (by omega) (by omega) (by omega) (by omega)).trans
    (first_triangle_arith x1 y1 x2 y2 (x1 + 1) (y1 + 1) hx12 hy12)
  have t2 := (merged_triangle hg x1 y1 x2 y2 hx1 (by omega) hx2 hy1 (by omega) hy2
    (x1 + 1) (y1 + 1 - 1) (x1 + 1 - 1) (y1 + 1) (x1 + 1) (y1 + 1) (by omega) (by omega)
    (by omega) (by omega) (by omega) (by omega)).trans
    (second_triangle_arith x1 y1 x2 y2 (x1 + 1) (y1 + 1) hx12 hy12)
  have s1 := t1.mpr (by omega)
  have s2 : ¬ _ := fun h => t2.mp h (by omega)
  obtain ⟨⟨ax, ay⟩, ⟨bx, byy⟩, ⟨cx, cy⟩⟩ := rep_corner x1 y1 x2 y2 hx12 hy12 hx hy
  have rA := (merged_cell hg x1 y1 x2 y2 hx1 (by omega) hx2 hy1 (by omega) hy2
    (x1 + 1 - 1) (y1 + 1 - 1) (by omega) (by omega)).2.1 (by unfold cellInner; omega)
  have rB := (merged_cell hg x1 y1 x2 y2 hx1 (by omega) hx2 hy1 (by omega) hy2
    (x1 + 1) (y1 + 1 - 1) (by omega) (by omega)).2.1 (by unfold cellInner; omega)
  have rC := (merged_cell hg x1 y1 x2 y2 hx1 (by omega) hx2 hy1 (by omega) hy2
    (x1 + 1 - 1) (y1 + 1) (by omega) (by omega)).2.1 (by unfold cellInner; omega)
  rw [ax, ay] at rA
  rw [bx, byy] at rB
  rw [cx, cy] at rC
  rw [scanCell_eq_specWindow]
  unfold specWindow
  rw [e1, e2, if_pos s1, if_neg s2, rA, rB, rC]
  rfl

/-- With the exact validator: on a fully populated grid of pairwise distinct ids
with one positive depth, no quads and `indices` built by `MakeSurface(m)`,
`m ≥ 0`, for a rectangle strictly inside the scanned area with `w ≥ 3` and
`h ≥ 3`, `Join` returns true exactly when `w ≥ 5` or `h ≥ 5`; the index count
after the call is the count before it minus `6*w*h - 24`, plus three when both
`w` and `h` are at most four; and in that case the top-left inner window pushes
the triangle `(c, b, a)` of the corner ids and `Join` returns false. -/
theorem join_clean_grid_exact (dm0 : State) (z : ℚ) (m x1 y1 x2 y2 : Int)
    (hg : FlatGrid dm0 z) (hr : dm0.rects = []) (hi : dm0.indices = []) (hm : 0 ≤ m)
    (hx1 : 1 + m ≤ x1) (hx2 : x2 ≤ dm0.stride - m - 2)
    (hy1 : 1 + m ≤ y1) (hy2 : y2 ≤ dm0.height - m - 2)
    (hw : 3 ≤ x2 - x1 + 1) (hh : 3 ≤ y2 - y1 + 1)
    (hsize : 6 * (dm0.stride * dm0.height) < 2 ^ 31) :
    ((Join (MakeSurface dm0 m) x1 y1 x2 y2).1 = true
      ↔ (5 ≤ x2 - x1 + 1 ∨ 5 ≤ y2 - y1 + 1)) ∧
    ((Join (MakeSurface dm0 m) x1 y1 x2 y2).2.indices.length : Int)
      = ((MakeSurface dm0 m).indices.length : Int) - (6 * (x2 - x1 + 1) * (y2 - y1 + 1) - 24)
        + (if x2 - x1 + 1 ≤ 4 ∧ y2 - y1 + 1 ≤ 4 then 3 else 0) ∧
    (x2 - x1 + 1 ≤ 4 → y2 - y1 + 1 ≤ 4 →
      (Join (MakeSurface dm0 m) x1 y1 x2 y2).1 = false ∧
      scanCell dm0.stride (Join (MakeSurface dm0 m) x1 y1 x2 y2).2.map dm0.depth
          (x1 + 1) (y1 + 1) []
        = [readAt dm0.map (y2 * dm0.stride + x1), readAt dm0.map (y1 * dm0.stride + x2),
            readAt dm0.map (y1 * dm0.stride + x1)]) := by
  have hgd : FlatGrid (MakeSurface dm0 m) z :=
    ⟨hg.length_map, hg.populated, hg.distinct, hg.depth_eq, hg.depth_pos⟩
  have hbefore : ((MakeSurface dm0 m).indices.length : Int)
      = 6 * (dm0.stride - 1 - 2 * m) * (dm0.height - 1 - 2 * m) :=
    length_makeSurface_flat m hg hr hi hm (by omega) (by omega)
  have hafter : ((Join (MakeSurface dm0 m) x1 y1 x2 y2).2.indices.length : Int)
      = 6 * (dm0.stride - 1 - 2 * m) * (dm0.height - 1 - 2 * m)
        - (6 * (x2 - x1 + 1) * (y2 - y1 + 1) - 24)
        + (if x2 ≤ x1 + 3 ∧ y2 ≤ y1 + 3 then 3 else 0) :=
    length_join_flat hgd hr x1 y1 x2 y2 hm hx1 (by omega) hx2 hy1 (by omega) hy2
  have hcells : ∀ x y : Int, x1 ≤ x → x ≤ x2 → y1 ≤ y → y ≤ y2 →
      0 ≤ readAt (MakeSurface dm0 m).map (y * (MakeSurface dm0 m).stride + x) :=
    fun x y h1 h2 h3 h4 =>
      (hgd.cell x y (by omega) (show x < dm0.stride by omega) (by omega)
        (show y < dm0.height by omega)).1
  have hflag := (join_indices (MakeSurface dm0 m) x1 y1 x2 y2 (by omega) (by omega)
    (show x2 < dm0.stride by omega) (by omega) (show y2 < dm0.height by omega) hcells).1
  have hwh : 0 ≤ (x2 - x1 + 1) * (y2 - y1 + 1) := mul_nonneg (by omega) (by omega)
  have hnn : 0 ≤ (dm0.stride - 1 - 2 * m) * (dm0.height - 1 - 2 * m) :=
    mul_nonneg (by omega) (by omega)
  have hle : (dm0.stride - 1 - 2 * m) * (dm0.height - 1 - 2 * m)
      ≤ dm0.stride * dm0.height := by
    have h1 : 0 ≤ (1 + 2 * m) * (dm0.height - 1 - 2 * m) := mul_nonneg (by omega) (by omega)
    have h2 : 0 ≤ dm0.stride * (1 + 2 * m) := mul_nonneg (by omega) (by omega)
    nlinarith
  have hite : (if x2 ≤ x1 + 3 ∧ y2 ≤ y1 + 3 then (3 : Int) else 0)
      = (if x2 - x1 + 1 ≤ 4 ∧ y2 - y1 + 1 ≤ 4 then 3 else 0) :=
    if_congr (by omega) rfl rfl
  have hiff : (Join (MakeSurface dm0 m) x1 y1 x2 y2).1 = true
      ↔ (5 ≤ x2 - x1 + 1 ∨ 5 ≤ y2 - y1 + 1) := by
    have hwle : (x2 - x1 + 1) * (y2 - y1 + 1) ≤ dm0.stride * dm0.height := by
      have h1 : 0 ≤ (dm0.stride - (x2 - x1 + 1)) * (y2 - y1 + 1) :=
        mul_nonneg (by omega) (by omega)
      have h2 : 0 ≤ dm0.stride * (dm0.height - (y2 - y1 + 1)) :=
        mul_nonneg (by omega) (by omega)
      nlinarith
    rw [hflag, joinCheck_iff _ _ x1 y1 x2 y2
      (by rw [hbefore]; norm_num at hsize ⊢; linarith) hwh
      (by norm_num at hsize ⊢; linarith)
      (by
        rw [hafter]
        norm_num at hsize ⊢
        split_ifs <;> linarith),
      hbefore, hafter]
    by_cases hsmall : x2 ≤ x1 + 3 ∧ y2 ≤ y1 + 3
    · rw [if_pos hsmall]
      constructor
      · intro h
        linarith
      · intro h
        omega
    · rw [if_neg hsmall]
      constructor
      · intro _
        omega
      · intro _
        ring
  refine ⟨hiff, ?_, fun h1 h2 => ⟨?_, ?_⟩⟩
  · rw [hafter, hbefore, hite]
  · rw [Bool.eq_false_iff]
    intro h
    have := hiff.mp h
    omega
  · exact scanCell_merged_corner hgd x1 y1 x2 y2 (by omega) (by omega)
      (show x2 < dm0.stride by omega) (by omega) (by omega) (show y2 < dm0.height by omega)
      (by omega) (by omega)

/-! ## Binary32 rounding -/

theorem expFrom_spec (m : ℚ) (k : Nat) :
    expFrom m k = -126 ∨ (2 : ℚ) ^ (expFrom m k) ≤ m := by
  induction k with
  | zero => exact Or.inl rfl
  | succ k ih =>
    unfold expFrom
    by_cases h : (2 : ℚ) ^ ((k : Int) - 125) ≤ m
    · rw [if_pos h]
      exact Or.inr h
    · rw [if_neg h]
      exact ih

theorem roundEven_zero : roundEven 0 = 0 := by
  unfold roundEven
  simp

theorem roundMag_zero : roundMag 0 = 0 := by
  unfold roundMag
  rw [zero_div, roundEven_zero]
  simp

theorem floor_le_roundEven (r : ℚ) : ⌊r⌋ ≤ roundEven r := by
  unfold roundEven
  split_ifs <;> omega

theorem roundEven_pos (r : ℚ) (h : 1 / 2 < r) : 1 ≤ roundEven r := by
  have h0 : 0 ≤ ⌊r⌋ := Int.floor_nonneg.mpr (by linarith)
  unfold roundEven
  split_ifs with h1 h2 h3
  · have : (0 : ℚ) < (⌊r⌋ : ℚ) := by linarith
    have : (0 : Int) < ⌊r⌋ := by exact_mod_cast this
    omega
  · omega
  · have h4 : r - (⌊r⌋ : ℚ) = 1 / 2 := le_antisymm (not_lt.mp h2) (not_lt.mp h1)
    have : (0 : ℚ) < (⌊r⌋ : ℚ) := by linarith
    have : (0 : Int) < ⌊r⌋ := by exact_mod_cast this
    omega
  · omega

theorem half_le_roundEven (r : ℚ) (h : 1 ≤ r) : r / 2 ≤ (roundEven r : ℚ) := by
  have h1 : (1 : Int) ≤ ⌊r⌋ := Int.le_floor.mpr (by exact_mod_cast h)
  have h2 : r < (⌊r⌋ : ℚ) + 1 := Int.lt_floor_add_one r
  have h3 : ((1 : Int) : ℚ) ≤ (⌊r⌋ : ℚ) := by exact_mod_cast h1
  have h4 : (⌊r⌋ : ℚ) ≤ (roundEven r : ℚ) := by exact_mod_cast floor_le_roundEven r
  push_cast at h3
  by_cases h5 : r ≤ 2
  · linarith
  · linarith

/-- The unit in the last place used for `m`: a positive power of two, `2^-149` or
at most `m / 2^23`. -/
theorem ulp_spec (m : ℚ) :
    0 < (2 : ℚ) ^ (expFrom m 253 - 23) ∧
    ((2 : ℚ) ^ (expFrom m 253 - 23) = 2 ^ (-149 : Int)
      ∨ (2 : ℚ) ^ (expFrom m 253 - 23) * 2 ^ (23 : Int) ≤ m) := by
  refine ⟨zpow_pos (by norm_num) _, ?_⟩
  rcases expFrom_spec m 253 with h | h
  · left
    rw [h]
    norm_num
  · right
    rw [← zpow_add₀ (by norm_num : (2 : ℚ) ≠ 0)]
    simpa using h

theorem roundMag_pos (m : ℚ) (hm : 2 ^ (-150 : Int) < m) : 0 < roundMag m := by
  obtain ⟨hu, hc⟩ := ulp_spec m
  unfold roundMag
  have hr : 1 / 2 < m / (2 : ℚ) ^ (expFrom m 253 - 23) := by
    rw [lt_div_iff₀ hu]
    rcases hc with hc | hc
    · rw [hc]
      norm_num at hm ⊢
      linarith
    · norm_num at hc
      linarith
  have h1 : ((1 : Int) : ℚ) ≤ (roundEven (m / (2 : ℚ) ^ (expFrom m 253 - 23)) : ℚ) := by
    exact_mod_cast roundEven_pos _ hr
  push_cast at h1
  exact mul_pos (by linarith) hu

theorem half_le_roundMag (m : ℚ) (hm : 2 ^ (-149 : Int) ≤ m) : m / 2 ≤ roundMag m := by
  obtain ⟨hu, hc⟩ := ulp_spec m
  unfold roundMag
  have hr : 1 ≤ m / (2 : ℚ) ^ (expFrom m 253 - 23) := by
    rw [le_div_iff₀ hu]
    rcases hc with hc | hc
    · rw [hc]
      linarith
    · norm_num at hc
      linarith
  have h1 := half_le_roundEven _ hr
  have h2 : m / 2 = m / (2 : ℚ) ^ (expFrom m 253 - 23) / 2 * (2 : ℚ) ^ (expFrom m 253 - 23) := by
    field_simp
    ring
  rw [h2]
  exact mul_le_mul_of_nonneg_right h1 hu.le

theorem round32_of_pos (q : ℚ) (hq : 0 < q) :
    round32 q = if roundMag q < (2 : ℚ) ^ (128 : Int) then F32.fin (roundMag q)
      else F32.inf false := by
  unfold round32
  rw [abs_of_pos hq, if_neg (not_lt.mpr hq.le)]
  simp [not_lt.mpr hq.le]

/-- Rounding a number of at least `2^-149` gives at least half of it. -/
theorem round32_atLeast (q l : ℚ) (hq : 2 ^ (-149 : Int) ≤ q) (hl : l ≤ q / 2) :
    round32 q = F32.inf false ∨ ∃ r, round32 q = F32.fin r ∧ l ≤ r := by
  have h0 : (0 : ℚ) < 2 ^ (-149 : Int) := zpow_pos (by norm_num) _
  rw [round32_of_pos q (by linarith)]
  split_ifs
  · exact Or.inr ⟨_, rfl, le_trans hl (half_le_roundMag q hq)⟩
  · exact Or.inl rfl

/-- Rounding a number above `2^-150` gives a positive number. -/
theorem round32_pos (q : ℚ) (hq : 2 ^ (-150 : Int) < q) :
    F32.lt (F32.fin 0) (round32 q) = true := by
  have h0 : (0 : ℚ) < 2 ^ (-150 : Int) := zpow_pos (by norm_num) _
  rw [round32_of_pos q (by linarith)]
  split_ifs
  · simp only [F32.lt, decide_eq_true_eq]
    exact roundMag_pos q hq
  · rfl

theorem round32_zero : round32 0 = F32.fin 0 := by
  unfold round32
  rw [abs_zero, roundMag_zero]
  norm_num

/-- The literal `0.075f`. -/
theorem aspect32_eq : round32 (75 / 1000) = F32.fin (5033165 / 67108864) := by decide!

/-- Three vertices of one depth `z ≥ 2^-143` pass the binary32 test of lines 177-181. -/
theorem flat_passes (z : ℚ) (hz : 2 ^ (-143 : Int) ≤ z) :
    F32.lt (F32.abs (F32.sub (F32.fin z) (F32.fin z)))
      (F32.div (F32.mul (round32 (75 / 1000))
        (F32.add (F32.add (F32.fin z) (F32.fin z)) (F32.fin z))) (F32.fin 3)) = true := by
  have hz0 : (0 : ℚ) < z := lt_of_lt_of_le (zpow_pos (by norm_num) _) hz
  have hlen : F32.abs (F32.sub (F32.fin z) (F32.fin z)) = F32.fin 0 := by
    simp only [F32.sub, F32.neg, F32.add, add_neg_cancel, round32_zero, F32.abs, abs_zero]
  rw [hlen, aspect32_eq]
  norm_num at hz
  -- the sum
  have hs2 : F32.add (F32.add (F32.fin z) (F32.fin z)) (F32.fin z) = F32.inf false
      ∨ ∃ r, F32.add (F32.add (F32.fin z) (F32.fin z)) (F32.fin z) = F32.fin r ∧ z ≤ r := by
    have hs1 : F32.add (F32.fin z) (F32.fin z) = F32.inf false
        ∨ ∃ r, F32.add (F32.fin z) (F32.fin z) = F32.fin r ∧ z ≤ r :=
      round32_atLeast (z + z) z (by norm_num; linarith) (by linarith)
    rcases hs1 with h | ⟨r, h, hr⟩
    · rw [h]
      exact Or.inl rfl
    · rw [h]
      exact round32_atLeast (r + z) z (by norm_num; linarith) (by linarith)
  -- the product
  have hp : F32.mul (F32.fin (5033165 / 67108864))
        (F32.add (F32.add (F32.fin z) (F32.fin z)) (F32.fin z)) = F32.inf false
      ∨ ∃ r, F32.mul (F32.fin (5033165 / 67108864))
        (F32.add (F32.add (F32.fin z) (F32.fin z)) (F32.fin z)) = F32.fin r ∧ z / 32 ≤ r := by
    rcases hs2 with h | ⟨r, h, hr⟩
    · rw [h]
      left
      simp only [F32.mul]
      rw [if_neg (by norm_num)]
      simp
      norm_num
    · rw [h]
      exact round32_atLeast (5033165 / 67108864 * r) (z / 32) (by norm_num; linarith)
        (by linarith)
  rcases hp with h | ⟨r, h, hr⟩
  · rw [h]
    simp [F32.div, F32.lt]
  · rw [h]
    simp only [F32.div]
    rw [if_neg (by norm_num)]
    exact round32_pos (r / 3) (by norm_num; linarith)

/-- Rounding is odd: the nearest binary32 number of `-q` is minus that of `q`. -/
theorem round32_neg (q : ℚ) : round32 (-q) = F32.neg (round32 q) := by
  unfold round32
  rw [abs_neg]
  rcases lt_trichotomy q 0 with h | h | h
  · have h1 : ¬ (-q < 0) := by linarith
    split_ifs <;> simp [F32.neg, h, h1]
  · subst h
    simp only [abs_zero, roundMag_zero, neg_zero, lt_irrefl, if_false]
    rw [if_pos (by norm_num)]
    simp [F32.neg]
  · have h1 : -q < 0 := by linarith
    have h2 : ¬ (q < 0) := by linarith
    split_ifs <;> simp [F32.neg, h1, h2]

theorem f32_add_comm (x y : F32) : F32.add x y = F32.add y x := by
  cases x with
  | fin p =>
    cases y with
    | fin q =>
      simp only [F32.add]
      rw [add_comm]
    | inf t => rfl
    | nan => rfl
  | inf s =>
    cases y with
    | fin q => rfl
    | inf t =>
      simp only [F32.add]
      by_cases h : s = t
      · subst h
        rfl
      · rw [if_neg h, if_neg (fun h1 => h h1.symm)]
    | nan => rfl
  | nan =>
    cases y with
    | fin q => rfl
    | inf t => rfl
    | nan => rfl

theorem f32_abs_neg (x : F32) : F32.abs (F32.neg x) = F32.abs x := by
  cases x <;> simp [F32.abs, F32.neg]

theorem f32_neg_add (x y : F32) : F32.neg (F32.add x y) = F32.add (F32.neg x) (F32.neg y) := by
  cases x with
  | fin p =>
    cases y with
    | fin q =>
      show F32.neg (round32 (p + q)) = round32 (-p + -q)
      rw [← round32_neg]
      congr 1
      ring
    | inf t => rfl
    | nan => rfl
  | inf s =>
    cases y with
    | fin q => rfl
    | inf t => cases s <;> cases t <;> rfl
    | nan => rfl
  | nan =>
    cases y with
    | fin q => rfl
    | inf t => rfl
    | nan => rfl

theorem f32_neg_neg (x : F32) : F32.neg (F32.neg x) = x := by
  cases x <;> simp [F32.neg]

/-- `fabs(x - y)` and `fabs(y - x)` are the same binary32 number. -/
theorem f32_abs_sub_comm (x y : F32) : F32.abs (F32.sub x y) = F32.abs (F32.sub y x) := by
  have h : F32.sub y x = F32.neg (F32.sub x y) := by
    unfold F32.sub
    rw [f32_neg_add, f32_neg_neg, f32_add_comm]
  rw [h, f32_abs_neg]

/-- The binary32 validator gives the same answer when its last two arguments are
exchanged. -/
theorem isSurface32_swap23 (depth : List F32) (a b c : Int) :
    IsSurface32 depth a b c = IsSurface32 depth a c b := by
  unfold IsSurface32
  simp only []
  by_cases hg : 0 ≤ a ∧ 0 ≤ b ∧ 0 ≤ c ∧ a ≠ b ∧ b ≠ c ∧ c ≠ a
  · have hg2 : 0 ≤ a ∧ 0 ≤ c ∧ 0 ≤ b ∧ a ≠ c ∧ c ≠ b ∧ b ≠ a :=
      ⟨hg.1, hg.2.2.1, hg.2.1, fun h => hg.2.2.2.2.2 h.symm, fun h => hg.2.2.2.2.1 h.symm,
        fun h => hg.2.2.2.1 h.symm⟩
    rw [if_pos hg, if_pos hg2, f32_add_comm (f32At depth c) (f32At depth b),
      f32_abs_sub_comm (f32At depth c) (f32At depth b)]
    by_cases h1 : (F32.abs (F32.sub (f32At depth a) (f32At depth b))).lt
        (F32.div (F32.mul (round32 (75 / 1000))
          (F32.add (F32.add (f32At depth b) (f32At depth c)) (f32At depth a))) (F32.fin 3)) = true
      <;> by_cases h2 : (F32.abs (F32.sub (f32At depth a) (f32At depth c))).lt
        (F32.div (F32.mul (round32 (75 / 1000))
          (F32.add (F32.add (f32At depth b) (f32At depth c)) (f32At depth a))) (F32.fin 3)) = true
      <;> simp [h1, h2]
  · have hg2 : ¬ (0 ≤ a ∧ 0 ≤ c ∧ 0 ≤ b ∧ a ≠ c ∧ c ≠ b ∧ b ≠ a) := fun h =>
      hg ⟨h.1, h.2.2.1, h.2.1, fun e => h.2.2.2.2.2 e.symm, fun e => h.2.2.2.2.1 e.symm,
        fun e => h.2.2.2.1 e.symm⟩
    rw [if_neg hg, if_neg hg2]

/-! ## The binary32 validator on a flat grid -/

theorem f32At_depth32 (depth : List ℚ) (i : Int) :
    f32At (depth32 depth) i = F32.fin (depthAt depth i) := by
  unfold f32At depth32 depthAt
  by_cases h : 0 ≤ i
  · rw [if_pos h, if_pos h]
    simp only [List.getD_eq_getElem?_getD, List.getElem?_map]
    cases depth[i.toNat]? <;> rfl
  · rw [if_neg h, if_neg h]

/-- On a flat grid of depth `z ≥ 2^-143` the binary32 validator and the exact one
give the same answer on ids that are empty or in the map. -/
theorem isSurface32_flat {dm : State} {z : ℚ} (hg : FlatGrid dm z)
    (hz : (2 : ℚ) ^ (-143 : Int) ≤ z) (a b c : Int)
    (ha : 0 ≤ a → a ∈ dm.map) (hb : 0 ≤ b → b ∈ dm.map) (hc : 0 ≤ c → c ∈ dm.map) :
    IsSurface32 (depth32 dm.depth) a b c = IsSurface dm.depth a b c := by
  by_cases hgd : 0 ≤ a ∧ 0 ≤ b ∧ 0 ≤ c ∧ a ≠ b ∧ b ≠ c ∧ c ≠ a
  · obtain ⟨h1, h2, h3, h4, h5, h6⟩ := hgd
    have da := hg.depth_eq a (ha h1)
    have db := hg.depth_eq b (hb h2)
    have dc := hg.depth_eq c (hc h3)
    rw [isSurface_of_flat dm.depth z hg.depth_pos a b c h1 h2 h3 h4 h5 h6 da db dc]
    unfold IsSurface32
    simp only []
    rw [if_pos ⟨h1, h2, h3, h4, h5, h6⟩]
    simp only [f32At_depth32, da, db, dc, flat_passes z hz, and_self, if_true]
  · unfold IsSurface32 IsSurface
    simp only []
    rw [if_neg hgd, if_neg hgd]

theorem scanCell32_eq (stride : Int) (map : List Int) (depth : List ℚ)
    (h : ∀ a b c : Int, (0 ≤ a → a ∈ map) → (0 ≤ b → b ∈ map) → (0 ≤ c → c ∈ map) →
      IsSurface32 (depth32 depth) a b c = IsSurface depth a b c)
    (x y : Int) (acc : List Int) :
    scanCell32 stride map depth x y acc = scanCell stride map depth x y acc := by
  unfold scanCell32 scanCell
  simp only []
  rw [h _ _ _ (readAt_nonneg_mem _ _) (readAt_nonneg_mem _ _) (readAt_nonneg_mem _ _),
    h _ _ _ (readAt_nonneg_mem _ _) (readAt_nonneg_mem _ _) (readAt_nonneg_mem _ _)]

/-- Where the two validators agree on the ids of the map, the mesh builder with
the binary32 validator is the mesh builder with the exact one. -/
theorem makeSurface32_eq (dm : State) (m : Int)
    (h : ∀ a b c : Int, (0 ≤ a → a ∈ dm.map) → (0 ≤ b → b ∈ dm.map) → (0 ≤ c → c ∈ dm.map) →
      IsSurface32 (depth32 dm.depth) a b c = IsSurface dm.depth a b c) :
    MakeSurface32 dm m = MakeSurface dm m := by
  have e : ∀ x y acc, scanCell32 dm.stride dm.map dm.depth x y acc
      = scanCell dm.stride dm.map dm.depth x y acc := scanCell32_eq dm.stride dm.map dm.depth h
  unfold MakeSurface32 MakeSurface scanGrid32 scanGrid scanColumn32 scanColumn
  simp only [e]

/-- Where the two validators agree on the ids of the map, `Join` with the
binary32 validator is `Join` with the exact one. -/
theorem join32_eq (dm : State) (x1 y1 x2 y2 : Int)
    (h : ∀ a b c : Int, (0 ≤ a → a ∈ dm.map) → (0 ≤ b → b ∈ dm.map) → (0 ≤ c → c ∈ dm.map) →
      IsSurface32 (depth32 dm.depth) a b c = IsSurface dm.depth a b c) :
    Join32 dm x1 y1 x2 y2 = Join dm x1 y1 x2 y2 := by
  unfold Join32 Join
  by_cases h1 : x2 ≥ dm.stride
  · rw [if_pos h1, if_pos h1]
  rw [if_neg h1, if_neg h1]
  by_cases h2 : y2 ≥ dm.height
  · rw [if_pos h2, if_pos h2]
  rw [if_neg h2, if_neg h2]
  simp only []
  by_cases h3 : readAt dm.map (y1 * dm.stride + x1) < 0
      ∨ readAt dm.map (y1 * dm.stride + x2) < 0
      ∨ readAt dm.map (y2 * dm.stride + x1) < 0
      ∨ readAt dm.map (y2 * dm.stride + x2) < 0
  · rw [if_pos h3, if_pos h3]
  rw [if_neg h3, if_neg h3]
  have ha : 0 ≤ readAt dm.map (y1 * dm.stride + x1) := by omega
  have hb : 0 ≤ readAt dm.map (y1 * dm.stride + x2) := by omega
  have hc : 0 ≤ readAt dm.map (y2 * dm.stride + x1) := by omega
  have hd : 0 ≤ readAt dm.map (y2 * dm.stride + x2) := by omega
  have hmem := joinClear_mem dm.stride (loopRange y1 (y2 + 1)) (loopRange x1 (x2 + 1)) dm.map
  rcases hcl : joinClear dm.stride (loopRange y1 (y2 + 1)) (loopRange x1 (x2 + 1)) dm.map
    with ⟨ok, map1⟩
  rw [hcl] at hmem
  cases ok with
  | false => rfl
  | true =>
    simp only []
    have hin : ∀ v : Int, 0 ≤ v →
        v ∈ (joinOverwrite dm x1 y1 x2 y2 (readAt dm.map (y1 * dm.stride + x1))
          (readAt dm.map (y1 * dm.stride + x2)) (readAt dm.map (y2 * dm.stride + x1))
          (readAt dm.map (y2 * dm.stride + x2)) map1).map → v ∈ dm.map := by
      intro v h0 hv
      simp only [joinOverwrite] at hv
      rcases joinColumns_mem _ _ _ _ _ _ _ _ _ _ v hv with hv | rfl | rfl | rfl | rfl
      · rcases joinRows_mem _ _ _ _ _ _ _ _ _ _ v hv with hv | rfl | rfl | rfl | rfl
        · rcases hmem v hv with hv | rfl
          · exact hv
          · omega
        · exact readAt_nonneg_mem _ _ ha
        · exact readAt_nonneg_mem _ _ hb
        · exact readAt_nonneg_mem _ _ hc
        · exact readAt_nonneg_mem _ _ hd
      · exact readAt_nonneg_mem _ _ ha
      · exact readAt_nonneg_mem _ _ hb
      · exact readAt_nonneg_mem _ _ hc
      · exact readAt_nonneg_mem _ _ hd
    have e := makeSurface32_eq (joinOverwrite dm x1 y1 x2 y2
      (readAt dm.map (y1 * dm.stride + x1)) (readAt dm.map (y1 * dm.stride + x2))
      (readAt dm.map (y2 * dm.stride + x1)) (readAt dm.map (y2 * dm.stride + x2)) map1)
      (joinOverwrite dm x1 y1 x2 y2
      (readAt dm.map (y1 * dm.stride + x1)) (readAt dm.map (y1 * dm.stride + x2))
      (readAt dm.map (y2 * dm.stride + x1)) (readAt dm.map (y2 * dm.stride + x2))
      map1).lastMargin
      (fun a b c pa pb pc =>
        h a b c (fun h0 => hin a h0 (pa h0)) (fun h0 => hin b h0 (pb h0))
          (fun h0 => hin c h0 (pc h0)))
    rw [e]

/-! ## The mesh builder and the merge with the binary32 validator -/

theorem scanCell32_append (stride : Int) (map : List Int) (depth : List ℚ) (x y : Int)
    (acc : List Int) :
    scanCell32 stride map depth x y acc = acc ++ scanCell32 stride map depth x y [] := by
  unfold scanCell32
  simp only []
  split_ifs <;> simp

theorem scanColumn32_append (stride : Int) (map : List Int) (depth : List ℚ) (ys : List Int)
    (x : Int) (acc : List Int) :
    scanColumn32 stride map depth ys x acc
      = acc ++ ys.flatMap (fun y => scanCell32 stride map depth x y []) := by
  unfold scanColumn32
  induction ys generalizing acc with
  | nil => simp
  | cons y ys ih =>
    rw [List.foldl_cons, ih, scanCell32_append]
    simp [List.append_assoc]

theorem scanGrid32_append (stride : Int) (map : List Int) (depth : List ℚ) (xs ys : List Int)
    (acc : List Int) :
    scanGrid32 stride map depth xs ys acc
      = acc ++ xs.flatMap (fun x => ys.flatMap (fun y => scanCell32 stride map depth x y [])) := by
  unfold scanGrid32
  induction xs generalizing acc with
  | nil => simp
  | cons x xs ih =>
    rw [List.foldl_cons, ih, scanColumn32_append]
    simp [List.append_assoc]

/-- The index list left by `MakeSurface32`: the old entries, the scan, the quads. -/
theorem makeSurface32_indices (dm : State) (m : Int) :
    (MakeSurface32 dm m).indices
      = dm.indices
        ++ (loopRange (1 + m) (dm.stride - m)).flatMap (fun x =>
            (loopRange (1 + m) (dm.height - m)).flatMap (fun y =>
              scanCell32 dm.stride dm.map dm.depth x y []))
        ++ dm.rects.flatMap rectEntries := by
  simp only [MakeSurface32, emitRects_append, scanGrid32_append]

theorem length_scanCell32_le (stride : Int) (map : List Int) (depth : List ℚ) (x y : Int) :
    (scanCell32 stride map depth x y []).length ≤ 6 := by
  unfold scanCell32
  simp only []
  split_ifs <;> simp

/-- The number of entries left by `MakeSurface32` with a margin `m ≥ 0`. -/
theorem length_makeSurface32_le (dm : State) (m : Int) (hm : 0 ≤ m) (hs : 0 ≤ dm.stride)
    (hh : 0 ≤ dm.height) :
    ((MakeSurface32 dm m).indices.length : Int)
      ≤ dm.indices.length + 6 * (dm.stride * dm.height) + 6 * dm.rects.length := by
  rw [makeSurface32_indices]
  simp only [List.length_append]
  have hcol : ∀ x ∈ loopRange (1 + m) (dm.stride - m),
      ((loopRange (1 + m) (dm.height - m)).flatMap (fun y =>
        scanCell32 dm.stride dm.map dm.depth x y [])).length
        ≤ 6 * (loopRange (1 + m) (dm.height - m)).length := fun x _ =>
    length_flatMap_le _ _ 6 (fun y _ => length_scanCell32_le _ _ _ _ _)
  have h1 := length_flatMap_le _ _ _ hcol
  have h2 := length_flatMap_const dm.rects rectEntries 6 (fun r _ => rfl)
  rw [h2]
  rw [length_loopRange, length_loopRange] at h1
  have hx : ((dm.stride - m - (1 + m)).toNat : Int) ≤ dm.stride := by omega
  have hy : ((dm.height - m - (1 + m)).toNat : Int) ≤ dm.height := by omega
  have hx0 : (0 : Int) ≤ ((dm.stride - m - (1 + m)).toNat : Int) := Int.ofNat_nonneg _
  have hy0 : (0 : Int) ≤ ((dm.height - m - (1 + m)).toNat : Int) := Int.ofNat_nonneg _
  have h3 : ((dm.height - m - (1 + m)).toNat : Int) * ((dm.stride - m - (1 + m)).toNat : Int)
      ≤ dm.stride * dm.height := by nlinarith
  have h4 : (((loopRange (1 + m) (dm.stride - m)).flatMap (fun x =>
      (loopRange (1 + m) (dm.height - m)).flatMap (fun y =>
        scanCell32 dm.stride dm.map dm.depth x y []))).length : Int)
      ≤ 6 * ((dm.height - m - (1 + m)).toNat : Int) * ((dm.stride - m - (1 + m)).toNat : Int) := by
    exact_mod_cast h1
  push_cast
  nlinarith

/-- What `Join32` returns on a rectangle inside the grid without an empty cell. -/
theorem join32_of_pre (dm : State) (x1 y1 x2 y2 : Int)
    (hx1 : 0 ≤ x1) (hx12 : x1 ≤ x2) (hx2 : x2 < dm.stride)
    (hy12 : y1 ≤ y2) (hy2 : y2 < dm.height)
    (hcells : ∀ x y : Int, x1 ≤ x → x ≤ x2 → y1 ≤ y → y ≤ y2 →
      0 ≤ readAt dm.map (y * dm.stride + x)) :
    Join32 dm x1 y1 x2 y2
      = (joinCheck dm.indices.length
          (MakeSurface32 (joinOverwrite dm x1 y1 x2 y2
            (readAt dm.map (y1 * dm.stride + x1)) (readAt dm.map (y1 * dm.stride + x2))
            (readAt dm.map (y2 * dm.stride + x1)) (readAt dm.map (y2 * dm.stride + x2))
            (joinClear dm.stride (loopRange y1 (y2 + 1)) (loopRange x1 (x2 + 1)) dm.map).2)
            dm.lastMargin).indices.length x1 y1 x2 y2,
        MakeSurface32 (joinOverwrite dm x1 y1 x2 y2
            (readAt dm.map (y1 * dm.stride + x1)) (readAt dm.map (y1 * dm.stride + x2))
            (readAt dm.map (y2 * dm.stride + x1)) (readAt dm.map (y2 * dm.stride + x2))
            (joinClear dm.stride (loopRange y1 (y2 + 1)) (loopRange x1 (x2 + 1)) dm.map).2)
            dm.lastMargin) := by
  have hclear := (joinClear_ok dm.stride (loopRange y1 (y2 + 1)) (loopRange x1 (x2 + 1)) dm.map
    (nodup_loopRange _ _) (nodup_loopRange _ _)
    (fun x hx => by rw [mem_loopRange] at hx; omega)
    (fun x hx y hy => by
      rw [mem_loopRange] at hx hy
      exact hcells x y (by omega) (by omega) (by omega) (by omega))).1
  have hsplit : joinClear dm.stride (loopRange y1 (y2 + 1)) (loopRange x1 (x2 + 1)) dm.map
      = (true, (joinClear dm.stride (loopRange y1 (y2 + 1)) (loopRange x1 (x2 + 1)) dm.map).2) :=
    Prod.ext hclear rfl
  have ha := hcells x1 y1 (le_refl _) hx12 (le_refl _) hy12
  have hb := hcells x2 y1 hx12 (le_refl _) (le_refl _) hy12
  have hc := hcells x1 y2 (le_refl _) hx12 hy12 (le_refl _)
  have hd := hcells x2 y2 hx12 (le_refl _) hy12 (le_refl _)
  have hcorner : ¬ (readAt dm.map (y1 * dm.stride + x1) < 0
      ∨ readAt dm.map (y1 * dm.stride + x2) < 0
      ∨ readAt dm.map (y2 * dm.stride + x1) < 0
      ∨ readAt dm.map (y2 * dm.stride + x2) < 0) := by
    omega
  unfold Join32
  rw [if_neg (not_le.mpr hx2), if_neg (not_le.mpr hy2)]
  simp only []
  rw [if_neg hcorner, hsplit]
  rfl

theorem isSurface32_nonneg (depth : List F32) (a b c : Int)
    (h : IsSurface32 depth a b c = true) : 0 ≤ a ∧ 0 ≤ b ∧ 0 ≤ c := by
  unfold IsSurface32 at h
  by_cases hg : 0 ≤ a ∧ 0 ≤ b ∧ 0 ≤ c ∧ a ≠ b ∧ b ≠ c ∧ c ≠ a
  · exact ⟨hg.1, hg.2.1, hg.2.2.1⟩
  · simp only [] at h
    rw [if_neg hg] at h
    cases h

theorem dvd_length_scanCell32 (stride : Int) (map : List Int) (depth : List ℚ) (x y : Int) :
    3 ∣ (scanCell32 stride map depth x y []).length := by
  unfold scanCell32
  simp only []
  split_ifs
  · exact ⟨2, by simp⟩
  · exact ⟨1, by simp⟩
  · exact ⟨1, by simp⟩
  · exact ⟨0, by simp⟩

/-- An entry pushed by the scan with the binary32 validator is a non-negative
entry of `map`. -/
theorem scanCell32_entry_mem (stride : Int) (map : List Int) (depth : List ℚ) (x y v : Int)
    (h : v ∈ scanCell32 stride map depth x y []) : 0 ≤ v ∧ v ∈ map := by
  have key : ∀ a b c : Int, IsSurface32 (depth32 depth) (readAt map a) (readAt map b)
      (readAt map c) = true → (v = readAt map a ∨ v = readAt map b ∨ v = readAt map c) →
      0 ≤ v ∧ v ∈ map := by
    intro a b c hs hv
    have hn := isSurface32_nonneg _ _ _ _ hs
    rcases hv with rfl | rfl | rfl
    · exact ⟨hn.1, readAt_nonneg_mem _ _ hn.1⟩
    · exact ⟨hn.2.1, readAt_nonneg_mem _ _ hn.2.1⟩
    · exact ⟨hn.2.2, readAt_nonneg_mem _ _ hn.2.2⟩
  unfold scanCell32 at h
  simp only [] at h
  split_ifs at h with h1 h2 h2
  · simp only [List.nil_append, List.cons_append, List.mem_cons, List.mem_singleton,
      List.not_mem_nil, or_false] at h
    rcases h with h | h | h | h | h | h <;> first
      | (refine key _ _ _ h1 ?_; tauto)
      | (refine key _ _ _ h2 ?_; tauto)
  · simp only [List.nil_append, List.mem_cons, List.mem_singleton, List.not_mem_nil,
      or_false] at h
    rcases h with h | h | h <;> (refine key _ _ _ h1 ?_; tauto)
  · simp only [List.nil_append, List.mem_cons, List.mem_singleton, List.not_mem_nil,
      or_false] at h
    rcases h with h | h | h <;> (refine key _ _ _ h2 ?_; tauto)
  · simp at h

/-- `MakeSurface32` keeps the invariant. -/
theorem makeSurface32_invariant (dm : State) (m : Int) (h : Invariant dm) :
    Invariant (MakeSurface32 dm m) := by
  refine ⟨h.depth_length, h.colors_length, h.map_valid, h.rects_valid, ?_, ?_⟩
  · rw [makeSurface32_indices]
    simp only [List.length_append]
    refine Nat.dvd_add (Nat.dvd_add h.indices_triples ?_) ?_
    · exact dvd_length_flatMap _ _ 3 (fun x _ =>
        dvd_length_flatMap _ _ 3 (fun y _ => dvd_length_scanCell32 _ _ _ _ _))
    · exact dvd_length_flatMap _ _ 3 (fun r _ => ⟨2, rfl⟩)
  · intro v hv
    have hq := (makeSurface_invariant dm m h).indices_valid
    rw [makeSurface32_indices] at hv
    rw [makeSurface_indices] at hq
    rcases List.mem_append.mp hv with hv | hv
    · rcases List.mem_append.mp hv with hv | hv
      · exact h.indices_valid v hv
      · rw [List.mem_flatMap] at hv
        obtain ⟨x, _, hv⟩ := hv
        rw [List.mem_flatMap] at hv
        obtain ⟨y, _, hv⟩ := hv
        have hm := scanCell32_entry_mem _ _ _ _ _ _ hv
        exact ⟨hm.1, h.map_valid v hm.2 hm.1⟩
    · exact hq v (List.mem_append_right _ hv)

/-- `Join32` keeps the invariant and the three per-vertex vectors. -/
theorem join32_invariant (dm : State) (x1 y1 x2 y2 : Int) (h : Invariant dm) :
    Invariant (Join32 dm x1 y1 x2 y2).2 ∧
    (Join32 dm x1 y1 x2 y2).2.vertices = dm.vertices ∧
    (Join32 dm x1 y1 x2 y2).2.depth = dm.depth ∧
    (Join32 dm x1 y1 x2 y2).2.colors = dm.colors := by
  unfold Join32
  by_cases h1 : x2 ≥ dm.stride
  · rw [if_pos h1]
    exact ⟨h, rfl, rfl, rfl⟩
  rw [if_neg h1]
  by_cases h2 : y2 ≥ dm.height
  · rw [if_pos h2]
    exact ⟨h, rfl, rfl, rfl⟩
  rw [if_neg h2]
  simp only []
  by_cases h3 : readAt dm.map (y1 * dm.stride + x1) < 0
      ∨ readAt dm.map (y1 * dm.stride + x2) < 0
      ∨ readAt dm.map (y2 * dm.stride + x1) < 0
      ∨ readAt dm.map (y2 * dm.stride + x2) < 0
  · rw [if_pos h3]
    exact ⟨h, rfl, rfl, rfl⟩
  rw [if_neg h3]
  have ha : 0 ≤ readAt dm.map (y1 * dm.stride + x1) := by omega
  have hb : 0 ≤ readAt dm.map (y1 * dm.stride + x2) := by omega
  have hc : 0 ≤ readAt dm.map (y2 * dm.stride + x1) := by omega
  have hd : 0 ≤ readAt dm.map (y2 * dm.stride + x2) := by omega
  have hmem := joinClear_mem dm.stride (loopRange y1 (y2 + 1)) (loopRange x1 (x2 + 1)) dm.map
  rcases hcl : joinClear dm.stride (loopRange y1 (y2 + 1)) (loopRange x1 (x2 + 1)) dm.map
    with ⟨ok, map1⟩
  rw [hcl] at hmem
  cases ok with
  | false =>
    refine ⟨⟨h.depth_length, h.colors_length, ?_, h.rects_valid, h.indices_triples,
      h.indices_valid⟩, rfl, rfl, rfl⟩
    intro v hv h0
    rcases hmem v hv with hv | rfl
    · exact h.map_valid v hv h0
    · omega
  | true =>
    exact ⟨makeSurface32_invariant _ _ (joinOverwrite_invariant dm x1 y1 x2 y2 _ _ _ _ map1 h
      (fun v hv => hmem v hv) ⟨ha, readAt_nonneg_mem _ _ ha⟩ ⟨hb, readAt_nonneg_mem _ _ hb⟩
      ⟨hc, readAt_nonneg_mem _ _ hc⟩ ⟨hd, readAt_nonneg_mem _ _ hd⟩), rfl, rfl, rfl⟩

/-- A non-empty id left in the map by `Join` is an id of the map before it. -/
theorem join_map_mem (dm : State) (x1 y1 x2 y2 : Int) (v : Int) (h0 : 0 ≤ v)
    (hv : v ∈ (Join dm x1 y1 x2 y2).2.map) : v ∈ dm.map := by
  unfold Join at hv
  by_cases h1 : x2 ≥ dm.stride
  · rw [if_pos h1] at hv
    exact hv
  rw [if_neg h1] at hv
  by_cases h2 : y2 ≥ dm.height
  · rw [if_pos h2] at hv
    exact hv
  rw [if_neg h2] at hv
  simp only [] at hv
  by_cases h3 : readAt dm.map (y1 * dm.stride + x1) < 0
      ∨ readAt dm.map (y1 * dm.stride + x2) < 0
      ∨ readAt dm.map (y2 * dm.stride + x1) < 0
      ∨ readAt dm.map (y2 * dm.stride + x2) < 0
  · rw [if_pos h3] at hv
    exact hv
  rw [if_neg h3] at hv
  have ha : 0 ≤ readAt dm.map (y1 * dm.stride + x1) := by omega
  have hb : 0 ≤ readAt dm.map (y1 * dm.stride + x2) := by omega
  have hc : 0 ≤ readAt dm.map (y2 * dm.stride + x1) := by omega
  have hd : 0 ≤ readAt dm.map (y2 * dm.stride + x2) := by omega
  have hmem := joinClear_mem dm.stride (loopRange y1 (y2 + 1)) (loopRange x1 (x2 + 1)) dm.map
  rcases hcl : joinClear dm.stride (loopRange y1 (y2 + 1)) (loopRange x1 (x2 + 1)) dm.map
    with ⟨ok, map1⟩
  rw [hcl] at hmem hv
  cases ok with
  | false =>
    rcases hmem v hv with hv | rfl
    · exact hv
    · omega
  | true =>
    simp only [MakeSurface, joinOverwrite] at hv
    rcases joinColumns_mem _ _ _ _ _ _ _ _ _ _ v hv with hv | rfl | rfl | rfl | rfl
    · rcases joinRows_mem _ _ _ _ _ _ _ _ _ _ v hv with hv | rfl | rfl | rfl | rfl
      · rcases hmem v hv with hv | rfl
        · exact hv
        · omega
      · exact readAt_nonneg_mem _ _ ha
      · exact readAt_nonneg_mem _ _ hb
      · exact readAt_nonneg_mem _ _ hc
      · exact readAt_nonneg_mem _ _ hd
    · exact readAt_nonneg_mem _ _ ha
    · exact readAt_nonneg_mem _ _ hb
    · exact readAt_nonneg_mem _ _ hc
    · exact readAt_nonneg_mem _ _ hd

/-! ## The validator in binary32 -/

/-- C4, as stated, fails in binary32.  The depths of the vertices 0, 1, 2 are the
binary32 numbers 1.9073863, 1.90738809 and 2.05410838.  The sum of the three is
rounded in the order `(depth[c] + depth[b]) + depth[a]`: with vertex 2 first it
is `3076985/524288`, otherwise `12307939/2097152`, and the threshold is above
`|depth[0] - depth[2]|` in the first case only.  `IsSurface` is true on the two
orders that start with vertex 2 and false on the four others. -/
theorem isSurface32_order_matters :
    round32 (4000079 / 2097152) = F32.fin (4000079 / 2097152) ∧
    round32 (16000331 / 8388608) = F32.fin (16000331 / 8388608) ∧
    round32 (8615555 / 4194304) = F32.fin (8615555 / 4194304) ∧
    IsSurface32 [F32.fin (4000079 / 2097152), F32.fin (16000331 / 8388608),
      F32.fin (8615555 / 4194304)] 0 1 2 = false ∧
    IsSurface32 [F32.fin (4000079 / 2097152), F32.fin (16000331 / 8388608),
      F32.fin (8615555 / 4194304)] 0 2 1 = false ∧
    IsSurface32 [F32.fin (4000079 / 2097152), F32.fin (16000331 / 8388608),
      F32.fin (8615555 / 4194304)] 1 0 2 = false ∧
    IsSurface32 [F32.fin (4000079 / 2097152), F32.fin (16000331 / 8388608),
      F32.fin (8615555 / 4194304)] 1 2 0 = false ∧
    IsSurface32 [F32.fin (4000079 / 2097152), F32.fin (16000331 / 8388608),
      F32.fin (8615555 / 4194304)] 2 0 1 = true ∧
    IsSurface32 [F32.fin (4000079 / 2097152), F32.fin (16000331 / 8388608),
      F32.fin (8615555 / 4194304)] 2 1 0 = true := by
  decide!

/-- C4 (amended): in binary32, for every depth vector (infinities and NaN
included), `IsSurface` gives the same answer when its last two arguments are
exchanged; with depths taken as exact numbers it gives the same answer on all
six orders of its arguments. -/
theorem isSurface_order (floats : List F32) (depth : List ℚ) (a b c : Int) :
    IsSurface32 floats a b c = IsSurface32 floats a c b ∧
    (IsSurface depth a b c = IsSurface depth a c b ∧
      IsSurface depth a b c = IsSurface depth b a c ∧
      IsSurface depth a b c = IsSurface depth b c a ∧
      IsSurface depth a b c = IsSurface depth c a b ∧
      IsSurface depth a b c = IsSurface depth c b a) :=
  ⟨isSurface32_swap23 floats a b c, isSurface_perm_exact depth a b c⟩

/-! ## The return value of `Join` -/

/-- C5: on a rectangle inside the grid without an empty cell, `Join` returns
true exactly when the index count before the call minus the index count after
it is `6*w*h - 24`; this holds of `Join` with the binary32 validator and of
`Join` with the exact one.  The sizes are those of a grid with
`6 * stride * height` inside the range of an `int`, so that the product of
line 82 does not overflow, and of an index vector whose size fits the
`unsigned int` of line 78. -/
theorem join_return_iff (dm : State) (x1 y1 x2 y2 : Int)
    (hx1 : 0 ≤ x1) (hx12 : x1 ≤ x2) (hx2 : x2 < dm.stride)
    (hy1 : 0 ≤ y1) (hy12 : y1 ≤ y2) (hy2 : y2 < dm.height)
    (hcells : ∀ x y : Int, x1 ≤ x → x ≤ x2 → y1 ≤ y → y ≤ y2 →
      0 ≤ readAt dm.map (y * dm.stride + x))
    (hmargin : 0 ≤ dm.lastMargin) (hgrid : 6 * (dm.stride * dm.height) < 2 ^ 31)
    (hrects : (dm.rects.length : Int) < 2 ^ 31) (hsize : (dm.indices.length : Int) < 2 ^ 32) :
    ((Join32 dm x1 y1 x2 y2).1 = true
      ↔ (dm.indices.length : Int) - ((Join32 dm x1 y1 x2 y2).2.indices.length : Int)
          = 6 * (x2 - x1 + 1) * (y2 - y1 + 1) - 24) ∧
    ((Join dm x1 y1 x2 y2).1 = true
      ↔ (dm.indices.length : Int) - ((Join dm x1 y1 x2 y2).2.indices.length : Int)
          = 6 * (x2 - x1 + 1) * (y2 - y1 + 1) - 24) := by
  have _ := hy1
  have hw0 : 0 ≤ (x2 - x1 + 1) * (y2 - y1 + 1) := mul_nonneg (by omega) (by omega)
  have hw1 : (x2 - x1 + 1) * (y2 - y1 + 1) ≤ dm.stride * dm.height := by
    have h1 : 0 ≤ (dm.stride - (x2 - x1 + 1)) * (y2 - y1 + 1) :=
      mul_nonneg (by omega) (by omega)
    have h2 : 0 ≤ dm.stride * (dm.height - (y2 - y1 + 1)) :=
      mul_nonneg (by omega) (by omega)
    nlinarith
  constructor
  · rw [join32_of_pre dm x1 y1 x2 y2 hx1 hx12 hx2 hy12 hy2 hcells]
    simp only []
    have hlen := length_makeSurface32_le (joinOverwrite dm x1 y1 x2 y2
      (readAt dm.map (y1 * dm.stride + x1)) (readAt dm.map (y1 * dm.stride + x2))
      (readAt dm.map (y2 * dm.stride + x1)) (readAt dm.map (y2 * dm.stride + x2))
      (joinClear dm.stride (loopRange y1 (y2 + 1)) (loopRange x1 (x2 + 1)) dm.map).2)
      dm.lastMargin hmargin (by simp only [joinOverwrite]; omega)
      (by simp only [joinOverwrite]; omega)
    simp only [joinOverwrite, List.length_nil, List.length_append, List.length_singleton,
      Nat.cast_zero, Nat.cast_add, Nat.cast_one] at hlen
    apply joinCheck_iff _ _ _ _ _ _ hsize hw0
    · norm_num at hgrid ⊢
      linarith
    · norm_num at hgrid hrects hsize ⊢
      simp only [joinOverwrite] at hlen ⊢
      linarith
  · rw [join_of_pre dm x1 y1 x2 y2 hx1 hx12 hx2 hy12 hy2 hcells]
    simp only []
    have hlen := length_makeSurface_le (joinOverwrite dm x1 y1 x2 y2
      (readAt dm.map (y1 * dm.stride + x1)) (readAt dm.map (y1 * dm.stride + x2))
      (readAt dm.map (y2 * dm.stride + x1)) (readAt dm.map (y2 * dm.stride + x2))
      (joinClear dm.stride (loopRange y1 (y2 + 1)) (loopRange x1 (x2 + 1)) dm.map).2)
      dm.lastMargin hmargin (by simp only [joinOverwrite]; omega)
      (by simp only [joinOverwrite]; omega)
    simp only [joinOverwrite, List.length_nil, List.length_append, List.length_singleton,
      Nat.cast_zero, Nat.cast_add, Nat.cast_one] at hlen
    apply joinCheck_iff _ _ _ _ _ _ hsize hw0
    · norm_num at hgrid ⊢
      linarith
    · norm_num at hgrid hrects hsize ⊢
      simp only [joinOverwrite] at hlen ⊢
      linarith

/-- Every cell of the triangulated 8x8 grid is non-empty. -/
theorem flatGrid_eight_cells (x y : Int) (hx1 : 1 ≤ x) (hx2 : x ≤ 5) (hy1 : 1 ≤ y)
    (hy2 : y ≤ 5) :
    0 ≤ readAt (MakeSurface32 (flatGrid 8 8 1) 0).map
      (y * (MakeSurface32 (flatGrid 8 8 1) 0).stride + x) := by
  have hx : x = 1 ∨ x = 2 ∨ x = 3 ∨ x = 4 ∨ x = 5 := by omega
  have hy : y = 1 ∨ y = 2 ∨ y = 3 ∨ y = 4 ∨ y = 5 := by omega
  rcases hx with rfl | rfl | rfl | rfl | rfl <;>
    rcases hy with rfl | rfl | rfl | rfl | rfl <;> decide

/-- C5 on the 8x8 grid of depth 1 triangulated in binary32: `Join(1,1,5,5)`
returns true, and the index count falls by `6*5*5 - 24 = 126`. -/
theorem join_return_iff_witness :
    (Join32 (MakeSurface32 (flatGrid 8 8 1) 0) 1 1 5 5).1 = true ∧
    ((MakeSurface32 (flatGrid 8 8 1) 0).indices.length : Int)
      - ((Join32 (MakeSurface32 (flatGrid 8 8 1) 0) 1 1 5 5).2.indices.length : Int)
      = 6 * (5 - 1 + 1) * (5 - 1 + 1) - 24 :=
  ⟨by decide!,
    (join_return_iff (MakeSurface32 (flatGrid 8 8 1) 0) 1 1 5 5 (by decide) (by decide)
      (by decide) (by decide) (by decide) (by decide)
      (fun x y h1 h2 h3 h4 => flatGrid_eight_cells x y h1 h2 h3 h4)
      (by decide) (by decide) (by decide) (by decide!)).1.mp (by decide!)⟩

/-! ## The triangle count of a flat grid -/

/-- C7, as stated, fails in binary32: on the 4x4 grid whose depths are all the
positive number `2^-149` (the smallest binary32 number above zero) the threshold
`0.075f * (3 * 2^-149) / 3.0f` rounds to zero, no triangle passes `0 < 0`, and
`MakeSurface(0)` leaves no index entry where the claim counts 18 triangles. -/
theorem makeSurface32_subnormal :
    FlatGrid (flatGrid 4 4 (1 / 2 ^ 149)) (1 / 2 ^ 149) ∧
    round32 (1 / 2 ^ 149) = F32.fin (1 / 2 ^ 149) ∧
    (MakeSurface32 (flatGrid 4 4 (1 / 2 ^ 149)) 0).indices = [] ∧
    ((MakeSurface32 (flatGrid 4 4 (1 / 2 ^ 149)) 0).indices.length : Int)
      ≠ 3 * (2 * (4 - 1 - 2 * 0) * (4 - 1 - 2 * 0)) :=
  ⟨flatGrid_flat 4 4 _ (by norm_num), by decide!, by decide!, by decide!⟩

/-- C7 (amended): on a fully populated grid of pairwise distinct ids whose depths
are all one number `z ≥ 2^-143`, without quads and with an empty index list,
`MakeSurface(m)`, computing in binary32, leaves
`3 * (2 * (stride-1-2m) * (height-1-2m))` index entries, and the id of a cell
whose column is `< m` or `> stride-1-m`, or whose row is `< m` or
`> height-1-m`, is not among them. -/
theorem makeSurface32_flat_count (dm : State) (z : ℚ) (m : Int) (hg : FlatGrid dm z)
    (hz : 1 / 2 ^ 143 ≤ z)
    (hr : dm.rects = []) (hi : dm.indices = []) (hm : 0 ≤ m)
    (hs : 0 ≤ dm.stride - 1 - 2 * m) (hh : 0 ≤ dm.height - 1 - 2 * m) :
    ((MakeSurface32 dm m).indices.length : Int)
        = 3 * (2 * (dm.stride - 1 - 2 * m) * (dm.height - 1 - 2 * m)) ∧
    (∀ cx cy : Int, 0 ≤ cx → cx < dm.stride → 0 ≤ cy → cy < dm.height →
        (cx < m ∨ cx > dm.stride - 1 - m ∨ cy < m ∨ cy > dm.height - 1 - m) →
        readAt dm.map (cy * dm.stride + cx) ∉ (MakeSurface32 dm m).indices) := by
  have hz1 : (2 : ℚ) ^ (-143 : Int) ≤ z := by
    norm_num at hz ⊢
    exact hz
  rw [makeSurface32_eq dm m (fun a b c => isSurface32_flat hg hz1 a b c)]
  exact makeSurface_flat_count_exact dm z m hg hr hi hm hs hh

/-- C7 on the 4x4 grid of depth 1 with margin 0: 18 triangles, 54 entries. -/
theorem makeSurface32_flat_count_witness :
    FlatGrid (flatGrid 4 4 1) 1 ∧ (flatGrid 4 4 1).rects = [] ∧ (flatGrid 4 4 1).indices = [] ∧
    ((MakeSurface32 (flatGrid 4 4 1) 0).indices.length : Int) = 3 * 18 :=
  ⟨flatGrid_four, rfl, rfl,
    (makeSurface32_flat_count (flatGrid 4 4 1) 1 0 flatGrid_four (by norm_num) rfl rfl
      (by decide) (by decide) (by decide)).1⟩

/-! ## The invariant -/

/-- C15: every state reached from a construction that stays inside the grid by
`MakeSurface(m)` with `m ≥ 0`, `Join` inside the grid (each with the binary32 or
the exact validator) and `SmoothSurface` satisfies the invariant (equal lengths
of `vertices`, `depth`, `colors`; valid ids in `map`, `rects` and `indices`;
whole triangles in `indices`), and none of the operations changes the length of
`vertices`, `depth` or `colors`. -/
theorem reachable_invariant (dm : State) (h : Reachable dm) :
    Invariant dm ∧
    (∀ m : Int, (MakeSurface32 dm m).vertices.length = dm.vertices.length
      ∧ (MakeSurface32 dm m).depth.length = dm.depth.length
      ∧ (MakeSurface32 dm m).colors.length = dm.colors.length) ∧
    (∀ x1 y1 x2 y2 : Int, (Join32 dm x1 y1 x2 y2).2.vertices.length = dm.vertices.length
      ∧ (Join32 dm x1 y1 x2 y2).2.depth.length = dm.depth.length
      ∧ (Join32 dm x1 y1 x2 y2).2.colors.length = dm.colors.length) ∧
    (∀ m : Int, (MakeSurface dm m).vertices.length = dm.vertices.length
      ∧ (MakeSurface dm m).depth.length = dm.depth.length
      ∧ (MakeSurface dm m).colors.length = dm.colors.length) ∧
    (∀ x1 y1 x2 y2 : Int, (Join dm x1 y1 x2 y2).2.vertices.length = dm.vertices.length
      ∧ (Join dm x1 y1 x2 y2).2.depth.length = dm.depth.length
      ∧ (Join dm x1 y1 x2 y2).2.colors.length = dm.colors.length) ∧
    (∀ n : Int, (SmoothSurface dm n).vertices.length = dm.vertices.length
      ∧ (SmoothSurface dm n).depth.length = dm.depth.length
      ∧ (SmoothSurface dm n).colors.length = dm.colors.length) := by
  have hinv : Invariant dm := by
    induction h with
    | construct W H mapScale cam matrix pts _ _ =>
      exact construct_invariant W H mapScale cam matrix pts
    | makeSurface dm m _ _ ih => exact makeSurface_invariant dm m ih
    | makeSurface32 dm m _ _ ih => exact makeSurface32_invariant dm m ih
    | join dm x1 y1 x2 y2 _ _ _ _ _ _ _ _ _ ih => exact (join_invariant dm x1 y1 x2 y2 ih).1
    | join32 dm x1 y1 x2 y2 _ _ _ _ _ _ _ _ _ ih =>
      exact (join32_invariant dm x1 y1 x2 y2 ih).1
    | smooth dm n _ ih => exact smoothSurface_invariant dm n ih
  refine ⟨hinv, fun m => ⟨rfl, rfl, rfl⟩, fun x1 y1 x2 y2 => ?_, fun m => ⟨rfl, rfl, rfl⟩,
    fun x1 y1 x2 y2 => ?_, fun n => ?_⟩
  · obtain ⟨_, j1, j2, j3⟩ := join32_invariant dm x1 y1 x2 y2 hinv
    exact ⟨by rw [j1], by rw [j2], by rw [j3]⟩
  · obtain ⟨_, j1, j2, j3⟩ := join_invariant dm x1 y1 x2 y2 hinv
    exact ⟨by rw [j1], by rw [j2], by rw [j3]⟩
  · have hs := smoothSurface_invariant dm n hinv
    obtain ⟨_, _, _, f4, f5, f6, _⟩ := smoothIterations_frame dm n
    have e2 : (SmoothSurface dm n).depth = dm.depth := f5
    have e3 : (SmoothSurface dm n).colors = dm.colors := f6
    refine ⟨?_, by rw [e2], by rw [e3]⟩
    unfold SmoothSurface
    rw [length_applyGeometry, f4]

/-- C15 on the 3x3 grid of depth 1, constructed from nine points that fall into
nine cells, triangulated, merged and smoothed. -/
theorem reachable_invariant_witness :
    Reachable (SmoothSurface mergedGrid 2) ∧ Invariant (SmoothSurface mergedGrid 2) :=
  have hr : Reachable (SmoothSurface mergedGrid 2) :=
    Reachable.smooth _ 2
      (Reachable.join _ 0 0 2 2
        (Reachable.makeSurface _ 0
          (Reachable.construct 3 3 1 floorCamera identityMatrix _ (by decide) (by decide!))
          (le_refl 0))
        (by decide) (by decide!) (by decide) (by decide!) (by decide) (by decide!) (by decide)
        (by decide!))
  ⟨hr, (reachable_invariant (SmoothSurface mergedGrid 2) hr).1⟩

/-! ## The self-check of `Join` on a clean grid -/

/-- C18, as stated, fails in binary32: on the 7x5 grid whose depths are all the
positive number `2^-149`, `MakeSurface(0)` leaves no index entry, and
`Join(1,1,5,3)`, a rectangle strictly inside the scanned area with `w = 5` and
`h = 3`, leaves the six entries of its quad and returns false. -/
theorem join32_subnormal :
    FlatGrid (flatGrid 7 5 (1 / 2 ^ 149)) (1 / 2 ^ 149) ∧
    (MakeSurface32 (flatGrid 7 5 (1 / 2 ^ 149)) 0).indices = [] ∧
    (Join32 (MakeSurface32 (flatGrid 7 5 (1 / 2 ^ 149)) 0) 1 1 5 3).2.indices
      = [22, 12, 8, 12, 22, 26] ∧
    (Join32 (MakeSurface32 (flatGrid 7 5 (1 / 2 ^ 149)) 0) 1 1 5 3).1 = false :=
  ⟨flatGrid_flat 7 5 _ (by norm_num), by decide!, by decide!, by decide!⟩

/-- C18 (amended): on a fully populated grid of pairwise distinct ids whose
depths are all one number `z ≥ 2^-143`, with no quads and `indices` built by
`MakeSurface(m)`, `m ≥ 0`, for a rectangle strictly inside the scanned area with
`w ≥ 3` and `h ≥ 3`, all computed in binary32: `Join` returns true exactly when
`w ≥ 5` or `h ≥ 5`; the index count after the call is the count before it minus
`6*w*h - 24`, plus three when both `w` and `h` are at most four; and in that
case the top-left inner window pushes the triangle `(c, b, a)` of the corner ids
and `Join` returns false.  The grid has `6 * stride * height` inside the range
of an `int`, so that the product of line 82 does not overflow. -/
theorem join32_clean_grid (dm0 : State) (z : ℚ) (m x1 y1 x2 y2 : Int)
    (hg : FlatGrid dm0 z) (hz : 1 / 2 ^ 143 ≤ z)
    (hr : dm0.rects = []) (hi : dm0.indices = []) (hm : 0 ≤ m)
    (hx1 : 1 + m ≤ x1) (hx2 : x2 ≤ dm0.stride - m - 2)
    (hy1 : 1 + m ≤ y1) (hy2 : y2 ≤ dm0.height - m - 2)
    (hw : 3 ≤ x2 - x1 + 1) (hh : 3 ≤ y2 - y1 + 1)
    (hsize : 6 * (dm0.stride * dm0.height) < 2 ^ 31) :
    ((Join32 (MakeSurface32 dm0 m) x1 y1 x2 y2).1 = true
      ↔ (5 ≤ x2 - x1 + 1 ∨ 5 ≤ y2 - y1 + 1)) ∧
    ((Join32 (MakeSurface32 dm0 m) x1 y1 x2 y2).2.indices.length : Int)
      = ((MakeSurface32 dm0 m).indices.length : Int)
        - (6 * (x2 - x1 + 1) * (y2 - y1 + 1) - 24)
        + (if x2 - x1 + 1 ≤ 4 ∧ y2 - y1 + 1 ≤ 4 then 3 else 0) ∧
    (x2 - x1 + 1 ≤ 4 → y2 - y1 + 1 ≤ 4 →
      (Join32 (MakeSurface32 dm0 m) x1 y1 x2 y2).1 = false ∧
      scanCell32 dm0.stride (Join32 (MakeSurface32 dm0 m) x1 y1 x2 y2).2.map dm0.depth
          (x1 + 1) (y1 + 1) []
        = [readAt dm0.map (y2 * dm0.stride + x1), readAt dm0.map (y1 * dm0.stride + x2),
            readAt dm0.map (y1 * dm0.stride + x1)]) := by
  have hz1 : (2 : ℚ) ^ (-143 : Int) ≤ z := by
    norm_num at hz ⊢
    exact hz
  have hgd : FlatGrid (MakeSurface dm0 m) z :=
    ⟨hg.length_map, hg.populated, hg.distinct, hg.depth_eq, hg.depth_pos⟩
  have e1 : MakeSurface32 dm0 m = MakeSurface dm0 m :=
    makeSurface32_eq dm0 m (fun a b c => isSurface32_flat hg hz1 a b c)
  have e2 : Join32 (MakeSurface dm0 m) x1 y1 x2 y2 = Join (MakeSurface dm0 m) x1 y1 x2 y2 :=
    join32_eq _ _ _ _ _ (fun a b c => isSurface32_flat hgd hz1 a b c)
  have e3 : scanCell32 dm0.stride (Join (MakeSurface dm0 m) x1 y1 x2 y2).2.map dm0.depth
      (x1 + 1) (y1 + 1) []
      = scanCell dm0.stride (Join (MakeSurface dm0 m) x1 y1 x2 y2).2.map dm0.depth
        (x1 + 1) (y1 + 1) [] :=
    scanCell32_eq _ _ _ (fun a b c pa pb pc => isSurface32_flat hg hz1 a b c
      (fun h0 => join_map_mem (MakeSurface dm0 m) x1 y1 x2 y2 a h0 (pa h0))
      (fun h0 => join_map_mem (MakeSurface dm0 m) x1 y1 x2 y2 b h0 (pb h0))
      (fun h0 => join_map_mem (MakeSurface dm0 m) x1 y1 x2 y2 c h0 (pc h0))) _ _ _
  rw [e1, e2, e3]
  exact join_clean_grid_exact dm0 z m x1 y1 x2 y2 hg hr hi hm hx1 hx2 hy1 hy2 hw hh hsize

/-- C18 on the 7x5 grid of depth 1, margin 0: `Join(1,1,5,3)` (`w = 5`, `h = 3`)
returns true; on the 6x6 grid `Join(1,1,3,3)` (`w = h = 3`) returns false. -/
theorem join32_clean_grid_witness :
    (Join32 (MakeSurface32 (flatGrid 7 5 1) 0) 1 1 5 3).1 = true ∧
    (Join32 (MakeSurface32 (flatGrid 6 6 1) 0) 1 1 3 3).1 = false :=
  ⟨(join32_clean_grid (flatGrid 7 5 1) 1 0 1 1 5 3 (flatGrid_flat 7 5 1 (by norm_num))
      (by norm_num) rfl rfl
      (by decide) (by decide) (by decide) (by decide) (by decide) (by decide) (by decide)
      (by decide)).1.mpr (Or.inl (by decide)),
    ((join32_clean_grid (flatGrid 6 6 1) 1 0 1 1 3 3 (flatGrid_flat 6 6 1 (by norm_num))
      (by norm_num) rfl rfl
      (by decide) (by decide) (by decide) (by decide) (by decide) (by decide) (by decide)
      (by decide)).2.2 (by decide) (by decide)).1⟩

end Depthmap
